import Mathlib

/-!
Verification of the Ludwig configuration-resolution core (`ModelConfig`,
`src/ludwig/schema/config_object.py`, and the registered config checks in
`src/ludwig/config_validation/checks.py`) against its natural-language
specification.

The Python code is shallowly embedded: config dictionaries and schema objects
are both association structures over a JSON-like value type `J` (Python schema
objects are populated purely through `setattr` driven by dict keys, and
projected back with `to_dict`, so an attribute map is a faithful model of the
reachable object states).  Construction is the function `from_dict` below,
errors are values of `PyError` mirroring the Python exception classes raised
at each site.

Modules of the repository that `config_object.py` imports but that are not
present under `src/` (the trainer schema, the global defaults schema, a few
encoder/decoder classes, `compute_feature_hash`, the backward-compatibility
upgrader and the structural `validate_config`) are modelled from the
specification; every such definition carries a doc comment starting with
`Modelled from the spec:`.
-/

set_option autoImplicit false

mutual

/-- JSON-like values: the common representation of Python config dicts and of
schema objects (whose reachable state is their `__dict__`).  `digest` is an
opaque hash value, see `compute_feature_hash`. -/
inductive J where
  | null : J
  | b : Bool → J
  | i : Int → J
  | s : String → J
  | arr : JList → J
  | obj : JFields → J
  | digest : J → J → J
deriving Repr, DecidableEq

/-- Lists of JSON values (Python lists). -/
inductive JList where
  | nil : JList
  | cons : J → JList → JList
deriving Repr, DecidableEq

/-- Ordered association fields of a Python dict or of an object `__dict__`
(Python dicts and instance dictionaries preserve insertion order). -/
inductive JFields where
  | nil : JFields
  | cons : String → J → JFields → JFields
deriving Repr, DecidableEq

end

/-- Python exception classes raised by the configuration core.
`validationError` is `marshmallow.ValidationError`, `configValidationError` is
`ludwig.error.ConfigValidationError`; the rest are builtins. -/
inductive PyError where
  | validationError (msg : String)
  | configValidationError (msg : String)
  | valueError (msg : String)
  | typeError (msg : String)
  | keyError (key : String)
  | attributeError (attr : String)
deriving Repr, DecidableEq

instance : DecidableEq (Except PyError J) := fun a b =>
  match a, b with
  | .ok x, .ok y => if h : x = y then .isTrue (by rw [h]) else .isFalse (by simp [h])
  | .error x, .error y => if h : x = y then .isTrue (by rw [h]) else .isFalse (by simp [h])
  | .ok _, .error _ => .isFalse (by simp)
  | .error _, .ok _ => .isFalse (by simp)

/-- Build an ordered field list from a Lean list (used to write literals). -/
def JFields.ofList : List (String × J) → JFields
  | [] => .nil
  | (k, v) :: rest => .cons k v (JFields.ofList rest)

/-- Build a JSON list from a Lean list (used to write literals). -/
def JList.ofList : List J → JList
  | [] => .nil
  | v :: rest => .cons v (JList.ofList rest)

/-- Convert a JSON list to a Lean list. -/
def JList.toList : JList → List J
  | .nil => []
  | .cons v rest => v :: rest.toList

/-- Object literal helper. -/
def J.objL (l : List (String × J)) : J := .obj (JFields.ofList l)

/-- Array literal helper. -/
def J.arrL (l : List J) : J := .arr (JList.ofList l)

/-- The keys of a field list, in order. -/
def JFields.keys : JFields → List String
  | .nil => []
  | .cons k _ rest => k :: rest.keys

/-- The values of a field list, in order. -/
def JFields.values : JFields → List J
  | .nil => []
  | .cons _ v rest => v :: rest.values

/-- Python attribute/key read: first binding of `key`. -/
def getAttr : JFields → String → Option J
  | .nil, _ => none
  | .cons k v rest, key => if k = key then some v else getAttr rest key

/-- Python `setattr` / dict assignment: update the binding in place if the key
exists, otherwise append a new binding at the end (insertion order). -/
def setAttr : JFields → String → J → JFields
  | .nil, key, val => .cons key val .nil
  | .cons k v rest, key, val =>
      if k = key then .cons k val rest else .cons k v (setAttr rest key val)

/-- Python truthiness of a value (`if not x`). -/
def pyTruthy : J → Bool
  | .null => false
  | .b v => v
  | .i v => v != 0
  | .s v => v ≠ ""
  | .arr .nil => false
  | .arr (.cons _ _) => true
  | .obj .nil => false
  | .obj (.cons _ _ _) => true
  | .digest _ _ => true

/-! ## Schema class defaults

Each Python schema class is embedded as its default instance: the ordered
attribute map a freshly constructed instance carries.  Classes present under
`src/` are transcribed from their schema files (field lists abridged to a
representative subset where the source class has many inert leaf parameters;
the orchestration logic never depends on the full field count).  Classes whose
defining module is absent from `src/` are modelled from the specification and
say so in their doc comment. -/

/-- Modelled from the spec: `PassthroughEncoderConfig`
(`ludwig/schema/encoders/base.py` is not under `src/`; imported by
`config_object.py`).  A passthrough encoder has no parameters beyond its type
discriminator. -/
def PassthroughEncoderConfig : J := J.objL [("type", J.s "passthrough")]

/-- Modelled from the spec: `BinaryPassthroughEncoderConfig`
(`ludwig/schema/encoders/binary_encoders.py` is not under `src/`; imported by
`config_object.py`).  The binary-feature passthrough encoder. -/
def BinaryPassthroughEncoderConfig : J := J.objL [("type", J.s "passthrough")]

/-- Modelled from the spec: the `dense` encoder schema class
(`ludwig/schema/encoders/base.py` is not under `src/`). -/
def DenseEncoderConfig : J :=
  J.objL [("type", J.s "dense"), ("num_layers", J.i 1), ("output_size", J.i 256),
    ("use_bias", J.b true), ("activation", J.s "relu")]

/-- Embeds `ParallelCNNConfig` (src/ludwig/schema/encoders/sequence_encoders.py:112-),
abridged to a representative field subset; `num_filters` default 256 and
`filter_size` default 3 are taken verbatim from the source. -/
def ParallelCNNConfig : J :=
  J.objL [("type", J.s "parallel_cnn"), ("max_sequence_length", J.null),
    ("representation", J.s "dense"), ("num_filters", J.i 256), ("filter_size", J.i 3),
    ("pool_function", J.s "max"), ("use_bias", J.b true), ("should_embed", J.b true)]

/-- Embeds `StackedRNNConfig` (src/ludwig/schema/encoders/sequence_encoders.py:618-),
registered as encoder type `rnn` for sequence/text features; abridged field
subset. -/
def StackedRNNConfig : J :=
  J.objL [("type", J.s "rnn"), ("representation", J.s "dense"), ("num_layers", J.i 1),
    ("max_sequence_length", J.null), ("cell_type", J.s "rnn"), ("bidirectional", J.b false),
    ("use_bias", J.b true)]

/-- Embeds `SequenceGeneratorDecoderConfig` (src/ludwig/schema/decoders/sequence_decoders.py:12-58). -/
def SequenceGeneratorDecoderConfig : J :=
  J.objL [("type", J.s "generator"), ("vocab_size", J.null), ("max_sequence_length", J.null),
    ("cell_type", J.s "gru"), ("input_size", J.i 256), ("reduce_input", J.s "sum"),
    ("num_layers", J.i 1)]

/-- Embeds `SequenceTaggerDecoderConfig` (src/ludwig/schema/decoders/sequence_decoders.py:61-110). -/
def SequenceTaggerDecoderConfig : J :=
  J.objL [("type", J.s "tagger"), ("input_size", J.i 256), ("vocab_size", J.null),
    ("max_sequence_length", J.null), ("use_attention", J.b false), ("use_bias", J.b true),
    ("attention_embedding_size", J.i 256), ("attention_num_heads", J.i 8)]

/-- Modelled from the spec: the `classifier` decoder schema class
(`ludwig/schema/decoders/base.py` is not under `src/`; it is the default
decoder of category output features per src/ludwig/schema/features/category_feature.py). -/
def ClassifierDecoderConfig : J :=
  J.objL [("type", J.s "classifier"), ("num_classes", J.null), ("use_bias", J.b true)]

/-- Modelled from the spec: the `regressor` decoder schema class
(`ludwig/schema/decoders/base.py` is not under `src/`; default decoder of
binary output features per src/ludwig/schema/features/binary_feature.py). -/
def RegressorDecoderConfig : J :=
  J.objL [("type", J.s "regressor"), ("use_bias", J.b true)]

/-- Modelled from the spec: the softmax cross-entropy loss schema
(`ludwig/modules/loss_modules.py` and the loss schema classes are not under
`src/`); default loss of category output features. -/
def SoftmaxCrossEntropyLossConfig : J :=
  J.objL [("type", J.s "softmax_cross_entropy"), ("class_weights", J.null), ("weight", J.i 1)]

/-- Embeds the default `loss` of `TextOutputFeatureConfig`
(src/ludwig/schema/features/text_feature.py:36-47), transcribed verbatim. -/
def SequenceSoftmaxCrossEntropyLossConfig : J :=
  J.objL [("type", J.s "sequence_softmax_cross_entropy"), ("class_weights", J.i 1),
    ("robust_lambda", J.i 0), ("confidence_penalty", J.i 0),
    ("class_similarities_temperature", J.i 0), ("weight", J.i 1), ("unique", J.b false)]

/-- Embeds the default `loss` of `BinaryOutputFeatureConfig`
(src/ludwig/schema/features/binary_feature.py:84-93), transcribed verbatim. -/
def BinaryWeightedCrossEntropyLossConfig : J :=
  J.objL [("type", J.s "binary_weighted_cross_entropy"), ("robust_lambda", J.i 0),
    ("confidence_penalty", J.i 0), ("positive_class_weight", J.null), ("weight", J.i 1)]

/-- Embeds the default `loss` of `VectorOutputFeatureConfig`
(src/ludwig/schema/features/vector_feature.py), also used as the modelled
number-feature loss (the number feature module is not under `src/`). -/
def MeanSquaredErrorLossConfig : J :=
  J.objL [("type", J.s "mean_squared_error"), ("weight", J.i 1)]

/-- Modelled from the spec: the `adam` optimizer schema class
(`ludwig/schema/optimizers.py` is not under `src/`). -/
def AdamOptimizerConfig : J :=
  J.objL [("type", J.s "adam"), ("weight_decay", J.i 0)]

/-- Modelled from the spec: the `sgd` optimizer schema class
(`ludwig/schema/optimizers.py` is not under `src/`). -/
def SGDOptimizerConfig : J :=
  J.objL [("type", J.s "sgd"), ("momentum", J.i 0)]

/-- Modelled from the spec: the `random` split schema class
(`ludwig/schema/split.py` is not under `src/`). -/
def RandomSplitConfig : J := J.objL [("type", J.s "random")]

/-- Modelled from the spec: the `stratify` split schema class
(`ludwig/schema/split.py` is not under `src/`). -/
def StratifySplitConfig : J := J.objL [("type", J.s "stratify"), ("column", J.null)]

/-- Embeds `BinaryPreprocessingConfig` (src/ludwig/schema/features/binary_feature.py:17-59). -/
def BinaryPreprocessingConfig : J :=
  J.objL [("missing_value_strategy", J.s "fill_with_false"), ("fill_value", J.null),
    ("computed_fill_value", J.null), ("fallback_true_label", J.null)]

/-- Modelled from the spec: the category preprocessing schema class (the
category preprocessing module is not under `src/`). -/
def CategoryPreprocessingConfig : J :=
  J.objL [("missing_value_strategy", J.s "fill_with_const"), ("fill_value", J.s "<UNK>"),
    ("computed_fill_value", J.null), ("most_common", J.i 10000), ("lowercase", J.b false)]

/-- Modelled from the spec: the number preprocessing schema class (the number
feature module is not under `src/`). -/
def NumberPreprocessingConfig : J :=
  J.objL [("missing_value_strategy", J.s "fill_with_const"), ("fill_value", J.i 0),
    ("computed_fill_value", J.null), ("normalization", J.null)]

/-- Embeds `TextPreprocessingConfig` (src/ludwig/schema/features/text_feature.py:55-),
abridged field subset with source defaults. -/
def TextPreprocessingConfig : J :=
  J.objL [("pretrained_model_name_or_path", J.null), ("tokenizer", J.s "space_punct"),
    ("vocab_file", J.null), ("max_sequence_length", J.i 256), ("most_common", J.i 20000),
    ("padding", J.s "right"), ("lowercase", J.b false),
    ("missing_value_strategy", J.s "fill_with_const"), ("fill_value", J.s "")]

/-- Embeds `BinaryInputFeatureConfig` (src/ludwig/schema/features/binary_feature.py:62-78):
base feature fields (src/ludwig/schema/features/base.py:43-113) followed by the
class fields `preprocessing`, `encoder` (default `passthrough`) and `tied`. -/
def BinaryInputFeatureConfig : J :=
  J.objL [("active", J.b true), ("name", J.null), ("type", J.s "binary"), ("column", J.null),
    ("proc_column", J.null), ("tied", J.null), ("preprocessing", BinaryPreprocessingConfig),
    ("encoder", BinaryPassthroughEncoderConfig)]

/-- Embeds `ECDCategoryInputFeatureConfig` (src/ludwig/schema/features/category_feature.py:37-47):
default encoder `dense`. -/
def CategoryInputFeatureConfig : J :=
  J.objL [("active", J.b true), ("name", J.null), ("type", J.s "category"), ("column", J.null),
    ("proc_column", J.null), ("tied", J.null), ("preprocessing", CategoryPreprocessingConfig),
    ("encoder", DenseEncoderConfig)]

/-- Modelled from the spec: the number input feature schema class (the number
feature module is not under `src/`); default encoder `passthrough` per the
spec GBM/scenario sections. -/
def NumberInputFeatureConfig : J :=
  J.objL [("active", J.b true), ("name", J.null), ("type", J.s "number"), ("column", J.null),
    ("proc_column", J.null), ("tied", J.null), ("preprocessing", NumberPreprocessingConfig),
    ("encoder", PassthroughEncoderConfig)]

/-- Embeds `TextInputFeatureConfig` (src/ludwig/schema/features/text_feature.py:20-29):
default encoder `parallel_cnn`. -/
def TextInputFeatureConfig : J :=
  J.objL [("active", J.b true), ("name", J.null), ("type", J.s "text"), ("column", J.null),
    ("proc_column", J.null), ("tied", J.null), ("preprocessing", TextPreprocessingConfig),
    ("encoder", ParallelCNNConfig)]

/-- Embeds `CategoryOutputFeatureConfig` (src/ludwig/schema/features/category_feature.py:80-,
base output fields from src/ludwig/schema/features/base.py:128-165): decoder
`classifier`, loss `softmax_cross_entropy`, plus `top_k`. -/
def CategoryOutputFeatureConfig : J :=
  J.objL [("active", J.b true), ("name", J.null), ("type", J.s "category"), ("column", J.null),
    ("proc_column", J.null), ("reduce_input", J.s "sum"), ("default_validation_metric", J.s "accuracy"),
    ("dependencies", J.arrL []), ("reduce_dependencies", J.s "sum"), ("input_size", J.null),
    ("num_classes", J.null), ("top_k", J.i 3), ("decoder", ClassifierDecoderConfig),
    ("loss", SoftmaxCrossEntropyLossConfig)]

/-- Embeds `BinaryOutputFeatureConfig` (src/ludwig/schema/features/binary_feature.py:81-114):
loss `binary_weighted_cross_entropy`, decoder `regressor`. -/
def BinaryOutputFeatureConfig : J :=
  J.objL [("active", J.b true), ("name", J.null), ("type", J.s "binary"), ("column", J.null),
    ("proc_column", J.null), ("reduce_input", J.s "sum"), ("default_validation_metric", J.s "roc_auc"),
    ("dependencies", J.arrL []), ("reduce_dependencies", J.s "sum"), ("input_size", J.null),
    ("num_classes", J.null), ("loss", BinaryWeightedCrossEntropyLossConfig),
    ("decoder", RegressorDecoderConfig)]

/-- Modelled from the spec: the number output feature schema class (the number
feature module is not under `src/`); decoder `regressor`, loss
`mean_squared_error`. -/
def NumberOutputFeatureConfig : J :=
  J.objL [("active", J.b true), ("name", J.null), ("type", J.s "number"), ("column", J.null),
    ("proc_column", J.null), ("reduce_input", J.s "sum"), ("default_validation_metric", J.s "loss"),
    ("dependencies", J.arrL []), ("reduce_dependencies", J.s "sum"), ("input_size", J.null),
    ("num_classes", J.null), ("decoder", RegressorDecoderConfig),
    ("loss", MeanSquaredErrorLossConfig)]

/-- Embeds `TextOutputFeatureConfig` (src/ludwig/schema/features/text_feature.py:32-52):
loss is the source dict default, decoder `generator`; the decoder registry for
text also contains `tagger` (src/ludwig/schema/decoders/sequence_decoders.py:61). -/
def TextOutputFeatureConfig : J :=
  J.objL [("active", J.b true), ("name", J.null), ("type", J.s "text"), ("column", J.null),
    ("proc_column", J.null), ("reduce_input", J.s "sum"), ("default_validation_metric", J.s "loss"),
    ("dependencies", J.arrL []), ("reduce_dependencies", J.s "sum"), ("input_size", J.null),
    ("num_classes", J.null), ("loss", SequenceSoftmaxCrossEntropyLossConfig),
    ("decoder", SequenceGeneratorDecoderConfig)]

/-- Modelled from the spec: `ECDTrainerConfig` (`ludwig/schema/trainer.py` is
not under `src/`).  Declared type `trainer` (spec scenario 1); `epochs`
defaults to unset so that spec scenario 3 (epochs unset plus a time-based
scheduler budget) is expressible; `checkpoints_per_epoch` and
`steps_per_checkpoint` default 0 per the mutual-exclusivity check in
src/ludwig/config_validation/checks.py:168-178; `early_stop` is a positive
default that the hyperopt reconciliation overrides. -/
def ECDTrainerConfig : J :=
  J.objL [("type", J.s "trainer"), ("epochs", J.null), ("train_steps", J.null),
    ("early_stop", J.i 5), ("batch_size", J.i 128), ("steps_per_checkpoint", J.i 0),
    ("checkpoints_per_epoch", J.i 0), ("validation_field", J.s "combined"),
    ("validation_metric", J.s "loss"), ("optimizer", AdamOptimizerConfig)]

/-- Modelled from the spec: `GBMTrainerConfig` (`ludwig/schema/trainer.py` is
not under `src/`).  Declared type `lightgbm_trainer`
(src/ludwig/schema/config_object.py:139 validates exactly that string). -/
def GBMTrainerConfig : J :=
  J.objL [("type", J.s "lightgbm_trainer"), ("early_stop", J.i 5),
    ("boosting_type", J.s "gbdt"), ("num_boost_round", J.i 100)]

/-- Modelled from the spec: `ConcatCombinerConfig` (`ludwig/schema/combiners/concat.py`
is not under `src/`); the fields asserted by
src/tests/ludwig/schema/test_config_object.py:82-84 (`output_size`,
`weights_initializer`, `fc_layers`) are included. -/
def ConcatCombinerConfig : J :=
  J.objL [("type", J.s "concat"), ("fc_layers", J.null), ("num_fc_layers", J.i 0),
    ("output_size", J.i 256), ("activation", J.s "relu"),
    ("weights_initializer", J.s "xavier_uniform"), ("flatten_inputs", J.b false)]

/-- Embeds `SequenceCombinerConfig` (src/ludwig/schema/combiners/sequence.py:14-44):
nested sequence-family encoder defaulting to `parallel_cnn`. -/
def SequenceCombinerConfig : J :=
  J.objL [("type", J.s "sequence"), ("main_sequence_feature", J.null),
    ("encoder", ParallelCNNConfig), ("reduce_output", J.null)]

/-- Modelled from the spec: the global `PreprocessingConfig`
(`ludwig/schema/preprocessing.py` is not under `src/`); carries the sampling
flags read by src/ludwig/config_validation/checks.py:273-293 and the `split`
sub-config. -/
def PreprocessingConfig : J :=
  J.objL [("sample_ratio", J.i 1), ("oversample_minority", J.null),
    ("undersample_majority", J.null), ("split", RandomSplitConfig)]

/-- Modelled from the spec: `DefaultsConfig` (`ludwig/schema/defaults/defaults.py`
is not under `src/`).  Per spec section 3/4.2 it holds, for every feature type,
the default `preprocessing` and `encoder` (input side) and `decoder` and
`loss` (output side) sub-configs, each a typed nested structure; restricted
here to the four embedded feature types. -/
def DefaultsConfig : J :=
  J.objL [
    ("binary", J.objL [("preprocessing", BinaryPreprocessingConfig),
      ("encoder", BinaryPassthroughEncoderConfig), ("decoder", RegressorDecoderConfig),
      ("loss", BinaryWeightedCrossEntropyLossConfig)]),
    ("category", J.objL [("preprocessing", CategoryPreprocessingConfig),
      ("encoder", DenseEncoderConfig), ("decoder", ClassifierDecoderConfig),
      ("loss", SoftmaxCrossEntropyLossConfig)]),
    ("number", J.objL [("preprocessing", NumberPreprocessingConfig),
      ("encoder", PassthroughEncoderConfig), ("decoder", RegressorDecoderConfig),
      ("loss", MeanSquaredErrorLossConfig)]),
    ("text", J.objL [("preprocessing", TextPreprocessingConfig),
      ("encoder", ParallelCNNConfig), ("decoder", SequenceGeneratorDecoderConfig),
      ("loss", SequenceSoftmaxCrossEntropyLossConfig)])]

/-! ## Registries

String-keyed registries of schema classes (spec section 2 item 1).  The
registry population modules (`ludwig/schema/features/utils.py`,
`ludwig/schema/encoders/utils.py`, `ludwig/schema/decoders/utils.py`, ...)
are not under `src/`; the entries below follow the registration decorators
visible in the `src/` schema files plus the spec, restricted to the four
embedded feature types.  The `passthrough` text-encoder entry follows the
spec type-change example (spec section 8). -/

/-- Input feature registry: `get_input_feature_cls` /
`input_config_registry.keys()` as used by config_object.py. -/
def input_config_registry : String → Option J
  | "binary" => some BinaryInputFeatureConfig
  | "category" => some CategoryInputFeatureConfig
  | "number" => some NumberInputFeatureConfig
  | "text" => some TextInputFeatureConfig
  | _ => none

/-- Output feature registry: `get_output_feature_cls`. -/
def output_config_registry : String → Option J
  | "binary" => some BinaryOutputFeatureConfig
  | "category" => some CategoryOutputFeatureConfig
  | "number" => some NumberOutputFeatureConfig
  | "text" => some TextOutputFeatureConfig
  | _ => none

/-- Encoder registry keyed by feature type and encoder type:
`get_encoder_cls(feature_type, section_type)`.  The `sequence` row is the
encoder family used by the sequence combiner
(src/ludwig/schema/combiners/sequence.py, src/ludwig/schema/encoders/sequence_encoders.py). -/
def get_encoder_cls : String → String → Option J
  | "binary", "passthrough" => some BinaryPassthroughEncoderConfig
  | "binary", "dense" => some DenseEncoderConfig
  | "category", "dense" => some DenseEncoderConfig
  | "category", "passthrough" => some PassthroughEncoderConfig
  | "number", "passthrough" => some PassthroughEncoderConfig
  | "number", "dense" => some DenseEncoderConfig
  | "text", "parallel_cnn" => some ParallelCNNConfig
  | "text", "rnn" => some StackedRNNConfig
  | "text", "passthrough" => some PassthroughEncoderConfig
  | "sequence", "parallel_cnn" => some ParallelCNNConfig
  | "sequence", "rnn" => some StackedRNNConfig
  | _, _ => none

/-- Decoder registry keyed by feature type and decoder type:
`get_decoder_cls(feature_type, section_type)`; `generator` and `tagger` for
text per src/ludwig/schema/decoders/sequence_decoders.py. -/
def get_decoder_cls : String → String → Option J
  | "binary", "regressor" => some RegressorDecoderConfig
  | "category", "classifier" => some ClassifierDecoderConfig
  | "number", "regressor" => some RegressorDecoderConfig
  | "text", "generator" => some SequenceGeneratorDecoderConfig
  | "text", "tagger" => some SequenceTaggerDecoderConfig
  | _, _ => none

/-- Loss registry keyed by feature type and loss type:
`get_loss_cls(feature_type, section_type).get_schema_cls()`. -/
def get_loss_cls : String → String → Option J
  | "binary", "binary_weighted_cross_entropy" => some BinaryWeightedCrossEntropyLossConfig
  | "category", "softmax_cross_entropy" => some SoftmaxCrossEntropyLossConfig
  | "number", "mean_squared_error" => some MeanSquaredErrorLossConfig
  | "text", "sequence_softmax_cross_entropy" => some SequenceSoftmaxCrossEntropyLossConfig
  | _, _ => none

/-- Optimizer registry: `get_optimizer_cls(section_type)`. -/
def get_optimizer_cls : String → Option J
  | "adam" => some AdamOptimizerConfig
  | "sgd" => some SGDOptimizerConfig
  | _ => none

/-- Split registry: `get_split_cls(section_type)`. -/
def get_split_cls : String → Option J
  | "random" => some RandomSplitConfig
  | "stratify" => some StratifySplitConfig
  | _ => none

/-- Combiner registry: `combiner_registry.get(type).get_schema_cls()`. -/
def combiner_registry : String → Option J
  | "concat" => some ConcatCombinerConfig
  | "sequence" => some SequenceCombinerConfig
  | _ => none

/-! ## Recursive attribute setting (`ModelConfig._set_attributes`) -/

/-- The nested section keys handled by the replace-on-type-change rule
(src/ludwig/schema/config_object.py:341). -/
def sectionKeys : List String := ["encoder", "decoder", "loss", "optimizer", "split"]

/-- Whether a dict key is a feature type name
(`key in input_config_registry.keys()`, src/ludwig/schema/config_object.py:337). -/
def isFeatureTypeKey (k : String) : Bool := (input_config_registry k).isSome

/-- Embeds `ModelConfig._get_config_cls` (src/ludwig/schema/config_object.py:233-258):
dispatch a `(section, section_type, feature_type)` triple to the registries,
returning a fresh default instance; a value not registered for the section
raises (the registry helpers are not under `src/`; per spec section 4.3 the
miss is a typed unsupported-configuration error). -/
def get_config_cls (sectionName : String) (sectionType : J) (featureType : Option String) :
    Except PyError J :=
  if sectionName = "encoder" then
    match featureType, sectionType with
    | some ftv, J.s t =>
        match get_encoder_cls ftv t with
        | some cls => .ok cls
        | none => .error (.validationError "unsupported encoder type for this feature type")
    | _, _ => .error (.validationError "unsupported encoder type for this feature type")
  else if sectionName = "decoder" then
    match featureType, sectionType with
    | some ftv, J.s t =>
        match get_decoder_cls ftv t with
        | some cls => .ok cls
        | none => .error (.validationError "unsupported decoder type for this feature type")
    | _, _ => .error (.validationError "unsupported decoder type for this feature type")
  else if sectionName = "loss" then
    match featureType, sectionType with
    | some ftv, J.s t =>
        match get_loss_cls ftv t with
        | some cls => .ok cls
        | none => .error (.validationError "unsupported loss type for this feature type")
    | _, _ => .error (.validationError "unsupported loss type for this feature type")
  else if sectionName = "optimizer" then
    match sectionType with
    | J.s t =>
        match get_optimizer_cls t with
        | some cls => .ok cls
        | none => .error (.validationError "unsupported optimizer type")
    | _ => .error (.validationError "unsupported optimizer type")
  else if sectionName = "split" then
    match sectionType with
    | J.s t =>
        match get_split_cls t with
        | some cls => .ok cls
        | none => .error (.validationError "unsupported split type")
    | _ => .error (.validationError "unsupported split type")
  else .error (.valueError "Config Section not Supported")

/-- The replace-on-type-change test of `ModelConfig._set_attributes`
(src/ludwig/schema/config_object.py:344-347): when the user sub-dict carries a
`type` differing from the type of the object in the slot, fetch a fresh
default instance of the registered class; reading `.type` of a slot without
one raises `AttributeError` as in Python. -/
def section_replacement (k : String) (sec : J) (vf : JFields) (featureType : Option String) :
    Except PyError J :=
  match getAttr vf "type" with
  | some tv =>
      match sec with
      | .obj sf =>
          match getAttr sf "type" with
          | some st =>
              if st ≠ tv then get_config_cls k tv featureType
              else .ok sec
          | none => .error (.attributeError "type")
      | _ => .error (.attributeError "type")
  | none => .ok sec

mutual

/-- Embeds `ModelConfig._set_attributes` (src/ludwig/schema/config_object.py:322-358):
walk the source dict in insertion order; track the feature type when a key is
a feature type name; apply one key per step. -/
def set_attributes (o : J) (d : JFields) (featureType : Option String) :
    Except PyError J :=
  match d with
  | .nil => .ok o
  | .cons k v rest => do
      let ft := if isFeatureTypeKey k then some k else featureType
      let o2 ← set_attributes_step o k v ft
      set_attributes o2 rest ft

/-- One key of `ModelConfig._set_attributes`
(src/ludwig/schema/config_object.py:340-358): for a dict-valued key, read the
current attribute (`AttributeError` when absent, as both the section branch
and the nested-recursion branch of the source do), apply the
replace-on-type-change rule if the key is a section key, and recurse; a
non-dict value under a section key cannot be iterated (the source ends in an
`AttributeError` on `.items`), and any other leaf value is assigned with
`setattr`. -/
def set_attributes_step (o : J) (k : String) (v : J) (featureType : Option String) :
    Except PyError J :=
  match o with
  | .obj fields =>
      match v with
      | .obj vf =>
          match getAttr fields k with
          | none => .error (.attributeError k)
          | some sec =>
              if k ∈ sectionKeys then do
                let sec2 ← section_replacement k sec vf featureType
                let sec3 ← set_attributes sec2 vf featureType
                pure (J.obj (setAttr fields k sec3))
              else do
                let sub2 ← set_attributes sec vf featureType
                pure (J.obj (setAttr fields k sub2))
      | _ =>
          if k ∈ sectionKeys then
            match getAttr fields k with
            | none => .error (.attributeError k)
            | some _ => .error (.attributeError "items")
          else .ok (J.obj (setAttr fields k v))
  | _ => .error (.attributeError k)

end

/-! ## Feature preparation and parsing -/

/-- Modelled from the spec: `upgrade_to_latest_version`
(`ludwig/utils/backward_compatibility.py` is not under `src/`).  Per spec
section 4.1 the upgrader is a pure idempotent rename/restructure that passes
current-shape configs through unchanged; it is modelled as the identity on
current-shape dicts. -/
def upgrade_to_latest_version (config : JFields) : JFields := config

/-- Modelled from the spec: `compute_feature_hash`
(`ludwig/features/feature_utils.py` is not under `src/`).  Per spec sections 3
and 8, `proc_column` is a deterministic, collision-free digest of the feature
type together with the preprocessing parameters of the feature dict it is
handed (treat as a hash-collision-free oracle); modelled as the opaque
injective `J.digest` of exactly that pair, with a missing preprocessing
section defaulting to the empty dict. -/
def compute_feature_hash (feature : JFields) : J :=
  J.digest ((getAttr feature "type").getD J.null)
    ((getAttr feature "preprocessing").getD (J.obj .nil))

/-- Read a feature list out of a config dict: `config[key]` must exist, be a
list, and contain dicts (Python raises KeyError / TypeError otherwise). -/
def getFeatureList (config : JFields) (key : String) : Except PyError (List JFields) :=
  match getAttr config key with
  | none => .error (.keyError key)
  | some (J.arr l) =>
      l.toList.mapM (fun v =>
        match v with
        | J.obj f => .ok f
        | _ => .error (.typeError "feature entries must be dicts"))
  | some _ => .error (.typeError "feature sections must be lists")

/-- Embeds the per-feature body of `ModelConfig._set_feature_column`
(src/ludwig/schema/config_object.py:201-205): default `column` to `name`. -/
def set_feature_column (feature : JFields) : Except PyError JFields :=
  match getAttr feature "column" with
  | some _ => .ok feature
  | none =>
      match getAttr feature "name" with
      | some n => .ok (setAttr feature "column" n)
      | none => .error (.keyError "name")

/-- Embeds the per-feature body of `ModelConfig._set_proc_column`
(src/ludwig/schema/config_object.py:207-211): derive `proc_column` from the
raw feature dict when absent. -/
def set_proc_column (feature : JFields) : JFields :=
  match getAttr feature "proc_column" with
  | some _ => feature
  | none => setAttr feature "proc_column" (compute_feature_hash feature)

/-- Inner loop of `ModelConfig._set_global_defaults`
(src/ludwig/schema/config_object.py:377-390): walk the feature config
sections in order and overwrite the wanted ones from the per-type global
defaults. -/
def set_global_defaults_aux (feature : JFields) (typeDefaults : JFields)
    (want : List String) : List String → Except PyError JFields
  | [] => .ok feature
  | sec :: rest =>
      if sec ∈ want then
        match getAttr typeDefaults sec with
        | some v => set_global_defaults_aux (setAttr feature sec v) typeDefaults want rest
        | none => .error (.attributeError sec)
      else set_global_defaults_aux feature typeDefaults want rest

/-- Embeds `ModelConfig._set_global_defaults`
(src/ludwig/schema/config_object.py:360-392): input features take the global
`encoder` and `preprocessing` defaults of their type, output features the
`decoder` and `loss` defaults. -/
def set_global_defaults (feature : J) (featType : String) (isInput : Bool) (defaults : J) :
    Except PyError J :=
  match defaults with
  | J.obj df =>
      match getAttr df featType with
      | some (J.obj td) =>
          match feature with
          | J.obj ff => do
              let want := if isInput then ["encoder", "preprocessing"] else ["decoder", "loss"]
              let ff2 ← set_global_defaults_aux ff td want ff.keys
              pure (J.obj ff2)
          | _ => .error (.attributeError "to_dict")
      | _ => .error (.attributeError featType)
  | _ => .error (.attributeError featType)

/-- Embeds the input-feature body of `ModelConfig._parse_features`
(src/ludwig/schema/config_object.py:275-294, `initialize=True`): fetch the
schema class for the feature type, apply global defaults, store the feature
on the container keyed by its name, then apply the user dict recursively. -/
def parse_input_feature (defaults : J) (container : JFields) (feature : JFields) :
    Except PyError JFields := do
  let tv ← match getAttr feature "type" with
    | some v => pure v
    | none => Except.error (PyError.keyError "type")
  let t ← match tv with
    | J.s t => pure t
    | _ => Except.error (PyError.validationError "unsupported input feature type")
  let cls ← match input_config_registry t with
    | some c => pure c
    | none => Except.error (PyError.validationError "unsupported input feature type")
  let fwd ← set_global_defaults cls t true defaults
  let nv ← match getAttr feature "name" with
    | some v => pure v
    | none => Except.error (PyError.keyError "name")
  let n ← match nv with
    | J.s n => pure n
    | _ => Except.error (PyError.typeError "attribute name must be a string")
  let container2 := setAttr container n fwd
  let cur ← match getAttr container2 n with
    | some c => pure c
    | none => Except.error (PyError.attributeError n)
  let resolved ← set_attributes cur feature (some t)
  pure (setAttr container2 n resolved)

/-- Embeds the output-feature body of `ModelConfig._parse_features`
(src/ludwig/schema/config_object.py:296-320, `initialize=True`), including
the tagger-decoder coupling that forces `reduce_input = None`
(src/ludwig/schema/config_object.py:318-320). -/
def parse_output_feature (defaults : J) (container : JFields) (feature : JFields) :
    Except PyError JFields := do
  let tv ← match getAttr feature "type" with
    | some v => pure v
    | none => Except.error (PyError.keyError "type")
  let t ← match tv with
    | J.s t => pure t
    | _ => Except.error (PyError.validationError "unsupported output feature type")
  let cls ← match output_config_registry t with
    | some c => pure c
    | none => Except.error (PyError.validationError "unsupported output feature type")
  let fwd ← set_global_defaults cls t false defaults
  let nv ← match getAttr feature "name" with
    | some v => pure v
    | none => Except.error (PyError.keyError "name")
  let n ← match nv with
    | J.s n => pure n
    | _ => Except.error (PyError.typeError "attribute name must be a string")
  let container2 := setAttr container n fwd
  let cur ← match getAttr container2 n with
    | some c => pure c
    | none => Except.error (PyError.attributeError n)
  let resolved ← set_attributes cur feature (some t)
  let resolved2 ← match resolved with
    | J.obj rf =>
        match getAttr rf "decoder" with
        | some (J.obj decf) =>
            match getAttr decf "type" with
            | some dt =>
                if dt = J.s "tagger" then pure (J.obj (setAttr rf "reduce_input" J.null))
                else pure resolved
            | none => Except.error (PyError.attributeError "type")
        | some _ => Except.error (PyError.attributeError "type")
        | none => Except.error (PyError.attributeError "decoder")
    | _ => Except.error (PyError.attributeError "decoder")
  pure (setAttr container2 n resolved2)

/-- Fold of `parse_input_feature` over the feature list, in order. -/
def parse_input_features (defaults : J) (container : JFields) :
    List JFields → Except PyError JFields
  | [] => .ok container
  | f :: rest => do
      let c2 ← parse_input_feature defaults container f
      parse_input_features defaults c2 rest

/-- Fold of `parse_output_feature` over the feature list, in order. -/
def parse_output_features (defaults : J) (container : JFields) :
    List JFields → Except PyError JFields
  | [] => .ok container
  | f :: rest => do
      let c2 ← parse_output_feature defaults container f
      parse_output_features defaults c2 rest

/-! ## Model type, combiner, trainer, preprocessing, hyperopt -/

/-- Attribute read on an object value. -/
def jGetAttr : J → String → Option J
  | J.obj f, k => getAttr f k
  | _, _ => none

/-- Embeds the GBM encoder-forcing loop of `ModelConfig.__init__`
(src/ludwig/schema/config_object.py:144-153): binary features get the binary
passthrough encoder, category and number features the passthrough encoder,
anything else raises `marshmallow.ValidationError`. -/
def gbm_force_encoders : JFields → Except PyError JFields
  | .nil => .ok .nil
  | .cons n fv rest =>
      match fv with
      | J.obj ff =>
          match getAttr ff "type" with
          | some tv =>
              if tv = J.s "binary" then do
                let rest2 ← gbm_force_encoders rest
                pure (.cons n (J.obj (setAttr ff "encoder" BinaryPassthroughEncoderConfig)) rest2)
              else if tv = J.s "category" ∨ tv = J.s "number" then do
                let rest2 ← gbm_force_encoders rest
                pure (.cons n (J.obj (setAttr ff "encoder" PassthroughEncoderConfig)) rest2)
              else
                .error (.validationError
                  "GBM Models currently only support Binary, Category, and Number features")
          | none => .error (.attributeError "type")
      | _ => .error (.attributeError "type")

/-- Embeds the model-type block of `ModelConfig.__init__`
(src/ludwig/schema/config_object.py:134-153): on `model_type == "gbm"` the
trainer is replaced by the GBM trainer schema, a user trainer `type` other
than `lightgbm_trainer` raises `marshmallow.ValidationError`, and input
feature encoders are forced; any other (or absent) `model_type` leaves the
defaults (`ecd`, ECD trainer). -/
def resolve_model_type (config : JFields) (inputC : JFields) :
    Except PyError (String × J × JFields) :=
  match getAttr config "model_type" with
  | none => .ok ("ecd", ECDTrainerConfig, inputC)
  | some mt =>
      if mt = J.s "gbm" then do
        let trainerDict := (getAttr config "trainer").getD (J.obj .nil)
        let _ ← match trainerDict with
          | J.obj tf =>
              match getAttr tf "type" with
              | some tyv =>
                  if tyv ≠ J.s "lightgbm_trainer" then
                    Except.error (PyError.validationError
                      "GBM Model trainer must be of type: lightgbm_trainer")
                  else Except.ok ()
              | none => Except.ok ()
          | _ => Except.error (PyError.typeError "argument of type in is not iterable")
        let inputC2 ← gbm_force_encoders inputC
        pure ("gbm", GBMTrainerConfig, inputC2)
      else .ok ("ecd", ECDTrainerConfig, inputC)

/-- Embeds the combiner block of `ModelConfig.__init__`
(src/ludwig/schema/config_object.py:156-164): replace the default concat
combiner when the user combiner `type` differs, then apply the user dict,
threading the `sequence` encoder family when the combiner type is
`sequence`. -/
def resolve_combiner (config : JFields) : Except PyError J :=
  match getAttr config "combiner" with
  | none => .ok ConcatCombinerConfig
  | some (J.obj cf) => do
      let ct ← match getAttr cf "type" with
        | some v => pure v
        | none => Except.error (PyError.keyError "type")
      let combiner ←
        if jGetAttr ConcatCombinerConfig "type" ≠ some ct then
          match ct with
          | J.s c =>
              match combiner_registry c with
              | some cls => pure cls
              | none => Except.error (PyError.keyError c)
          | _ => Except.error (PyError.keyError "combiner type")
        else pure ConcatCombinerConfig
      let family := if jGetAttr combiner "type" = some (J.s "sequence") then some "sequence" else none
      set_attributes combiner cf family
  | some _ => .error (.typeError "combiner section must be a dict")

/-- Embeds the trainer block of `ModelConfig.__init__`
(src/ludwig/schema/config_object.py:167-168): apply the user trainer section
onto the current trainer (ECD default or the GBM replacement). -/
def resolve_trainer (config : JFields) (trainer0 : J) : Except PyError J :=
  match getAttr config "trainer" with
  | none => .ok trainer0
  | some (J.obj tf) => set_attributes trainer0 tf none
  | some _ => .error (.attributeError "items")

/-- Embeds the global preprocessing block of `ModelConfig.__init__`
(src/ludwig/schema/config_object.py:171-172). -/
def resolve_preprocessing (config : JFields) : Except PyError J :=
  match getAttr config "preprocessing" with
  | none => .ok PreprocessingConfig
  | some (J.obj pf) => set_attributes PreprocessingConfig pf none
  | some _ => .error (.attributeError "items")

/-- Embeds the defaults block of `ModelConfig.__init__`
(src/ludwig/schema/config_object.py:125-126). -/
def resolve_defaults (config : JFields) : Except PyError J :=
  match getAttr config "defaults" with
  | none => .ok DefaultsConfig
  | some (J.obj df) => set_attributes DefaultsConfig df none
  | some _ => .error (.attributeError "items")

/-- Embeds `set_default_value` (ludwig/utils/misc_utils.py caller at
src/ludwig/schema/config_object.py:409): set the key only when absent. -/
def set_default_value (d : JFields) (k : String) (v : J) : JFields :=
  if (getAttr d k).isSome then d else setAttr d k v

/-- Python `sys.maxsize` on a 64-bit platform. -/
def sysMaxsize : J := J.i 9223372036854775807

/-- Embeds `ModelConfig._set_hyperopt_defaults`
(src/ludwig/schema/config_object.py:394-434): when a hyperopt scheduler is
present, default the executor type to `ray`, force `trainer.early_stop = -1`,
and reconcile `scheduler.max_t`, `scheduler.time_attr` and `trainer.epochs`,
raising `ValueError` on an epochs / training-iteration `max_t` mismatch.
Returns the updated `(hyperopt, trainer)` pair. -/
def set_hyperopt_defaults (hyperopt trainer : J) : Except PyError (J × J) :=
  if ¬ pyTruthy hyperopt then .ok (hyperopt, trainer)
  else do
    let hf ← match hyperopt with
      | J.obj hf => pure hf
      | _ => Except.error (PyError.attributeError "get")
    let executor := (getAttr hf "executor").getD (J.obj .nil)
    let ef ← match executor with
      | J.obj ef => pure ef
      | _ => Except.error (PyError.attributeError "get")
    let scheduler := (getAttr ef "scheduler").getD J.null
    if ¬ pyTruthy scheduler then .ok (hyperopt, trainer)
    else do
      let ef2 := if (getAttr hf "executor").isSome then set_default_value ef "type" (J.s "ray") else ef
      let hf2 := if (getAttr hf "executor").isSome then setAttr hf "executor" (J.obj ef2) else hf
      let tf ← match trainer with
        | J.obj tf => pure tf
        | _ => Except.error (PyError.attributeError "early_stop")
      let _ ← match getAttr tf "early_stop" with
        | some _ => pure ()
        | none => Except.error (PyError.attributeError "early_stop")
      let tf2 := setAttr tf "early_stop" (J.i (-1))
      let sf ← match scheduler with
        | J.obj sf => pure sf
        | _ => Except.error (PyError.attributeError "get")
      let maxT := (getAttr sf "max_t").getD J.null
      let timeAttr := (getAttr sf "time_attr").getD J.null
      let epochs := (getAttr tf2 "epochs").getD J.null
      if maxT ≠ J.null then
        if timeAttr = J.s "time_total_s" then
          if epochs = J.null then pure (J.obj hf2, J.obj (setAttr tf2 "epochs" sysMaxsize))
          else pure (J.obj hf2, J.obj tf2)
        else if epochs ≠ J.null ∧ epochs ≠ maxT then
          .error (.valueError
            "Cannot set trainer epochs when using hyperopt scheduler with different training_iteration max_t. Unset one of these parameters in your config or make sure their values match.")
        else pure (J.obj hf2, J.obj (setAttr tf2 "epochs" maxT))
      else
        if epochs ≠ J.null then
          let sf2 := setAttr sf "max_t" epochs
          let ef3 := setAttr ef2 "scheduler" (J.obj sf2)
          let hf3 := setAttr hf2 "executor" (J.obj ef3)
          pure (J.obj hf3, J.obj tf2)
        else pure (J.obj hf2, J.obj tf2)

/-! ## The config object, its projection, and the registered checks -/

/-- The resolved `ModelConfig` object graph (src/ludwig/schema/config_object.py:105-179):
top-level sections plus the two feature containers, whose `__dict__` maps
feature names to resolved feature objects in insertion order. -/
structure ModelConfig where
  model_type : String
  input_features : JFields
  output_features : JFields
  combiner : J
  trainer : J
  preprocessing : J
  defaults : J
  hyperopt : J
deriving Repr, DecidableEq

/-- The values of a feature container whose `active` attribute is truthy, in
order (src/ludwig/schema/config_object.py:476-477). -/
def activeFeatureValues : JFields → List J
  | .nil => []
  | .cons _ v rest =>
      match v with
      | J.obj ff =>
          if pyTruthy ((getAttr ff "active").getD J.null) then v :: activeFeatureValues rest
          else activeFeatureValues rest
      | _ => activeFeatureValues rest

/-- Embeds `ModelConfig.to_dict` (src/ludwig/schema/config_object.py:469-489):
the deterministic projection of the object graph onto a plain dict, keeping
only active features. -/
def ModelConfig.to_dict (m : ModelConfig) : JFields :=
  JFields.ofList [("model_type", J.s m.model_type),
    ("input_features", J.arrL (activeFeatureValues m.input_features)),
    ("output_features", J.arrL (activeFeatureValues m.output_features)),
    ("combiner", m.combiner), ("trainer", m.trainer),
    ("preprocessing", m.preprocessing), ("hyperopt", m.hyperopt),
    ("defaults", m.defaults)]

/-- Collect `feature["name"]` over a feature list (Python set comprehension
body in the checks; KeyError when a name is missing). -/
def featureNamesOf (l : List JFields) : Except PyError (List J) :=
  l.mapM (fun f =>
    match getAttr f "name" with
    | some n => pure n
    | none => Except.error (PyError.keyError "name"))

/-- Embeds `CheckFeatureNamesUnique.check`
(src/ludwig/config_validation/checks.py:139-150): compare the sizes of the
per-list name sets with the list lengths. -/
def check_feature_names_unique (config : JFields) : Except PyError Unit := do
  let inl ← getFeatureList config "input_features"
  let inNames ← featureNamesOf inl
  let outl ← getFeatureList config "output_features"
  let outNames ← featureNamesOf outl
  if inNames.dedup.length + outNames.dedup.length ≠ inNames.length + outNames.length then
    .error (.configValidationError "Feature names must be unique.")
  else .ok ()

/-- Embeds `CheckTiedFeaturesValid.check`
(src/ludwig/config_validation/checks.py:153-165). -/
def check_tied_features_valid (config : JFields) : Except PyError Unit := do
  let inl ← getFeatureList config "input_features"
  let inNames ← featureNamesOf inl
  inl.forM (fun f => do
    let tied ← match getAttr f "tied" with
      | some v => pure v
      | none => Except.error (PyError.keyError "tied")
    if pyTruthy tied ∧ tied ∉ inNames then
      Except.error (PyError.configValidationError
        "Feature is tied to a feature that does not exist.")
    else pure ())

/-- Embeds `CheckTrainingRunway.check`
(src/ludwig/config_validation/checks.py:168-178): for ECD models,
`checkpoints_per_epoch` and `steps_per_checkpoint` are mutually exclusive. -/
def check_training_runway (config : JFields) : Except PyError Unit := do
  let mt ← match getAttr config "model_type" with
    | some v => pure v
    | none => Except.error (PyError.keyError "model_type")
  if mt = J.s "ecd" then do
    let tf ← match getAttr config "trainer" with
      | some (J.obj tf) => pure tf
      | some _ => Except.error (PyError.typeError "trainer section must be a dict")
      | none => Except.error (PyError.keyError "trainer")
    let cpe ← match getAttr tf "checkpoints_per_epoch" with
      | some v => pure v
      | none => Except.error (PyError.keyError "checkpoints_per_epoch")
    let spc ← match getAttr tf "steps_per_checkpoint" with
      | some v => pure v
      | none => Except.error (PyError.keyError "steps_per_checkpoint")
    if cpe ≠ J.i 0 ∧ spc ≠ J.i 0 then
      .error (.configValidationError
        "It is invalid to specify both trainer.checkpoints_per_epoch AND trainer.steps_per_checkpoint.")
    else .ok ()
  else .ok ()

/-- Embeds `CheckGBMSingleOutputFeature.check`
(src/ludwig/config_validation/checks.py:191-197). -/
def check_gbm_single_output_feature (config : JFields) : Except PyError Unit := do
  let mt ← match getAttr config "model_type" with
    | some v => pure v
    | none => Except.error (PyError.keyError "model_type")
  if mt = J.s "gbm" then do
    let outl ← getFeatureList config "output_features"
    if outl.length ≠ 1 then
      .error (.configValidationError "GBM models only support a single output feature.")
    else .ok ()
  else .ok ()

/-- Embeds `CheckGBMFeatureTypes.check`
(src/ludwig/config_validation/checks.py:200-209). -/
def check_gbm_feature_types (config : JFields) : Except PyError Unit := do
  let mt ← match getAttr config "model_type" with
    | some v => pure v
    | none => Except.error (PyError.keyError "model_type")
  if mt = J.s "gbm" then do
    let inl ← getFeatureList config "input_features"
    inl.forM (fun f => do
      let tv ← match getAttr f "type" with
        | some v => pure v
        | none => Except.error (PyError.keyError "type")
      if tv = J.s "binary" ∨ tv = J.s "category" ∨ tv = J.s "number" then pure ()
      else Except.error (PyError.configValidationError
        "GBM Models currently only support Binary, Category, and Number features"))
  else .ok ()

/-- Embeds `CheckSequenceConcatCombinerRequirements.check`
(src/ludwig/config_validation/checks.py:234-250), transcribed literally: the
source compares `config[COMBINER]` itself (a dict in a resolved config) with
the string `"sequence_concat"` and returns early when they differ. -/
def check_sequence_concat_combiner_requirements (config : JFields) :
    Except PyError Unit := do
  let mt ← match getAttr config "model_type" with
    | some v => pure v
    | none => Except.error (PyError.keyError "model_type")
  if mt ≠ J.s "ecd" then .ok ()
  else do
    let comb ← match getAttr config "combiner" with
      | some v => pure v
      | none => Except.error (PyError.keyError "combiner")
    if comb ≠ J.s "sequence_concat" then .ok ()
    else do
      let inl ← getFeatureList config "input_features"
      let types ← inl.mapM (fun f =>
        match getAttr f "type" with
        | some t => pure t
        | none => Except.error (PyError.keyError "type"))
      if types.any (fun t =>
          t == J.s "sequence" || t == J.s "text" || t == J.s "set" || t == J.s "vector") then
        .ok ()
      else
        .error (.configValidationError
          "Sequence concat combiner should only be used for at least one sequential input feature.")

/-- Embeds `CheckClassBalancePreprocessing.check`
(src/ludwig/config_validation/checks.py:273-283). -/
def check_class_balance_preprocessing (config : JFields) : Except PyError Unit := do
  let pf ← match getAttr config "preprocessing" with
    | some (J.obj pf) => pure pf
    | some _ => Except.error (PyError.typeError "preprocessing section must be a dict")
    | none => Except.error (PyError.keyError "preprocessing")
  let over ← match getAttr pf "oversample_minority" with
    | some v => pure v
    | none => Except.error (PyError.keyError "oversample_minority")
  let under ← match getAttr pf "undersample_majority" with
    | some v => pure v
    | none => Except.error (PyError.keyError "undersample_majority")
  if pyTruthy over ∨ pyTruthy under then do
    let outl ← getFeatureList config "output_features"
    if outl.length ≠ 1 then
      .error (.configValidationError
        "Class balancing is only available for datasets with a single output feature.")
    else do
      let f0 ← match outl with
        | f :: _ => pure f
        | [] => Except.error (PyError.keyError "output_features")
      let tv ← match getAttr f0 "type" with
        | some v => pure v
        | none => Except.error (PyError.keyError "type")
      if tv ≠ J.s "binary" then
        .error (.configValidationError "Class balancing is only supported for binary output features.")
      else .ok ()
  else .ok ()

/-- Embeds `CheckSamplingExclusivity.check`
(src/ludwig/config_validation/checks.py:286-293). -/
def check_sampling_exclusivity (config : JFields) : Except PyError Unit := do
  let pf ← match getAttr config "preprocessing" with
    | some (J.obj pf) => pure pf
    | some _ => Except.error (PyError.typeError "preprocessing section must be a dict")
    | none => Except.error (PyError.keyError "preprocessing")
  let over ← match getAttr pf "oversample_minority" with
    | some v => pure v
    | none => Except.error (PyError.keyError "oversample_minority")
  let under ← match getAttr pf "undersample_majority" with
    | some v => pure v
    | none => Except.error (PyError.keyError "undersample_majority")
  if pyTruthy over ∧ pyTruthy under then
    .error (.configValidationError
      "Oversample minority and undersample majority are mutually exclusive. Specify only one method.")
  else .ok ()

/-- Modelled from the spec: the structural schema check (`check_schema`,
`ludwig/config_validation/validation.py` and `ludwig/schema/__init__.py` are
not under `src/`).  Per spec section 3 a config must declare at least one
input and one output feature. -/
def check_schema (config : JFields) : Except PyError Unit := do
  let inl ← getFeatureList config "input_features"
  let outl ← getFeatureList config "output_features"
  if inl.isEmpty ∨ outl.isEmpty then
    .error (.configValidationError "At least one input feature and one output feature are required.")
  else .ok ()

/-- Modelled from the spec: `ModelConfig._validate_config` delegates to
`ludwig.schema.validate_config`, which is not under `src/`.  Per spec section
4.6 the validator runs the registered, independently-invocable checks against
the fully-resolved dict; the checks themselves are embedded above from
src/ludwig/config_validation/checks.py (restricted to those whose data is in
scope of this embedding: backend-, metric- and splitter-dependent checks are
omitted), in their registration order, followed by the structural schema
check. -/
def validate_config (config : JFields) : Except PyError Unit := do
  check_feature_names_unique config
  check_tied_features_valid config
  check_training_runway config
  check_gbm_single_output_feature config
  check_gbm_feature_types config
  check_sequence_concat_combiner_requirements config
  check_class_balance_preprocessing config
  check_sampling_exclusivity config
  check_schema config

/-- Embeds `ModelConfig.__init__` / `ModelConfig.from_dict`
(src/ludwig/schema/config_object.py:110-190): upgrade, set user global
defaults, derive `column` and `proc_column` on the raw feature dicts, parse
input and output features, resolve the model type (GBM replacements), the
combiner, the trainer and the global preprocessing, reconcile hyperopt, and
validate the projected dict. -/
def from_dict (config : JFields) : Except PyError ModelConfig := do
  let upgraded := upgrade_to_latest_version config
  let defaults ← resolve_defaults upgraded
  let inRaw0 ← getFeatureList upgraded "input_features"
  let outRaw0 ← getFeatureList upgraded "output_features"
  let inRaw1 ← inRaw0.mapM set_feature_column
  let outRaw1 ← outRaw0.mapM set_feature_column
  let inRaw := inRaw1.map set_proc_column
  let outRaw := outRaw1.map set_proc_column
  let inputC ← parse_input_features defaults .nil inRaw
  let outputC ← parse_output_features defaults .nil outRaw
  let (modelType, trainer0, inputC2) ← resolve_model_type upgraded inputC
  let combiner ← resolve_combiner upgraded
  let trainer1 ← resolve_trainer upgraded trainer0
  let preprocessing ← resolve_preprocessing upgraded
  let hyperopt0 := (getAttr upgraded "hyperopt").getD (J.obj .nil)
  let (hyperopt, trainer2) ← set_hyperopt_defaults hyperopt0 trainer1
  let m : ModelConfig :=
    ⟨modelType, inputC2, outputC, combiner, trainer2, preprocessing, defaults, hyperopt⟩
  let _ ← validate_config m.to_dict
  pure m

/-! ## Basic lemmas about attribute maps -/

theorem getAttr_setAttr : ∀ (c : JFields) (n : String) (v : J) (k : String),
    getAttr (setAttr c n v) k = if n = k then some v else getAttr c k
  | .nil, n, v, k => by by_cases h : n = k <;> simp [setAttr, getAttr, h]
  | .cons k0 v0 rest, n, v, k => by
      by_cases h0 : k0 = n
      · subst h0
        by_cases h : k0 = k <;> simp [setAttr, getAttr, h]
      · by_cases h : k0 = k
        · subst h
          have hnk : ¬ n = k0 := fun hh => h0 hh.symm
          simp [setAttr, getAttr, h0, hnk]
        · simp [setAttr, getAttr, h0, h, getAttr_setAttr rest n v k]

theorem setAttr_setAttr_same : ∀ (c : JFields) (n : String) (v w : J),
    setAttr (setAttr c n v) n w = setAttr c n w
  | .nil, n, v, w => by simp [setAttr]
  | .cons k0 v0 rest, n, v, w => by
      by_cases h0 : k0 = n <;> simp [setAttr, h0, setAttr_setAttr_same rest n v w]

theorem getAttr_setAttr_self (c : JFields) (n : String) (v : J) :
    getAttr (setAttr c n v) n = some v := by
  simp [getAttr_setAttr]

theorem getAttr_setAttr_ne (c : JFields) (n : String) (v : J) (k : String) (h : n ≠ k) :
    getAttr (setAttr c n v) k = getAttr c k := by
  simp [getAttr_setAttr, h]

/-! ## Inversion of a successful construction -/

theorem from_dict_ok_inv (d : JFields) (m : ModelConfig) (h : from_dict d = .ok m) :
    ∃ (dfs : J) (inRaw0 outRaw0 inRaw1 outRaw1 : List JFields)
      (inputC outputC : JFields) (mt : String) (tr0 : J) (inputC2 : JFields)
      (cmb tr1 pre : J) (hyp tr2 : J),
      resolve_defaults d = .ok dfs ∧
      getFeatureList d "input_features" = .ok inRaw0 ∧
      getFeatureList d "output_features" = .ok outRaw0 ∧
      inRaw0.mapM set_feature_column = .ok inRaw1 ∧
      outRaw0.mapM set_feature_column = .ok outRaw1 ∧
      parse_input_features dfs .nil (inRaw1.map set_proc_column) = .ok inputC ∧
      parse_output_features dfs .nil (outRaw1.map set_proc_column) = .ok outputC ∧
      resolve_model_type d inputC = .ok (mt, tr0, inputC2) ∧
      resolve_combiner d = .ok cmb ∧
      resolve_trainer d tr0 = .ok tr1 ∧
      resolve_preprocessing d = .ok pre ∧
      set_hyperopt_defaults ((getAttr d "hyperopt").getD (J.obj .nil)) tr1 = .ok (hyp, tr2) ∧
      validate_config (ModelConfig.to_dict ⟨mt, inputC2, outputC, cmb, tr2, pre, dfs, hyp⟩) = .ok () ∧
      m = ⟨mt, inputC2, outputC, cmb, tr2, pre, dfs, hyp⟩ := by
  unfold from_dict upgrade_to_latest_version at h
  simp only [bind, Except.bind, pure, Except.pure] at h
  cases h1 : resolve_defaults d <;> simp only [h1] at h <;> try exact Except.noConfusion h
  case ok dfs =>
  cases h2 : getFeatureList d "input_features" <;> simp only [h2] at h <;>
    try exact Except.noConfusion h
  case ok inRaw0 =>
  cases h3 : getFeatureList d "output_features" <;> simp only [h3] at h <;>
    try exact Except.noConfusion h
  case ok outRaw0 =>
  cases h4 : inRaw0.mapM set_feature_column <;> simp only [h4] at h <;>
    try exact Except.noConfusion h
  case ok inRaw1 =>
  cases h5 : outRaw0.mapM set_feature_column <;> simp only [h5] at h <;>
    try exact Except.noConfusion h
  case ok outRaw1 =>
  cases h6 : parse_input_features dfs .nil (inRaw1.map set_proc_column) <;> simp only [h6] at h <;>
    try exact Except.noConfusion h
  case ok inputC =>
  cases h7 : parse_output_features dfs .nil (outRaw1.map set_proc_column) <;> simp only [h7] at h <;>
    try exact Except.noConfusion h
  case ok outputC =>
  cases h8 : resolve_model_type d inputC <;> simp only [h8] at h <;>
    try exact Except.noConfusion h
  case ok mtTriple =>
  obtain ⟨mt, tr0, inputC2⟩ := mtTriple
  cases h9 : resolve_combiner d <;> simp only [h9] at h <;> try exact Except.noConfusion h
  case ok cmb =>
  cases h10 : resolve_trainer d tr0 <;> simp only [h10] at h <;> try exact Except.noConfusion h
  case ok tr1 =>
  cases h11 : resolve_preprocessing d <;> simp only [h11] at h <;> try exact Except.noConfusion h
  case ok pre =>
  cases h12 : set_hyperopt_defaults ((getAttr d "hyperopt").getD (J.obj .nil)) tr1 <;>
    simp only [h12] at h <;> try exact Except.noConfusion h
  case ok hyPair =>
  obtain ⟨hyp, tr2⟩ := hyPair
  cases h13 : validate_config (ModelConfig.to_dict ⟨mt, inputC2, outputC, cmb, tr2, pre, dfs, hyp⟩) <;>
    simp only [h13] at h <;> try exact Except.noConfusion h
  case ok u =>
  cases u
  simp only [Except.ok.injEq] at h
  refine ⟨dfs, inRaw0, outRaw0, inRaw1, outRaw1, inputC, outputC, mt, tr0, inputC2, cmb, tr1,
    pre, hyp, tr2, ?_, ?_, ?_, h4, h5, h6, h7, h8, ?_, h10, ?_, h12, h13, h.symm⟩ <;> rfl

/-! ## Definitional equations and locality lemmas for `set_attributes`

Every successful step of the recursive attribute walk writes exactly the key
it processes; these lemmas make that locality available to the claim
proofs. -/

theorem set_attributes_nil (o : J) (ft : Option String) : set_attributes o .nil ft = .ok o := rfl

theorem set_attributes_cons (o : J) (k : String) (v : J) (rest : JFields) (ft : Option String) :
    set_attributes o (.cons k v rest) ft =
      (do
        let o2 ← set_attributes_step o k v (if isFeatureTypeKey k then some k else ft)
        set_attributes o2 rest (if isFeatureTypeKey k then some k else ft)) := rfl


/-! ## Definitional equations and locality lemmas for `set_attributes`

Every successful step of the recursive attribute walk writes exactly the key
it processes; these lemmas make that locality available to the claim
proofs. -/

theorem set_attributes_step_obj (f : JFields) (k : String) (v : J) (ft : Option String)
    (o2 : J) (h : set_attributes_step (J.obj f) k v ft = .ok o2) :
    ∃ f2, o2 = J.obj f2 ∧ ∀ k2, k2 ≠ k → getAttr f2 k2 = getAttr f k2 := by
  unfold set_attributes_step at h
  simp only [bind, Except.bind, pure, Except.pure] at h
  repeat' split at h
  all_goals
    first
      | exact Except.noConfusion h
      | (rw [Except.ok.injEq] at h
         exact ⟨_, h.symm, fun k2 hk2 => getAttr_setAttr_ne f k _ k2 (Ne.symm hk2)⟩)

theorem set_attributes_step_leaf (f : JFields) (k : String) (v : J) (ft : Option String)
    (o2 : J) (h : set_attributes_step (J.obj f) k v ft = .ok o2)
    (hsec : k ∉ sectionKeys) (hobj : ∀ vf, v ≠ J.obj vf) :
    o2 = J.obj (setAttr f k v) := by
  unfold set_attributes_step at h
  cases v with
  | obj vf => exact absurd rfl (hobj vf)
  | null =>
      simp only [hsec, if_false, ite_false, Except.ok.injEq] at h
      exact h.symm
  | b x =>
      simp only [hsec, if_false, ite_false, Except.ok.injEq] at h
      exact h.symm
  | i x =>
      simp only [hsec, if_false, ite_false, Except.ok.injEq] at h
      exact h.symm
  | s x =>
      simp only [hsec, if_false, ite_false, Except.ok.injEq] at h
      exact h.symm
  | arr x =>
      simp only [hsec, if_false, ite_false, Except.ok.injEq] at h
      exact h.symm
  | digest x y =>
      simp only [hsec, if_false, ite_false, Except.ok.injEq] at h
      exact h.symm

theorem set_attributes_obj : ∀ (f : JFields) (d : JFields) (ft : Option String) (r : J),
    set_attributes (J.obj f) d ft = .ok r →
    ∃ rf, r = J.obj rf ∧ ∀ k, k ∉ d.keys → getAttr rf k = getAttr f k
  | f, .nil, ft, r, h => by
      rw [set_attributes_nil] at h
      simp only [Except.ok.injEq] at h
      exact ⟨f, h.symm, fun k _ => rfl⟩
  | f, .cons k0 v0 rest, ft, r, h => by
      rw [set_attributes_cons] at h
      simp only [bind, Except.bind] at h
      cases hstep : set_attributes_step (J.obj f) k0 v0
          (if isFeatureTypeKey k0 then some k0 else ft) <;> rw [hstep] at h
      · exact Except.noConfusion h
      case ok o2 =>
        obtain ⟨f2, rfl, hloc⟩ := set_attributes_step_obj _ _ _ _ _ hstep
        obtain ⟨rf, hr, hpres⟩ := set_attributes_obj f2 rest _ r h
        refine ⟨rf, hr, fun k hk => ?_⟩
        simp only [JFields.keys, List.mem_cons, not_or] at hk
        rw [hpres k hk.2, hloc k hk.1]

theorem set_attributes_no_new_key : ∀ (f : JFields) (d : JFields) (ft : Option String) (r : J)
    (k : String), set_attributes (J.obj f) d ft = .ok r →
    getAttr f k = none → getAttr d k = none → jGetAttr r k = none
  | f, .nil, ft, r, k, h, hf, _ => by
      rw [set_attributes_nil] at h
      simp only [Except.ok.injEq] at h
      rw [← h]
      simpa [jGetAttr] using hf
  | f, .cons k0 v0 rest, ft, r, k, h, hf, hd => by
      have hk0 : ¬ k0 = k := by
        intro he
        rw [getAttr, if_pos he] at hd
        exact Option.noConfusion hd
      have hdrest : getAttr rest k = none := by
        rw [getAttr, if_neg hk0] at hd
        exact hd
      rw [set_attributes_cons] at h
      simp only [bind, Except.bind] at h
      cases hstep : set_attributes_step (J.obj f) k0 v0
          (if isFeatureTypeKey k0 then some k0 else ft) <;> rw [hstep] at h
      · exact Except.noConfusion h
      case ok o2 =>
        obtain ⟨f2, rfl, hloc⟩ := set_attributes_step_obj _ _ _ _ _ hstep
        have hf2 : getAttr f2 k = none := by
          rw [hloc k (fun he => hk0 he.symm)]
          exact hf
        exact set_attributes_no_new_key f2 rest _ r k h hf2 hdrest

theorem set_attributes_leaf_value : ∀ (f : JFields) (d : JFields) (ft : Option String) (r : J)
    (k : String) (v : J), set_attributes (J.obj f) d ft = .ok r →
    d.keys.Nodup → getAttr d k = some v → (∀ vf, v ≠ J.obj vf) → k ∉ sectionKeys →
    jGetAttr r k = some v
  | f, .nil, ft, r, k, v, h, _, hd, _, _ => by
      rw [getAttr] at hd
      exact Option.noConfusion hd
  | f, .cons k0 v0 rest, ft, r, k, v, h, hnd, hd, hobj, hsec => by
      rw [set_attributes_cons] at h
      simp only [bind, Except.bind] at h
      cases hstep : set_attributes_step (J.obj f) k0 v0
          (if isFeatureTypeKey k0 then some k0 else ft) <;> rw [hstep] at h
      · exact Except.noConfusion h
      case ok o2 =>
        simp only [JFields.keys, List.nodup_cons] at hnd
        by_cases hk0 : k0 = k
        · subst hk0
          rw [getAttr, if_pos rfl] at hd
          have hv : v0 = v := by simpa using hd
          subst hv
          have hstep2 : o2 = J.obj (setAttr f k0 v0) :=
            set_attributes_step_leaf f k0 v0 _ o2 hstep hsec hobj
          subst hstep2
          obtain ⟨rf, rfl, hpres⟩ := set_attributes_obj _ rest _ r h
          rw [jGetAttr, hpres k0 hnd.1, getAttr_setAttr_self]
        · obtain ⟨f2, rfl, hloc⟩ := set_attributes_step_obj _ _ _ _ _ hstep
          rw [getAttr, if_neg hk0] at hd
          exact set_attributes_leaf_value f2 rest _ r k v h hnd.2 hd hobj hsec

/-! ## Claim C8: the sequence-concat combiner check -/

/-- A fully-resolved-shaped ECD config dict with a `sequence_concat` combiner
and no sequential input feature: per the spec the registered check must
raise here. -/
def seqConcatFailingConfig : JFields := JFields.ofList [
  ("model_type", J.s "ecd"),
  ("input_features", J.arrL [J.objL [("name", J.s "num1"), ("type", J.s "number")]]),
  ("output_features", J.arrL [J.objL [("name", J.s "label"), ("type", J.s "binary")]]),
  ("combiner", J.objL [("type", J.s "sequence_concat")])]

/-- C8: the registered sequence-concat check never raises on a resolved
config.  `CheckSequenceConcatCombinerRequirements.check`
(src/ludwig/config_validation/checks.py:240) compares the combiner section
`config[COMBINER]` itself with the string `"sequence_concat"`; in a resolved
config the combiner section is a dict, so the comparison never succeeds and
the check returns without raising for every such config — including ECD
configs whose combiner type is `sequence_concat` and which have no
sequential input feature, where the spec and the check docstring require a
validation error. -/
theorem sequence_concat_check_never_fires (config : JFields) (mtv : J) (cf : JFields)
    (hmt : getAttr config "model_type" = some mtv)
    (hcomb : getAttr config "combiner" = some (J.obj cf)) :
    check_sequence_concat_combiner_requirements config = .ok () := by
  unfold check_sequence_concat_combiner_requirements
  simp only [hmt, hcomb, bind, Except.bind, pure, Except.pure]
  by_cases h : mtv = J.s "ecd"
  · subst h
    simp
  · simp [h]

/-- Witness for C8 at the failing input: the check accepts an ECD config
whose combiner type is `sequence_concat` even though its only input feature
is a `number` feature. -/
theorem sequence_concat_check_never_fires_witness :
    getAttr seqConcatFailingConfig "model_type" = some (J.s "ecd") ∧
    getAttr seqConcatFailingConfig "combiner" =
      some (J.obj (JFields.ofList [("type", J.s "sequence_concat")])) ∧
    check_sequence_concat_combiner_requirements seqConcatFailingConfig = .ok () :=
  ⟨rfl, rfl,
    sequence_concat_check_never_fires seqConcatFailingConfig (J.s "ecd")
      (JFields.ofList [("type", J.s "sequence_concat")]) rfl rfl⟩

/-! ## Claim C9: the exception type at the construction boundary -/

/-- A GBM config whose only input feature is a `text` feature (spec: GBM
only supports binary, category and number inputs). -/
def gbmTextInputConfig : JFields := JFields.ofList [
  ("model_type", J.s "gbm"),
  ("input_features", J.arrL [J.objL [("name", J.s "doc"), ("type", J.s "text")]]),
  ("output_features", J.arrL [J.objL [("name", J.s "label"), ("type", J.s "binary")]])]

/-- A GBM config whose trainer section declares `type: trainer`. -/
def gbmBadTrainerTypeConfig : JFields := JFields.ofList [
  ("model_type", J.s "gbm"),
  ("input_features", J.arrL [J.objL [("name", J.s "flag"), ("type", J.s "binary")]]),
  ("output_features", J.arrL [J.objL [("name", J.s "label"), ("type", J.s "binary")]]),
  ("trainer", J.objL [("type", J.s "trainer")])]

/-- A config with a scheduler carrying `max_t: 10`, `time_attr:
training_iteration` and a trainer with `epochs: 20` (spec scenario 4). -/
def hyperoptEpochsMismatchConfig : JFields := JFields.ofList [
  ("input_features", J.arrL [J.objL [("name", J.s "age"), ("type", J.s "number")]]),
  ("output_features", J.arrL [J.objL [("name", J.s "label"), ("type", J.s "binary")]]),
  ("trainer", J.objL [("epochs", J.i 20)]),
  ("hyperopt", J.objL [("executor", J.objL [("scheduler",
    J.objL [("max_t", J.i 10), ("time_attr", J.s "training_iteration")])])])]

/-- A config whose input feature is tied to a feature that does not exist. -/
def tiedMissingConfig : JFields := JFields.ofList [
  ("input_features", J.arrL [J.objL [("name", J.s "age"), ("type", J.s "number"),
    ("tied", J.s "ghost")]]),
  ("output_features", J.arrL [J.objL [("name", J.s "label"), ("type", J.s "binary")]])]

/-- Counterexample to C9: construction failure is not always the single
typed `ConfigValidationError`.  The GBM input-feature-type check inside
`ModelConfig.__init__` (src/ludwig/schema/config_object.py:151-153) raises
`marshmallow.ValidationError`, a different exception type. -/
theorem gbm_feature_type_error_is_marshmallow_validation_error :
    from_dict gbmTextInputConfig =
      .error (.validationError
        "GBM Models currently only support Binary, Category, and Number features") := rfl

/-- C9 amended: construction failures surface as several exception types,
one per raise site: the two GBM model-type checks in `ModelConfig.__init__`
raise `marshmallow.ValidationError`
(src/ludwig/schema/config_object.py:140,151), the hyperopt epochs/`max_t`
contradiction raises a plain `ValueError`
(src/ludwig/schema/config_object.py:427), and only the registered config
checks raise `ConfigValidationError`
(src/ludwig/config_validation/checks.py). -/
theorem construction_error_types_vary :
    from_dict gbmBadTrainerTypeConfig =
      .error (.validationError "GBM Model trainer must be of type: lightgbm_trainer") ∧
    from_dict hyperoptEpochsMismatchConfig =
      .error (.valueError
        "Cannot set trainer epochs when using hyperopt scheduler with different training_iteration max_t. Unset one of these parameters in your config or make sure their values match.") ∧
    from_dict tiedMissingConfig =
      .error (.configValidationError "Feature is tied to a feature that does not exist.") :=
  ⟨rfl, rfl, rfl⟩

/-! ## Claim C5: a hyperopt scheduler disables early stopping -/

theorem set_hyperopt_defaults_early_stop (hf ef : JFields) (sch : J) (tr : J) (h2 t2 : J)
    (hex : getAttr hf "executor" = some (J.obj ef))
    (hsch : getAttr ef "scheduler" = some sch)
    (htru : pyTruthy sch = true)
    (h : set_hyperopt_defaults (J.obj hf) tr = .ok (h2, t2)) :
    jGetAttr t2 "early_stop" = some (J.i (-1)) := by
  have hhf : pyTruthy (J.obj hf) = true := by
    cases hf with
    | nil => simp [getAttr] at hex
    | cons a b c => rfl
  unfold set_hyperopt_defaults at h
  rw [hhf] at h
  simp only [not_true, if_false, ite_false, bind, Except.bind, pure, Except.pure,
    Bool.true_eq_false, hex, Option.getD_some, hsch, htru] at h
  repeat' split at h
  all_goals try exact Except.noConfusion h
  all_goals try simp_all
  all_goals (
    obtain ⟨-, ht2⟩ := h
    subst ht2
    simp [jGetAttr, getAttr_setAttr])

/-- C5: for every config dict whose `hyperopt.executor.scheduler` is present
and non-empty, a successfully constructed `ModelConfig` has
`trainer.early_stop == -1`, regardless of any user-supplied `early_stop`
(src/ludwig/schema/config_object.py:411-416; the hyperopt reconciliation is
the last step that touches the trainer before validation, and validation
does not mutate). -/
theorem scheduler_disables_early_stopping (d : JFields) (m : ModelConfig)
    (hf ef : JFields) (sch : J)
    (hhy : getAttr d "hyperopt" = some (J.obj hf))
    (hex : getAttr hf "executor" = some (J.obj ef))
    (hsch : getAttr ef "scheduler" = some sch)
    (htru : pyTruthy sch = true)
    (h : from_dict d = .ok m) :
    jGetAttr m.trainer "early_stop" = some (J.i (-1)) := by
  obtain ⟨dfs, inRaw0, outRaw0, inRaw1, outRaw1, inputC, outputC, mt, tr0, inputC2, cmb, tr1,
    pre, hyp, tr2, -, -, -, -, -, -, -, -, -, -, -, h12, -, hm⟩ := from_dict_ok_inv d m h
  subst hm
  rw [hhy, Option.getD_some] at h12
  exact set_hyperopt_defaults_early_stop hf ef sch tr1 hyp tr2 hex hsch htru h12

/-- Scenario for the C5 witness: a scheduler is present and the user set
`early_stop: 50`. -/
def schedulerEarlyStopConfig : JFields := JFields.ofList [
  ("input_features", J.arrL [J.objL [("name", J.s "age"), ("type", J.s "number")]]),
  ("output_features", J.arrL [J.objL [("name", J.s "label"), ("type", J.s "binary")]]),
  ("trainer", J.objL [("early_stop", J.i 50)]),
  ("hyperopt", J.objL [("executor", J.objL [("scheduler",
    J.objL [("max_t", J.i 10), ("time_attr", J.s "time_total_s")])])])]

/-- Witness for C5: constructing `schedulerEarlyStopConfig` succeeds and the
resolved trainer has `early_stop = -1` despite the user-supplied value. -/
theorem scheduler_disables_early_stopping_witness :
    Except.map (fun m : ModelConfig => jGetAttr m.trainer "early_stop")
      (from_dict schedulerEarlyStopConfig) = .ok (some (J.i (-1))) := by
  cases h : from_dict schedulerEarlyStopConfig with
  | error e =>
      have hok : (from_dict schedulerEarlyStopConfig).isOk = true := rfl
      rw [h] at hok
      exact Bool.noConfusion hok
  | ok m =>
      simp only [Except.map]
      rw [scheduler_disables_early_stopping schedulerEarlyStopConfig m
        (JFields.ofList [("executor", J.objL [("scheduler",
          J.objL [("max_t", J.i 10), ("time_attr", J.s "time_total_s")])])])
        (JFields.ofList [("scheduler", J.objL [("max_t", J.i 10), ("time_attr", J.s "time_total_s")])])
        (J.objL [("max_t", J.i 10), ("time_attr", J.s "time_total_s")])
        rfl rfl rfl rfl h]

/-! ## Claim C7: tagger decoders force `reduce_input = None` -/

/-- The tagger coupling property of a resolved output feature value. -/
def TaggerProp (v : J) : Prop :=
  ∀ vf decf, v = J.obj vf → getAttr vf "decoder" = some (J.obj decf) →
    getAttr decf "type" = some (J.s "tagger") → getAttr vf "reduce_input" = some J.null

/-- Each successful output-feature parse writes exactly one container key,
and the written value satisfies the tagger coupling
(src/ludwig/schema/config_object.py:318-320). -/
theorem parse_output_feature_shape (dfs : J) (c f c2 : JFields)
    (h : parse_output_feature dfs c f = .ok c2) :
    ∃ n v, c2 = setAttr c n v ∧ TaggerProp v := by
  unfold parse_output_feature at h
  simp only [bind, Except.bind, pure, Except.pure] at h
  repeat' split at h
  all_goals try exact Except.noConfusion h
  all_goals simp only [Except.ok.injEq] at h
  all_goals subst h
  all_goals refine ⟨_, _, setAttr_setAttr_same _ _ _ _, ?_⟩
  all_goals intro vf decf hv hdec hdt
  all_goals try simp_all
  all_goals rw [← hv]
  all_goals exact getAttr_setAttr_self _ _ _

/-- The tagger coupling, as an invariant of an output-feature container. -/
def TaggerInv (c : JFields) : Prop :=
  ∀ n vf decf, getAttr c n = some (J.obj vf) →
    getAttr vf "decoder" = some (J.obj decf) →
    getAttr decf "type" = some (J.s "tagger") →
    getAttr vf "reduce_input" = some J.null

theorem parse_output_features_tagger_inv : ∀ (fs : List JFields) (dfs : J) (c c2 : JFields),
    parse_output_features dfs c fs = .ok c2 → TaggerInv c → TaggerInv c2
  | [], dfs, c, c2, h, hinv => by
      unfold parse_output_features at h
      simp only [Except.ok.injEq] at h
      exact h ▸ hinv
  | f :: rest, dfs, c, c2, h, hinv => by
      unfold parse_output_features at h
      simp only [bind, Except.bind] at h
      cases hone : parse_output_feature dfs c f <;> rw [hone] at h
      · exact Except.noConfusion h
      case ok c1 =>
        obtain ⟨n, v, rfl, hprop⟩ := parse_output_feature_shape dfs c f c1 hone
        refine parse_output_features_tagger_inv rest dfs _ c2 h ?_
        intro n2 vf decf hget hdec hdt
        rw [getAttr_setAttr] at hget
        by_cases hn : n = n2
        · rw [if_pos hn] at hget
          have hv : v = J.obj vf := by simpa using hget
          exact hprop vf decf hv hdec hdt
        · rw [if_neg hn] at hget
          exact hinv n2 vf decf hget hdec hdt

/-- C7: in a successfully constructed `ModelConfig`, every output feature
whose resolved decoder type is `tagger` has `reduce_input = None`, whatever
`reduce_input` the user supplied (src/ludwig/schema/config_object.py:318-320;
no later construction stage modifies output features). -/
theorem tagger_decoder_forces_reduce_input_none (d : JFields) (m : ModelConfig)
    (n : String) (vf decf : JFields)
    (h : from_dict d = .ok m)
    (hget : getAttr m.output_features n = some (J.obj vf))
    (hdec : getAttr vf "decoder" = some (J.obj decf))
    (hdt : getAttr decf "type" = some (J.s "tagger")) :
    getAttr vf "reduce_input" = some J.null := by
  obtain ⟨dfs, inRaw0, outRaw0, inRaw1, outRaw1, inputC, outputC, mt, tr0, inputC2, cmb, tr1,
    pre, hyp, tr2, -, -, -, -, -, -, h7, -, -, -, -, -, -, hm⟩ := from_dict_ok_inv d m h
  subst hm
  have hnil : TaggerInv .nil := by
    intro n2 vf2 decf2 hget2 _ _
    rw [getAttr] at hget2
    exact Option.noConfusion hget2
  exact parse_output_features_tagger_inv _ dfs _ _ h7 hnil n vf decf hget hdec hdt

/-- Scenario for the C7 witness: a text output feature with a user-supplied
`reduce_input: sum` and a `tagger` decoder. -/
def taggerConfig : JFields := JFields.ofList [
  ("input_features", J.arrL [J.objL [("name", J.s "doc"), ("type", J.s "text")]]),
  ("output_features", J.arrL [J.objL [("name", J.s "tags"), ("type", J.s "text"),
    ("reduce_input", J.s "sum"), ("decoder", J.objL [("type", J.s "tagger")])]])]

/-- Witness for C7 at `taggerConfig`. -/
theorem tagger_decoder_forces_reduce_input_none_witness :
    Except.map (fun m : ModelConfig =>
        (getAttr m.output_features "tags").bind (fun v => jGetAttr v "reduce_input"))
      (from_dict taggerConfig) = .ok (some J.null) := by
  cases h : from_dict taggerConfig with
  | error e =>
      have hok : (from_dict taggerConfig).isOk = true := rfl
      rw [h] at hok
      exact Bool.noConfusion hok
  | ok m =>
      have hfact : (Except.map (fun m : ModelConfig =>
          match getAttr m.output_features "tags" with
          | some (J.obj vf) =>
              match getAttr vf "decoder" with
              | some (J.obj decf) => decide (getAttr decf "type" = some (J.s "tagger"))
              | _ => false
          | _ => false) (from_dict taggerConfig)) = .ok true := rfl
      rw [h] at hfact
      simp only [Except.map, Except.ok.injEq] at hfact
      cases hvf : getAttr m.output_features "tags" with
      | none =>
          simp only [hvf] at hfact
          exact Bool.noConfusion hfact
      | some v =>
          simp only [hvf] at hfact
          cases v with
          | obj vf =>
              cases hdec : getAttr vf "decoder" with
              | none =>
                  simp only [hdec] at hfact
                  exact Bool.noConfusion hfact
              | some dv =>
                  simp only [hdec] at hfact
                  cases dv with
                  | obj decf =>
                      simp only [decide_eq_true_eq] at hfact
                      simp only [Except.map, hvf, Option.some_bind, jGetAttr]
                      rw [tagger_decoder_forces_reduce_input_none taggerConfig m "tags" vf decf
                        h hvf hdec hfact]
                  | null => exact Bool.noConfusion hfact
                  | b x => exact Bool.noConfusion hfact
                  | i x => exact Bool.noConfusion hfact
                  | s x => exact Bool.noConfusion hfact
                  | arr x => exact Bool.noConfusion hfact
                  | digest x y => exact Bool.noConfusion hfact
          | null => exact Bool.noConfusion hfact
          | b x => exact Bool.noConfusion hfact
          | i x => exact Bool.noConfusion hfact
          | s x => exact Bool.noConfusion hfact
          | arr x => exact Bool.noConfusion hfact
          | digest x y => exact Bool.noConfusion hfact

/-! ## Claim C6: epochs versus scheduler `max_t` -/

theorem set_attributes_step_sets (f : JFields) (k : String) (v : J) (ft : Option String)
    (o2 : J) (h : set_attributes_step (J.obj f) k v ft = .ok o2) :
    ∃ x, o2 = J.obj (setAttr f k x) := by
  unfold set_attributes_step at h
  simp only [bind, Except.bind, pure, Except.pure] at h
  repeat' split at h
  all_goals
    first
      | exact Except.noConfusion h
      | (rw [Except.ok.injEq] at h
         exact ⟨_, h.symm⟩)

theorem set_attributes_keeps_key : ∀ (f : JFields) (d : JFields) (ft : Option String)
    (rf : JFields) (k : String), set_attributes (J.obj f) d ft = .ok (J.obj rf) →
    (getAttr f k).isSome = true → (getAttr rf k).isSome = true
  | f, .nil, ft, rf, k, h, hs => by
      rw [set_attributes_nil] at h
      simp only [Except.ok.injEq, J.obj.injEq] at h
      rw [← h]
      exact hs
  | f, .cons k0 v0 rest, ft, rf, k, h, hs => by
      rw [set_attributes_cons] at h
      simp only [bind, Except.bind] at h
      cases hstep : set_attributes_step (J.obj f) k0 v0
          (if isFeatureTypeKey k0 then some k0 else ft) <;> rw [hstep] at h
      · exact Except.noConfusion h
      case ok o2 =>
        obtain ⟨x, rfl⟩ := set_attributes_step_sets _ _ _ _ _ hstep
        refine set_attributes_keeps_key _ rest _ rf k h ?_
        rw [getAttr_setAttr]
        by_cases hk : k0 = k
        · simp [hk]
        · rw [if_neg hk]
          exact hs

theorem resolve_model_type_trainer0 (d : JFields) (c : JFields) (mt : String) (tr0 : J)
    (c2 : JFields) (h : resolve_model_type d c = .ok (mt, tr0, c2)) :
    tr0 = ECDTrainerConfig ∨ tr0 = GBMTrainerConfig := by
  unfold resolve_model_type at h
  simp only [bind, Except.bind, pure, Except.pure] at h
  repeat' split at h
  all_goals try exact Except.noConfusion h
  all_goals simp only [Except.ok.injEq, Prod.mk.injEq] at h
  all_goals first
    | exact Or.inl h.2.1.symm
    | exact Or.inr h.2.1.symm

theorem set_hyperopt_defaults_mismatch_error (hf ef sf tf : JFields) (mv ev : J)
    (hex : getAttr hf "executor" = some (J.obj ef))
    (hsch : getAttr ef "scheduler" = some (J.obj sf))
    (hmax : getAttr sf "max_t" = some mv) (hmvnull : mv ≠ J.null)
    (hta : (getAttr sf "time_attr").getD J.null ≠ J.s "time_total_s")
    (hes : (getAttr tf "early_stop").isSome = true)
    (hep : getAttr tf "epochs" = some ev)
    (hevnull : ev ≠ J.null) (hne : ev ≠ mv) :
    set_hyperopt_defaults (J.obj hf) (J.obj tf) =
      .error (.valueError
        "Cannot set trainer epochs when using hyperopt scheduler with different training_iteration max_t. Unset one of these parameters in your config or make sure their values match.") := by
  have hhf : pyTruthy (J.obj hf) = true := by
    cases hf with
    | nil => simp [getAttr] at hex
    | cons a b c => rfl
  have hsf : pyTruthy (J.obj sf) = true := by
    cases sf with
    | nil => simp [getAttr] at hmax
    | cons a b c => rfl
  obtain ⟨es, hes2⟩ := Option.isSome_iff_exists.mp hes
  have hepoch : getAttr (setAttr tf "early_stop" (J.i (-1))) "epochs" = some ev := by
    rw [getAttr_setAttr_ne _ _ _ _ (by decide)]
    exact hep
  unfold set_hyperopt_defaults
  rw [hhf]
  simp only [not_true, if_false, ite_false, bind, Except.bind, pure, Except.pure,
    Bool.true_eq_false, hex, Option.getD_some, hsch, hsf, hes2, hmax, hepoch]
  rw [if_pos hmvnull, if_neg hta]
  rw [if_pos ⟨hevnull, hne⟩]

/-- C6 amended: when a hyperopt scheduler sets `max_t`, its `time_attr` is
not `time_total_s`, and the user trainer section sets a scalar `epochs`
different from `max_t`, construction raises
(src/ludwig/schema/config_object.py:426-430).  (With `time_attr ==
"time_total_s"` the source deliberately accepts differing values — see the
counterexample.) -/
theorem epochs_max_t_mismatch_raises (d : JFields) (hf ef sf tf : JFields) (mv ev : J)
    (hhy : getAttr d "hyperopt" = some (J.obj hf))
    (hex : getAttr hf "executor" = some (J.obj ef))
    (hsch : getAttr ef "scheduler" = some (J.obj sf))
    (hmax : getAttr sf "max_t" = some mv) (hmvnull : mv ≠ J.null)
    (hta : (getAttr sf "time_attr").getD J.null ≠ J.s "time_total_s")
    (htr : getAttr d "trainer" = some (J.obj tf))
    (hnd : tf.keys.Nodup)
    (hep : getAttr tf "epochs" = some ev)
    (hevobj : ∀ vf, ev ≠ J.obj vf) (hevnull : ev ≠ J.null) (hne : ev ≠ mv) :
    ∃ e, from_dict d = .error e := by
  cases hres : from_dict d with
  | error e => exact ⟨e, rfl⟩
  | ok m =>
      exfalso
      obtain ⟨dfs, inRaw0, outRaw0, inRaw1, outRaw1, inputC, outputC, mt, tr0, inputC2, cmb, tr1,
        pre, hyp, tr2, -, -, -, -, -, -, -, h8, -, h10, -, h12, -, -⟩ := from_dict_ok_inv d m hres
      have htr0 : tr0 = ECDTrainerConfig ∨ tr0 = GBMTrainerConfig :=
        resolve_model_type_trainer0 d inputC mt tr0 inputC2 h8
      obtain ⟨t0f, ht0f, hes0⟩ :
          ∃ t0f, tr0 = J.obj t0f ∧ (getAttr t0f "early_stop").isSome = true := by
        cases htr0 with
        | inl h0 => exact ⟨_, by rw [h0]; rfl, by decide⟩
        | inr h0 => exact ⟨_, by rw [h0]; rfl, by decide⟩
      unfold resolve_trainer at h10
      rw [htr] at h10
      rw [ht0f] at h10
      obtain ⟨t1f, rfl, -⟩ := set_attributes_obj t0f tf none tr1 h10
      have hep1 : getAttr t1f "epochs" = some ev := by
        have := set_attributes_leaf_value t0f tf none (J.obj t1f) "epochs" ev h10 hnd hep
          hevobj (by decide)
        simpa [jGetAttr] using this
      have hes1 : (getAttr t1f "early_stop").isSome = true :=
        set_attributes_keeps_key t0f tf none t1f "early_stop" h10 hes0
      rw [hhy, Option.getD_some] at h12
      rw [set_hyperopt_defaults_mismatch_error hf ef sf t1f mv ev hex hsch hmax hmvnull hta
        hes1 hep1 hevnull hne] at h12
      exact Except.noConfusion h12

/-- Witness for the amended C6 at spec scenario 4 (`max_t: 10`, `time_attr:
training_iteration`, `epochs: 20`). -/
theorem epochs_max_t_mismatch_raises_witness :
    ∃ e, from_dict hyperoptEpochsMismatchConfig = .error e :=
  epochs_max_t_mismatch_raises hyperoptEpochsMismatchConfig
    (JFields.ofList [("executor", J.objL [("scheduler",
      J.objL [("max_t", J.i 10), ("time_attr", J.s "training_iteration")])])])
    (JFields.ofList [("scheduler",
      J.objL [("max_t", J.i 10), ("time_attr", J.s "training_iteration")])])
    (JFields.ofList [("max_t", J.i 10), ("time_attr", J.s "training_iteration")])
    (JFields.ofList [("epochs", J.i 20)])
    (J.i 10) (J.i 20)
    rfl rfl rfl rfl (by decide) (by decide) rfl (by decide) rfl
    (fun vf h => J.noConfusion h) (by decide) (by decide)

/-- Same as `hyperoptEpochsMismatchConfig` but with `time_attr:
time_total_s`: `max_t` is set and the trainer `epochs` (20) differs from
`max_t` (10), yet construction succeeds and `epochs` stays 20. -/
def timeTotalSMismatchConfig : JFields := JFields.ofList [
  ("input_features", J.arrL [J.objL [("name", J.s "age"), ("type", J.s "number")]]),
  ("output_features", J.arrL [J.objL [("name", J.s "label"), ("type", J.s "binary")]]),
  ("trainer", J.objL [("epochs", J.i 20)]),
  ("hyperopt", J.objL [("executor", J.objL [("scheduler",
    J.objL [("max_t", J.i 10), ("time_attr", J.s "time_total_s")])])])]

/-- Counterexample to C6 as stated: the scheduler `max_t` (10) is set and
the trainer `epochs` (20) is set and differs, yet construction succeeds
(src/ludwig/schema/config_object.py:422-425 skips the raise whenever
`time_attr == "time_total_s"`). -/
theorem max_t_time_total_s_epochs_mismatch_succeeds :
    (from_dict timeTotalSMismatchConfig).isOk = true ∧
    Except.map (fun m : ModelConfig => jGetAttr m.trainer "epochs")
      (from_dict timeTotalSMismatchConfig) = .ok (some (J.i 20)) :=
  ⟨rfl, rfl⟩

/-! ## Claim C4: replace on type change -/

/-- C4: when the recursive attribute walk processes a section key in
{encoder, decoder, loss, optimizer, split} whose incoming dict carries a
`type` different from that of the object currently in the slot, the slot is
replaced by the fresh default instance registered for the incoming type
before the remaining keys are applied
(src/ludwig/schema/config_object.py:334-345, 233-258), and afterwards no
key absent from both the fresh schema and the user dict is accessible. -/
theorem replace_on_type_change (fields sf vf cf : JFields) (k : String) (ft : Option String)
    (st tv : J)
    (hk : k ∈ sectionKeys)
    (hslot : getAttr fields k = some (J.obj sf))
    (hst : getAttr sf "type" = some st)
    (htv : getAttr vf "type" = some tv)
    (hne : st ≠ tv)
    (hcls : get_config_cls k tv ft = .ok (J.obj cf)) :
    (set_attributes_step (J.obj fields) k (J.obj vf) ft =
      (do
        let sec3 ← set_attributes (J.obj cf) vf ft
        pure (J.obj (setAttr fields k sec3)))) ∧
    (∀ (sec3 : J) (k2 : String), set_attributes (J.obj cf) vf ft = .ok sec3 →
      getAttr cf k2 = none → getAttr vf k2 = none → jGetAttr sec3 k2 = none) := by
  constructor
  · have hrep : section_replacement k (J.obj sf) vf ft = .ok (J.obj cf) := by
      unfold section_replacement
      simp only [htv, hst]
      rw [if_pos hne]
      exact hcls
    unfold set_attributes_step
    simp only [hslot, if_pos hk, bind, Except.bind, hrep]
  · intro sec3 k2 hs hcf hvf
    exact set_attributes_no_new_key cf vf ft sec3 k2 hs hcf hvf

/-- Witness for C4 at the spec example: switching a text input feature
encoder from `parallel_cnn` to `passthrough` swaps in the fresh passthrough
default, and the resolved encoder has no `num_filters` key. -/
theorem replace_on_type_change_witness :
    (set_attributes_step (J.objL [("encoder", ParallelCNNConfig)]) "encoder"
        (J.objL [("type", J.s "passthrough")]) (some "text") =
      (do
        let sec3 ← set_attributes PassthroughEncoderConfig
          (JFields.ofList [("type", J.s "passthrough")]) (some "text")
        pure (J.obj (setAttr (JFields.ofList [("encoder", ParallelCNNConfig)])
          "encoder" sec3)))) ∧
    jGetAttr (J.objL [("type", J.s "passthrough")]) "num_filters" = none := by
  have h := replace_on_type_change
    (JFields.ofList [("encoder", ParallelCNNConfig)])
    (JFields.ofList [("type", J.s "parallel_cnn"), ("max_sequence_length", J.null),
      ("representation", J.s "dense"), ("num_filters", J.i 256), ("filter_size", J.i 3),
      ("pool_function", J.s "max"), ("use_bias", J.b true), ("should_embed", J.b true)])
    (JFields.ofList [("type", J.s "passthrough")])
    (JFields.ofList [("type", J.s "passthrough")])
    "encoder" (some "text") (J.s "parallel_cnn") (J.s "passthrough")
    (by decide) rfl rfl rfl (by decide) rfl
  exact ⟨h.1, h.2 (J.objL [("type", J.s "passthrough")]) "num_filters" rfl rfl rfl⟩

/-! ## Claim C10: duplicate input-feature names collapse silently -/

theorem set_feature_column_name (f fc : JFields) (h : set_feature_column f = .ok fc) :
    getAttr fc "name" = getAttr f "name" := by
  unfold set_feature_column at h
  cases hcol : getAttr f "column" <;> simp only [hcol] at h
  · cases hname : getAttr f "name" <;> simp only [hname] at h
    · exact Except.noConfusion h
    · simp only [Except.ok.injEq] at h
      rw [← h, getAttr_setAttr_ne _ _ _ _ (by decide), hname]
  · simp only [Except.ok.injEq] at h
    rw [← h]

theorem set_proc_column_name (f : JFields) :
    getAttr (set_proc_column f) "name" = getAttr f "name" := by
  unfold set_proc_column
  cases hp : getAttr f "proc_column"
  · simp only [hp]
    rw [getAttr_setAttr_ne _ _ _ _ (by decide)]
  · simp only [hp]

theorem parse_input_feature_decomp (dfs : J) (f : JFields) (c cB : JFields) (c2 : JFields)
    (h : parse_input_feature dfs c f = .ok c2) :
    ∃ n r, getAttr f "name" = some (J.s n) ∧ c2 = setAttr c n r ∧
      parse_input_feature dfs cB f = .ok (setAttr cB n r) := by
  unfold parse_input_feature at h ⊢
  simp only [bind, Except.bind, pure, Except.pure] at h ⊢
  cases htv : getAttr f "type" <;> simp only [htv] at h ⊢
  · exact Except.noConfusion h
  case some tv =>
  cases tv <;> try exact Except.noConfusion h
  case s t =>
  cases hreg : input_config_registry t <;> simp only [hreg] at h ⊢
  · exact Except.noConfusion h
  case some cls =>
  cases hgd : set_global_defaults cls t true dfs <;> simp only [hgd] at h ⊢
  · exact Except.noConfusion h
  case ok fwd =>
  cases hnv : getAttr f "name" <;> simp only [hnv] at h ⊢
  · exact Except.noConfusion h
  case some nv =>
  cases nv <;> try exact Except.noConfusion h
  case s n =>
  simp only [getAttr_setAttr_self] at h ⊢
  cases hres : set_attributes fwd f (some t) <;> simp only [hres] at h ⊢
  · exact Except.noConfusion h
  case ok r =>
  simp only [Except.ok.injEq] at h
  exact ⟨n, r, rfl, by rw [← h, setAttr_setAttr_same], by rw [setAttr_setAttr_same]⟩

/-- C10: a config whose `input_features` list holds two entries with the
same name parses without a duplicate-name error; the constructed object
stores features keyed on name (src/ludwig/schema/config_object.py:288-290),
so the container holds exactly one feature under that name — the resolution
of the last entry — and the uniqueness check, which only sees the projected
dict (src/ludwig/config_validation/checks.py:139-150), passes. -/
theorem duplicate_input_names_collapse (d : JFields) (m : ModelConfig)
    (f1 f2 : JFields) (n : String)
    (hin : getAttr d "input_features" = some (J.arr (JList.ofList [J.obj f1, J.obj f2])))
    (hn1 : getAttr f1 "name" = some (J.s n))
    (hn2 : getAttr f2 "name" = some (J.s n))
    (hmt : ∀ v, getAttr d "model_type" = some v → v ≠ J.s "gbm")
    (h : from_dict d = .ok m) :
    ∃ (dfs : J) (f2c : JFields) (r : J),
      resolve_defaults d = .ok dfs ∧
      set_feature_column f2 = .ok f2c ∧
      parse_input_feature dfs .nil (set_proc_column f2c) = .ok (.cons n r .nil) ∧
      m.input_features = .cons n r .nil ∧
      check_feature_names_unique (ModelConfig.to_dict m) = .ok () := by
  obtain ⟨dfs, inRaw0, outRaw0, inRaw1, outRaw1, inputC, outputC, mt, tr0, inputC2, cmb, tr1,
    pre, hyp, tr2, h1, h2, h3, h4, h5, h6, h7, h8, h9, h10, h11, h12, h13, hm⟩ :=
    from_dict_ok_inv d m h
  have hlist : getFeatureList d "input_features" = .ok [f1, f2] := by
    unfold getFeatureList
    rw [hin]
    rfl
  have hraw0 : inRaw0 = [f1, f2] := by
    rw [h2] at hlist
    simpa using hlist
  subst hraw0
  have hmapM : ([f1, f2].mapM set_feature_column : Except PyError (List JFields)) =
      (do
        let a ← set_feature_column f1
        let b ← set_feature_column f2
        pure [a, b]) := rfl
  rw [hmapM] at h4
  simp only [bind, Except.bind, pure, Except.pure] at h4
  cases hc1 : set_feature_column f1 <;> simp only [hc1] at h4
  · exact Except.noConfusion h4
  case ok f1c =>
  cases hc2 : set_feature_column f2 <;> simp only [hc2] at h4
  · exact Except.noConfusion h4
  case ok f2c =>
  simp only [Except.ok.injEq] at h4
  subst h4
  simp only [List.map] at h6
  unfold parse_input_features at h6
  simp only [bind, Except.bind] at h6
  cases hp1 : parse_input_feature dfs .nil (set_proc_column f1c) <;> simp only [hp1] at h6
  · exact Except.noConfusion h6
  case ok c1 =>
  unfold parse_input_features at h6
  simp only [bind, Except.bind] at h6
  cases hp2 : parse_input_feature dfs c1 (set_proc_column f2c) <;> simp only [hp2] at h6
  · exact Except.noConfusion h6
  case ok cfin =>
  unfold parse_input_features at h6
  simp only [Except.ok.injEq] at h6
  obtain ⟨n1, r1, hn1eq, hc1eq, -⟩ := parse_input_feature_decomp dfs _ .nil .nil c1 hp1
  obtain ⟨n2, r2, hn2eq, hceq, hB⟩ := parse_input_feature_decomp dfs _ c1 .nil cfin hp2
  have hname1 : getAttr (set_proc_column f1c) "name" = some (J.s n) := by
    rw [set_proc_column_name, set_feature_column_name f1 f1c hc1, hn1]
  have hname2 : getAttr (set_proc_column f2c) "name" = some (J.s n) := by
    rw [set_proc_column_name, set_feature_column_name f2 f2c hc2, hn2]
  have hn1n : n1 = n := by
    rw [hname1] at hn1eq
    simpa using hn1eq.symm
  have hn2n : n2 = n := by
    rw [hname2] at hn2eq
    simpa using hn2eq.symm
  rw [hn1n] at hc1eq
  rw [hn2n] at hceq hB
  have hsingle : inputC = JFields.cons n r2 .nil := by
    rw [← h6, hceq, hc1eq, setAttr_setAttr_same]
    rfl
  have hic2 : inputC2 = inputC := by
    unfold resolve_model_type at h8
    cases hmt0 : getAttr d "model_type" <;> simp only [hmt0] at h8
    · simp only [Except.ok.injEq, Prod.mk.injEq] at h8
      exact h8.2.2.symm
    case some v =>
      rw [if_neg (by simpa using hmt v hmt0)] at h8
      simp only [Except.ok.injEq, Prod.mk.injEq] at h8
      exact h8.2.2.symm
  have hcheck : check_feature_names_unique (ModelConfig.to_dict m) = .ok () := by
    rw [hm]
    unfold validate_config at h13
    simp only [bind, Except.bind] at h13
    cases hc : check_feature_names_unique
        (ModelConfig.to_dict ⟨mt, inputC2, outputC, cmb, tr2, pre, dfs, hyp⟩) <;>
      simp only [hc] at h13
    · exact Except.noConfusion h13
    case ok u =>
      cases u
      rfl
  refine ⟨dfs, f2c, r2, h1, rfl, ?_, ?_, hcheck⟩
  · rw [hB]
    rfl
  · rw [hm]
    show inputC2 = JFields.cons n r2 .nil
    rw [hic2, hsingle]

/-- A config whose `input_features` list holds two entries both named
`feat` (a number entry then a binary entry). -/
def dupNamesConfig : JFields := JFields.ofList [
  ("input_features", J.arrL [
    J.objL [("name", J.s "feat"), ("type", J.s "number")],
    J.objL [("name", J.s "feat"), ("type", J.s "binary")]]),
  ("output_features", J.arrL [J.objL [("name", J.s "label"), ("type", J.s "binary")]])]

/-- Witness for C10: `dupNamesConfig` constructs successfully, the
input-feature container holds exactly one feature under `feat` — the
resolution of the second (binary) entry — and the projected uniqueness
check passes. -/
theorem duplicate_input_names_collapse_witness :
    ∃ (dfs : J) (f2c : JFields) (r : J),
      resolve_defaults dupNamesConfig = .ok dfs ∧
      set_feature_column (JFields.ofList [("name", J.s "feat"), ("type", J.s "binary")]) =
        .ok f2c ∧
      parse_input_feature dfs .nil (set_proc_column f2c) = .ok (.cons "feat" r .nil) ∧
      Except.map (fun m : ModelConfig => m.input_features) (from_dict dupNamesConfig) =
        .ok (JFields.cons "feat" r .nil) := by
  cases hfd : from_dict dupNamesConfig with
  | error e =>
      have hok : (from_dict dupNamesConfig).isOk = true := rfl
      rw [hfd] at hok
      exact Bool.noConfusion hok
  | ok m =>
      obtain ⟨dfs, f2c, r, hdfs, hf2c, hpf, hif, -⟩ :=
        duplicate_input_names_collapse dupNamesConfig m
          (JFields.ofList [("name", J.s "feat"), ("type", J.s "number")])
          (JFields.ofList [("name", J.s "feat"), ("type", J.s "binary")])
          "feat" rfl rfl rfl (fun v hv => Option.noConfusion hv) hfd
      refine ⟨dfs, f2c, r, hdfs, hf2c, hpf, ?_⟩
      simp only [Except.map]
      rw [hif]

/-! ## Claim C3: purity of the derived `proc_column` -/

/-- C3 amended: the derived `proc_column` digest is a pure injective
function of the feature `type` and the **raw** `preprocessing` section of
the dict it is handed (`ModelConfig.__init__` computes it at
src/ludwig/schema/config_object.py:129-130, before feature resolution), a
missing section defaulting to the empty dict; it ignores every other
attribute, `name` and `column` included. -/
theorem proc_column_raw_purity (f1 f2 : JFields) :
    compute_feature_hash f1 = compute_feature_hash f2 ↔
      ((getAttr f1 "type").getD J.null = (getAttr f2 "type").getD J.null ∧
       (getAttr f1 "preprocessing").getD (J.obj .nil) =
         (getAttr f2 "preprocessing").getD (J.obj .nil)) := by
  constructor
  · intro h
    unfold compute_feature_hash at h
    rw [J.digest.injEq] at h
    exact h
  · intro h
    unfold compute_feature_hash
    rw [h.1, h.2]

/-- Two number input features whose fully-resolved preprocessing parameters
coincide — `n2` merely spells out the `missing_value_strategy` default that
`n1` inherits — but whose raw `preprocessing` dicts differ. -/
def procColumnConfig : JFields := JFields.ofList [
  ("input_features", J.arrL [
    J.objL [("name", J.s "n1"), ("type", J.s "number")],
    J.objL [("name", J.s "n2"), ("type", J.s "number"),
      ("preprocessing", J.objL [("missing_value_strategy", J.s "fill_with_const")])]]),
  ("output_features", J.arrL [J.objL [("name", J.s "label"), ("type", J.s "binary")]])]

/-- Counterexample to C3 as stated: after construction the two features
have identical `type` and identical fully-resolved preprocessing
parameters, yet their derived `proc_column` values differ, because the
digest is taken over the raw pre-resolution feature dict
(src/ludwig/schema/config_object.py:129-130). -/
theorem proc_column_not_resolved_pure :
    Except.map (fun m : ModelConfig =>
      match getAttr m.input_features "n1", getAttr m.input_features "n2" with
      | some (J.obj g1), some (J.obj g2) =>
          decide (getAttr g1 "preprocessing" = getAttr g2 "preprocessing") &&
          decide (getAttr g1 "type" = getAttr g2 "type") &&
          !(decide (getAttr g1 "proc_column" = getAttr g2 "proc_column"))
      | _, _ => false) (from_dict procColumnConfig) = .ok true := rfl

/-! ## Claim C2: GBM model-type resolution -/

theorem getAttr_none_not_mem : ∀ (c : JFields) (k : String),
    getAttr c k = none → k ∉ c.keys
  | .nil, k, _ => by simp [JFields.keys]
  | .cons k0 v0 rest, k, h => by
      rw [getAttr] at h
      by_cases hk : k0 = k
      · rw [if_pos hk] at h
        exact Option.noConfusion h
      · rw [if_neg hk] at h
        simp only [JFields.keys, List.mem_cons, not_or]
        exact ⟨fun he => hk he.symm, getAttr_none_not_mem rest k h⟩

theorem resolve_model_type_gbm_inv (d inputC : JFields) (mt : String) (tr0 : J)
    (inputC2 : JFields)
    (hmt : getAttr d "model_type" = some (J.s "gbm"))
    (h : resolve_model_type d inputC = .ok (mt, tr0, inputC2)) :
    mt = "gbm" ∧ tr0 = GBMTrainerConfig ∧ gbm_force_encoders inputC = .ok inputC2 ∧
    (∀ tf, getAttr d "trainer" = some (J.obj tf) →
      getAttr tf "type" = none ∨ getAttr tf "type" = some (J.s "lightgbm_trainer")) := by
  unfold resolve_model_type at h
  simp only [hmt] at h
  rw [if_pos trivial] at h
  simp only [bind, Except.bind, pure, Except.pure] at h
  cases htd : getAttr d "trainer" <;>
    simp only [htd, Option.getD_none, Option.getD_some, getAttr] at h
  · cases hforce : gbm_force_encoders inputC <;> simp only [hforce] at h
    · exact Except.noConfusion h
    · simp only [Except.ok.injEq, Prod.mk.injEq] at h
      exact ⟨h.1.symm, h.2.1.symm, by rw [h.2.2], fun tf htf => Option.noConfusion htf⟩
  case some td =>
  cases td <;> try exact Except.noConfusion h
  case obj tf =>
  cases hty : getAttr tf "type" <;> simp only [hty] at h
  · cases hforce : gbm_force_encoders inputC <;> simp only [hforce] at h
    · exact Except.noConfusion h
    · simp only [Except.ok.injEq, Prod.mk.injEq] at h
      refine ⟨h.1.symm, h.2.1.symm, by rw [h.2.2], fun tf2 htf2 => ?_⟩
      simp only [Option.some.injEq, J.obj.injEq] at htf2
      rw [← htf2]
      exact Or.inl hty
  case some tyv =>
  by_cases hl : tyv = J.s "lightgbm_trainer"
  · rw [if_neg (not_not_intro hl)] at h
    cases hforce : gbm_force_encoders inputC <;> simp only [hforce] at h
    · exact Except.noConfusion h
    · simp only [Except.ok.injEq, Prod.mk.injEq] at h
      refine ⟨h.1.symm, h.2.1.symm, by rw [h.2.2], fun tf2 htf2 => ?_⟩
      simp only [Option.some.injEq, J.obj.injEq] at htf2
      rw [← htf2, hty, hl]
      exact Or.inr rfl
  · rw [if_pos hl] at h
    exact Except.noConfusion h

theorem gbm_force_encoders_spec : ∀ (c c2 : JFields),
    gbm_force_encoders c = .ok c2 →
    ∀ n fv, getAttr c2 n = some fv →
    ∃ ff, fv = J.obj ff ∧
      ((getAttr ff "type" = some (J.s "binary") ∧
        getAttr ff "encoder" = some BinaryPassthroughEncoderConfig) ∨
       ((getAttr ff "type" = some (J.s "category") ∨ getAttr ff "type" = some (J.s "number")) ∧
        getAttr ff "encoder" = some PassthroughEncoderConfig))
  | .nil, c2, h, n, fv, hg => by
      simp only [gbm_force_encoders, Except.ok.injEq] at h
      rw [← h] at hg
      exact Option.noConfusion hg
  | .cons n0 fv0 rest, c2, h, n, fv, hg => by
      unfold gbm_force_encoders at h
      simp only [bind, Except.bind, pure, Except.pure] at h
      cases fv0 <;> try exact Except.noConfusion h
      case obj ff0 =>
      cases htv : getAttr ff0 "type" <;> simp only [htv] at h
      · exact Except.noConfusion h
      case some tv =>
      by_cases hb : tv = J.s "binary"
      · rw [if_pos hb] at h
        cases hrest : gbm_force_encoders rest <;> simp only [hrest] at h
        · exact Except.noConfusion h
        next rest2 =>
        simp only [Except.ok.injEq] at h
        rw [← h] at hg
        rw [getAttr] at hg
        by_cases hn : n0 = n
        · rw [if_pos hn] at hg
          simp only [Option.some.injEq] at hg
          refine ⟨_, hg.symm, Or.inl ⟨?_, getAttr_setAttr_self _ _ _⟩⟩
          rw [getAttr_setAttr_ne _ _ _ _ (by decide), htv, hb]
        · rw [if_neg hn] at hg
          exact gbm_force_encoders_spec rest rest2 hrest n fv hg
      · rw [if_neg hb] at h
        by_cases hcn : tv = J.s "category" ∨ tv = J.s "number"
        · rw [if_pos hcn] at h
          cases hrest : gbm_force_encoders rest <;> simp only [hrest] at h
          · exact Except.noConfusion h
          next rest2 =>
          simp only [Except.ok.injEq] at h
          rw [← h] at hg
          rw [getAttr] at hg
          by_cases hn : n0 = n
          · rw [if_pos hn] at hg
            simp only [Option.some.injEq] at hg
            refine ⟨_, hg.symm, Or.inr ⟨?_, getAttr_setAttr_self _ _ _⟩⟩
            rw [getAttr_setAttr_ne _ _ _ _ (by decide), htv]
            cases hcn with
            | inl hc => exact Or.inl (by rw [hc])
            | inr hc => exact Or.inr (by rw [hc])
          · rw [if_neg hn] at hg
            exact gbm_force_encoders_spec rest rest2 hrest n fv hg
        · rw [if_neg hcn] at h
          exact Except.noConfusion h

theorem gbm_force_encoders_bad_type : ∀ (c : JFields) (n : String) (ff : JFields) (tv : J),
    getAttr c n = some (J.obj ff) → getAttr ff "type" = some tv →
    tv ≠ J.s "binary" → tv ≠ J.s "category" → tv ≠ J.s "number" →
    ∃ e, gbm_force_encoders c = .error e
  | .nil, n, ff, tv, hg, _, _, _, _ => by
      rw [getAttr] at hg
      exact Option.noConfusion hg
  | .cons n0 fv0 rest, n, ff, tv, hg, htv, h1, h2, h3 => by
      rw [getAttr] at hg
      by_cases hn : n0 = n
      · rw [if_pos hn] at hg
        simp only [Option.some.injEq] at hg
        subst hg
        refine ⟨.validationError
          "GBM Models currently only support Binary, Category, and Number features", ?_⟩
        unfold gbm_force_encoders
        simp only [htv]
        rw [if_neg h1, if_neg (fun hor => hor.elim h2 h3)]
      · rw [if_neg hn] at hg
        obtain ⟨e, he⟩ := gbm_force_encoders_bad_type rest n ff tv hg htv h1 h2 h3
        unfold gbm_force_encoders
        simp only [bind, Except.bind, pure, Except.pure]
        cases fv0 <;> try exact ⟨_, rfl⟩
        next ff0 =>
        cases htv0 : getAttr ff0 "type" <;> simp only [htv0]
        · exact ⟨_, rfl⟩
        case some tv0 =>
        by_cases hb : tv0 = J.s "binary"
        · rw [if_pos hb, he]
          exact ⟨e, rfl⟩
        · rw [if_neg hb]
          by_cases hcn : tv0 = J.s "category" ∨ tv0 = J.s "number"
          · rw [if_pos hcn, he]
            exact ⟨e, rfl⟩
          · rw [if_neg hcn]
            exact ⟨_, rfl⟩

theorem set_hyperopt_defaults_keeps (hy tr : J) (p : J × J)
    (h : set_hyperopt_defaults hy tr = .ok p) (k : String)
    (h1 : k ≠ "early_stop") (h2 : k ≠ "epochs") :
    jGetAttr p.2 k = jGetAttr tr k := by
  unfold set_hyperopt_defaults at h
  simp only [bind, Except.bind, pure, Except.pure] at h
  repeat' split at h
  all_goals try exact Except.noConfusion h
  all_goals simp only [Except.ok.injEq] at h
  all_goals rw [← h]
  all_goals simp only [jGetAttr]
  all_goals try rw [getAttr_setAttr_ne _ _ _ _ (Ne.symm h2)]
  all_goals rw [getAttr_setAttr_ne _ _ _ _ (Ne.symm h1)]

/-- C2 amended: for a config dict with `model_type == "gbm"` that constructs
successfully, the trainer is the GBM trainer schema (declared type
`lightgbm_trainer`), every stored input feature has type binary, category or
number with its encoder forced to the binary-passthrough respectively
passthrough config, and model-type resolution raises whenever the parsed
input container holds a feature of any other type
(src/ludwig/schema/config_object.py:134-153).  (The "otherwise construction
succeeds" half of the original claim is refuted separately: a GBM config
whose features are all of allowed types still raises when the user trainer
declares a non-`lightgbm_trainer` type.) -/
theorem gbm_model_type_resolution (d : JFields) (m : ModelConfig)
    (hmt : getAttr d "model_type" = some (J.s "gbm"))
    (hnd : ∀ tf, getAttr d "trainer" = some (J.obj tf) → tf.keys.Nodup)
    (h : from_dict d = .ok m) :
    jGetAttr m.trainer "type" = some (J.s "lightgbm_trainer") ∧
    (∀ n fv, getAttr m.input_features n = some fv →
      ∃ ff, fv = J.obj ff ∧
        ((getAttr ff "type" = some (J.s "binary") ∧
          getAttr ff "encoder" = some BinaryPassthroughEncoderConfig) ∨
         ((getAttr ff "type" = some (J.s "category") ∨
           getAttr ff "type" = some (J.s "number")) ∧
          getAttr ff "encoder" = some PassthroughEncoderConfig))) ∧
    (∀ (inputC : JFields) (n : String) (ff : JFields) (tv : J),
      getAttr inputC n = some (J.obj ff) → getAttr ff "type" = some tv →
      tv ≠ J.s "binary" → tv ≠ J.s "category" → tv ≠ J.s "number" →
      ∃ e, resolve_model_type d inputC = .error e) := by
  obtain ⟨dfs, inRaw0, outRaw0, inRaw1, outRaw1, inputC, outputC, mt, tr0, inputC2, cmb, tr1,
    pre, hyp, tr2, -, -, -, -, -, -, -, h8, -, h10, -, h12, -, hm⟩ :=
    from_dict_ok_inv d m h
  obtain ⟨hmt2, htr0, hforce, htyp⟩ := resolve_model_type_gbm_inv d inputC mt tr0 inputC2 hmt h8
  have htr1 : jGetAttr tr1 "type" = some (J.s "lightgbm_trainer") := by
    unfold resolve_trainer at h10
    cases htd : getAttr d "trainer" <;> simp only [htd] at h10
    · simp only [Except.ok.injEq] at h10
      rw [← h10, htr0]
      rfl
    case some td =>
    cases td <;> try exact Except.noConfusion h10
    case obj tf =>
    rw [htr0] at h10
    cases htyp tf htd with
    | inl hnone =>
        obtain ⟨rf, rfl, hpres⟩ := set_attributes_obj
          (JFields.ofList [("type", J.s "lightgbm_trainer"), ("early_stop", J.i 5),
            ("boosting_type", J.s "gbdt"), ("num_boost_round", J.i 100)]) tf none tr1 h10
        rw [jGetAttr, hpres "type" (getAttr_none_not_mem tf "type" hnone)]
        rfl
    | inr hsome =>
        exact set_attributes_leaf_value
          (JFields.ofList [("type", J.s "lightgbm_trainer"), ("early_stop", J.i 5),
            ("boosting_type", J.s "gbdt"), ("num_boost_round", J.i 100)]) tf none tr1
          "type" (J.s "lightgbm_trainer") h10 (hnd tf htd) hsome
          (fun vf hv => J.noConfusion hv) (by decide)
  refine ⟨?_, ?_, ?_⟩
  · have hkeep := set_hyperopt_defaults_keeps ((getAttr d "hyperopt").getD (J.obj .nil)) tr1
      (hyp, tr2) h12 "type" (by decide) (by decide)
    rw [hm]
    show jGetAttr tr2 "type" = some (J.s "lightgbm_trainer")
    rw [hkeep, htr1]
  · intro n fv hg
    rw [hm] at hg
    exact gbm_force_encoders_spec inputC inputC2 hforce n fv hg
  · intro inputCB n ff tv hq htv h1 h2 h3
    obtain ⟨e, he⟩ := gbm_force_encoders_bad_type inputCB n ff tv hq htv h1 h2 h3
    unfold resolve_model_type
    simp only [hmt]
    rw [if_pos trivial]
    simp only [bind, Except.bind, pure, Except.pure]
    cases htd : getAttr d "trainer" <;>
      simp only [Option.getD_none, Option.getD_some, getAttr]
    · rw [he]
      exact ⟨e, rfl⟩
    case some td =>
    cases td <;> try exact ⟨_, rfl⟩
    case obj tf =>
    cases hty : getAttr tf "type" <;> simp only [hty]
    · rw [he]
      exact ⟨e, rfl⟩
    case some tyv =>
    by_cases hl : tyv = J.s "lightgbm_trainer"
    · rw [if_neg (not_not_intro hl), he]
      exact ⟨e, rfl⟩
    · rw [if_pos hl]
      exact ⟨_, rfl⟩

/-- A GBM config with a binary and a number input feature and no user
trainer section: construction succeeds. -/
def gbmOkConfig : JFields := JFields.ofList [
  ("model_type", J.s "gbm"),
  ("input_features", J.arrL [
    J.objL [("name", J.s "flag"), ("type", J.s "binary")],
    J.objL [("name", J.s "age"), ("type", J.s "number")]]),
  ("output_features", J.arrL [J.objL [("name", J.s "label"), ("type", J.s "binary")]])]

/-- Witness for the amended C2 at `gbmOkConfig`: the resolved trainer type
is `lightgbm_trainer`, the forced encoders are checked concretely, and
model-type resolution on a container holding a text feature errors. -/
theorem gbm_model_type_resolution_witness :
    Except.map (fun m : ModelConfig => jGetAttr m.trainer "type") (from_dict gbmOkConfig) =
      .ok (some (J.s "lightgbm_trainer")) ∧
    Except.map (fun m : ModelConfig =>
      match getAttr m.input_features "flag", getAttr m.input_features "age" with
      | some (J.obj f1), some (J.obj f2) =>
          decide (getAttr f1 "encoder" = some BinaryPassthroughEncoderConfig) &&
          decide (getAttr f2 "encoder" = some PassthroughEncoderConfig)
      | _, _ => false) (from_dict gbmOkConfig) = .ok true ∧
    (∃ e, resolve_model_type gbmOkConfig
      (JFields.ofList [("doc", J.objL [("type", J.s "text")])]) = .error e) := by
  cases hfd : from_dict gbmOkConfig with
  | error e =>
      have hok : (from_dict gbmOkConfig).isOk = true := rfl
      rw [hfd] at hok
      exact Bool.noConfusion hok
  | ok m =>
      have h := gbm_model_type_resolution gbmOkConfig m rfl
        (fun tf htf => Option.noConfusion htf) hfd
      refine ⟨?_, ?_, ?_⟩
      · simp only [Except.map]
        rw [h.1]
      · rw [← hfd]
        rfl
      · exact h.2.2 (JFields.ofList [("doc", J.objL [("type", J.s "text")])]) "doc"
          (JFields.ofList [("type", J.s "text")]) (J.s "text") rfl rfl
          (by decide) (by decide) (by decide)

/-- Counterexample to the "otherwise construction succeeds" half of C2: in
`gbmBadTrainerTypeConfig` the only input feature is binary — an allowed
type — yet construction raises on the user trainer `type`
(src/ludwig/schema/config_object.py:136-142). -/
theorem gbm_allowed_types_can_still_raise :
    getFeatureList gbmBadTrainerTypeConfig "input_features" =
      .ok [JFields.ofList [("name", J.s "flag"), ("type", J.s "binary")]] ∧
    from_dict gbmBadTrainerTypeConfig =
      .error (.validationError "GBM Model trainer must be of type: lightgbm_trainer") :=
  ⟨rfl, rfl⟩

/-! ## Claim C1: round-trip of construction and projection

The central device is a decidable invariant (`goodF`) relating a resolved
object to the default it was grown from: re-applying the resolved object's
own fields to that default reproduces the resolved object (`walkF`), and the
original construction establishes the invariant (`buildF`). -/

def jappend : JFields → JFields → JFields
  | .nil, ys => ys
  | .cons k v rest, ys => .cons k v (jappend rest ys)

theorem jappend_nil : ∀ xs : JFields, jappend xs .nil = xs
  | .nil => rfl
  | .cons k v rest => by rw [jappend, jappend_nil rest]

theorem jappend_snoc : ∀ (xs : JFields) (k : String) (v : J) (ys : JFields),
    jappend (jappend xs (.cons k v .nil)) ys = jappend xs (.cons k v ys)
  | .nil, k, v, ys => rfl
  | .cons k0 v0 rest, k, v, ys => by
      simp only [jappend]
      rw [jappend_snoc rest k v ys]

theorem keys_jappend : ∀ xs ys : JFields,
    (jappend xs ys).keys = xs.keys ++ ys.keys
  | .nil, ys => rfl
  | .cons k v rest, ys => by
      simp only [jappend, JFields.keys, keys_jappend rest ys, List.cons_append]

theorem getAttr_jappend_skip : ∀ (xs ys : JFields) (k : String), k ∉ xs.keys →
    getAttr (jappend xs ys) k = getAttr ys k
  | .nil, ys, k, _ => rfl
  | .cons k0 v0 rest, ys, k, h => by
      simp only [JFields.keys, List.mem_cons, not_or] at h
      rw [jappend, getAttr, if_neg (fun he => h.1 he.symm), getAttr_jappend_skip rest ys k h.2]

theorem setAttr_jappend_skip : ∀ (xs ys : JFields) (k : String) (v : J), k ∉ xs.keys →
    setAttr (jappend xs ys) k v = jappend xs (setAttr ys k v)
  | .nil, ys, k, v, _ => rfl
  | .cons k0 v0 rest, ys, k, v, h => by
      simp only [JFields.keys, List.mem_cons, not_or] at h
      rw [jappend, setAttr, if_neg (fun he => h.1 he.symm), setAttr_jappend_skip rest ys k v h.2, jappend]

theorem setAttr_self : ∀ (c : JFields) (k : String) (v : J), getAttr c k = some v →
    setAttr c k v = c
  | .nil, k, v, h => by rw [getAttr] at h; exact Option.noConfusion h
  | .cons k0 v0 rest, k, v, h => by
      rw [getAttr] at h
      by_cases hk : k0 = k
      · rw [if_pos hk] at h
        simp only [Option.some.injEq] at h
        rw [setAttr, if_pos hk, h]
      · rw [if_neg hk] at h
        rw [setAttr, if_neg hk, setAttr_self rest k v h]

theorem keys_setAttr_mem : ∀ (c : JFields) (k : String) (v : J), k ∈ c.keys →
    (setAttr c k v).keys = c.keys
  | .nil, k, v, h => by simp [JFields.keys] at h
  | .cons k0 v0 rest, k, v, h => by
      by_cases hk : k0 = k
      · rw [setAttr, if_pos hk]
        rfl
      · simp only [JFields.keys, List.mem_cons] at h
        rcases h with h | h
        · exact absurd h.symm hk
        · rw [setAttr, if_neg hk]
          simp only [JFields.keys, keys_setAttr_mem rest k v h]

theorem setAttr_not_mem : ∀ (c : JFields) (k : String) (v : J), k ∉ c.keys →
    setAttr c k v = jappend c (.cons k v .nil)
  | .nil, k, v, _ => rfl
  | .cons k0 v0 rest, k, v, h => by
      simp only [JFields.keys, List.mem_cons, not_or] at h
      rw [setAttr, if_neg (fun he => h.1 he.symm), jappend, setAttr_not_mem rest k v h.2]

def isLeafJ : J → Bool
  | J.obj _ => false
  | _ => true

/-- The feature-type thread update of `_set_attributes`
(src/ludwig/schema/config_object.py:337-339). -/
def ftAt (k : String) (ft : Option String) : Option String :=
  if isFeatureTypeKey k then some k else ft

/-- Keys whose steps do not depend on the incoming feature-type thread:
feature-type keys override it and leaf assignments ignore it. -/
def mixOKF : JFields → Bool
  | .nil => true
  | .cons k v rest => (isFeatureTypeKey k || isLeafJ v) && mixOKF rest

-- A dict representable as a Python dict whose nesting is free of stray
-- feature-type-named keys: keys unique per level, no feature-type key.
mutual
def pyDictOKJ : J → Bool
  | J.obj f => pyDictOKF f
  | _ => true

def pyDictOKF : JFields → Bool
  | .nil => true
  | .cons k v rest =>
      !(isFeatureTypeKey k) && !(decide (k ∈ JFields.keys rest)) &&
      (!(decide (k = "type")) || isLeafJ v) && pyDictOKJ v && pyDictOKF rest
end

/-- A legal user `defaults` section: unique keys; the per-feature-type
sub-dicts are themselves clean nested dicts. -/
def defaultsArgOK : JFields → Bool
  | .nil => true
  | .cons k v rest =>
      !(decide (k ∈ JFields.keys rest)) && (!(isFeatureTypeKey k) || pyDictOKJ v) &&
      defaultsArgOK rest

-- The mutual block below defines the restoration invariant: `goodV` for one
-- resolved value against the base value at the same key, `goodF` for a
-- resolved field list against the base field list it grew from (an aligned
-- prefix of per-key invariants followed by appended plain leaves, `goodExtF`).
mutual
def goodV (ft : Option String) (k : String) (d w : J) : Bool :=
  if k ∈ sectionKeys then
    match d, w with
    | J.obj df, J.obj wf =>
        match getAttr df "type", getAttr wf "type" with
        | some td, some tw =>
            if tw = td then goodF ft df wf
            else
              match get_config_cls k tw ft with
              | .ok (J.obj cf) => goodF ft cf wf
              | _ => false
        | _, _ => false
    | _, _ => false
  else
    match w with
    | J.obj wf =>
        match d with
        | J.obj df => goodF ft df wf
        | _ => false
    | _ => true

def goodF (ft : Option String) : JFields → JFields → Bool
  | .nil, wf => goodExtF wf
  | .cons _ _ _, .nil => false
  | .cons k d rest, .cons k2 w rest2 =>
      decide (k = k2) && !(decide (k ∈ JFields.keys rest)) &&
      !(decide (k ∈ JFields.keys rest2)) &&
      (!(isFeatureTypeKey k) || mixOKF rest2) &&
      goodV (ftAt k ft) k d w && goodF ft rest rest2

def goodExtF : JFields → Bool
  | .nil => true
  | .cons k w rest =>
      !(decide (k ∈ sectionKeys)) && isLeafJ w && !(decide (k ∈ JFields.keys rest)) &&
      goodExtF rest
end

/-- Restoration invariant between whole objects. -/
def goodO (ft : Option String) (d w : J) : Bool :=
  match d, w with
  | J.obj df, J.obj wf => goodF ft df wf
  | _, _ => false

theorem set_attributes_step_leaf_eq (f : JFields) (k : String) (v : J) (ft : Option String)
    (hsec : k ∉ sectionKeys) (hleaf : isLeafJ v = true) :
    set_attributes_step (J.obj f) k v ft = .ok (J.obj (setAttr f k v)) := by
  cases v <;> simp only [isLeafJ] at hleaf <;> try exact Bool.noConfusion hleaf
  all_goals unfold set_attributes_step
  all_goals rw [if_neg hsec]

theorem set_attributes_step_nested_eq (f : JFields) (k : String) (vf : JFields)
    (ft : Option String) (d : J)
    (hsec : k ∉ sectionKeys) (hget : getAttr f k = some d) :
    set_attributes_step (J.obj f) k (J.obj vf) ft =
      (do
        let sub2 ← set_attributes d vf ft
        pure (J.obj (setAttr f k sub2))) := by
  unfold set_attributes_step
  simp only [hget]
  rw [if_neg hsec]

theorem set_attributes_step_sect_eq (f : JFields) (k : String) (vf : JFields)
    (ft : Option String) (d : J)
    (hsec : k ∈ sectionKeys) (hget : getAttr f k = some d) :
    set_attributes_step (J.obj f) k (J.obj vf) ft =
      (do
        let sec2 ← section_replacement k d vf ft
        let sec3 ← set_attributes sec2 vf ft
        pure (J.obj (setAttr f k sec3))) := by
  unfold set_attributes_step
  simp only [hget]
  rw [if_pos hsec]

theorem set_attributes_step_ft (o : J) (k : String) (v : J) (fa fb : Option String)
    (hleaf : isLeafJ v = true) : set_attributes_step o k v fa = set_attributes_step o k v fb := by
  cases v <;> simp only [isLeafJ] at hleaf <;> try exact Bool.noConfusion hleaf
  all_goals cases o <;> rfl

theorem set_attributes_ft_irrel : ∀ (o : J) (wf : JFields) (fa fb : Option String),
    mixOKF wf = true → set_attributes o wf fa = set_attributes o wf fb
  | o, .nil, _, _, _ => rfl
  | o, .cons k v rest, fa, fb, h => by
      simp only [mixOKF, Bool.and_eq_true, Bool.or_eq_true] at h
      rw [set_attributes_cons, set_attributes_cons]
      by_cases hk : isFeatureTypeKey k = true
      · rw [if_pos hk, if_pos hk]
      · have hleaf : isLeafJ v = true := by
          rcases h.1 with h1 | h1
          · exact absurd h1 hk
          · exact h1
        rw [if_neg hk, if_neg hk]
        rw [set_attributes_step_ft o k v fa fb hleaf]
        simp only [bind, Except.bind]
        cases hstep : set_attributes_step o k v fb
        · rfl
        · exact set_attributes_ft_irrel _ rest fa fb h.2

theorem walkF : ∀ (ft : Option String) (pre df wf : JFields),
    goodF ft df wf = true →
    (∀ k2, k2 ∈ JFields.keys wf → k2 ∉ JFields.keys pre) →
    set_attributes (J.obj (jappend pre df)) wf ft = .ok (J.obj (jappend pre wf))
  | ft, pre, df, .nil, hg, _ => by
      have hdf : df = .nil := by
        cases df with
        | nil => rfl
        | cons k0 d0 rest0 => simp [goodF] at hg
      subst hdf
      rw [set_attributes_nil]
  | ft, pre, .nil, .cons k w rest2, hg, hfresh => by
      have hgE : goodExtF (.cons k w rest2) = true := hg
      simp only [goodExtF, Bool.and_eq_true, Bool.not_eq_true', decide_eq_false_iff_not] at hgE
      obtain ⟨⟨⟨hsec, hleaf⟩, hkr⟩, hrest⟩ := hgE
      have hkpre : k ∉ pre.keys := hfresh k (by simp [JFields.keys])
      rw [set_attributes_cons]
      rw [jappend_nil]
      rw [set_attributes_step_leaf_eq pre k w _ hsec hleaf]
      simp only [bind, Except.bind]
      rw [setAttr_not_mem pre k w hkpre]
      have hrec := walkF (if isFeatureTypeKey k then some k else ft)
        (jappend pre (.cons k w .nil)) .nil rest2 (by simp only [goodF]; exact hrest)
        (fun k2 hk2 => by
          rw [keys_jappend]
          simp only [List.mem_append, JFields.keys, List.mem_singleton, not_or]
          exact ⟨hfresh k2 (by simp [JFields.keys, hk2]),
            fun he => hkr (he ▸ hk2)⟩)
      rw [jappend_nil] at hrec
      rw [jappend_snoc] at hrec
      exact hrec
  | ft, pre, .cons k0 d rest, .cons k2 w rest2, hg, hfresh => by
      have hgC : (decide (k0 = k2) && !(decide (k0 ∈ JFields.keys rest)) &&
          !(decide (k0 ∈ JFields.keys rest2)) && (!(isFeatureTypeKey k0) || mixOKF rest2) &&
          goodV (ftAt k0 ft) k0 d w && goodF ft rest rest2) = true := hg
      simp only [Bool.and_eq_true, decide_eq_true_eq, Bool.not_eq_true', decide_eq_false_iff_not,
        Bool.or_eq_true] at hgC
      obtain ⟨⟨⟨⟨⟨hkk, hkr⟩, hkr2⟩, hmix⟩, hgv⟩, hgrest⟩ := hgC
      subst hkk
      have hkpre : k0 ∉ pre.keys := hfresh k0 (by simp [JFields.keys])
      have hget : getAttr (jappend pre (.cons k0 d rest)) k0 = some d := by
        rw [getAttr_jappend_skip pre _ k0 hkpre, getAttr, if_pos rfl]
      simp only [ftAt] at hgv
      rw [set_attributes_cons]
      have hstep : set_attributes_step (J.obj (jappend pre (.cons k0 d rest))) k0 w
          (if isFeatureTypeKey k0 then some k0 else ft) =
          .ok (J.obj (setAttr (jappend pre (.cons k0 d rest)) k0 w)) := by
        by_cases hsec : k0 ∈ sectionKeys
        · unfold goodV at hgv
          rw [if_pos hsec] at hgv
          cases d <;> try exact Bool.noConfusion hgv
          next df0 =>
          cases w <;> try exact Bool.noConfusion hgv
          next wf0 =>
          cases htd : getAttr df0 "type" <;> simp only [htd] at hgv <;>
            try exact Bool.noConfusion hgv
          case some td =>
          cases htw : getAttr wf0 "type" <;> simp only [htw] at hgv <;>
            try exact Bool.noConfusion hgv
          case some tw =>
          rw [set_attributes_step_sect_eq _ k0 wf0 _ (J.obj df0) hsec hget]
          by_cases htdw : tw = td
          · rw [if_pos htdw] at hgv
            have hrep : section_replacement k0 (J.obj df0) wf0
                (if isFeatureTypeKey k0 then some k0 else ft) = .ok (J.obj df0) := by
              unfold section_replacement
              simp only [htw, htd]
              rw [if_neg (fun hne => hne htdw.symm)]
            have hin := walkF (if isFeatureTypeKey k0 then some k0 else ft) .nil df0 wf0 hgv
              (fun _ _ => by simp [JFields.keys])
            rw [show (jappend JFields.nil df0) = df0 from rfl] at hin
            rw [show (jappend JFields.nil wf0) = wf0 from rfl] at hin
            simp only [bind, Except.bind, hrep, hin]
            rfl
          · rw [if_neg htdw] at hgv
            cases hcls : get_config_cls k0 tw (if isFeatureTypeKey k0 then some k0 else ft) <;>
              simp only [hcls] at hgv
            · exact Bool.noConfusion hgv
            next c =>
            cases c <;> try exact Bool.noConfusion hgv
            next cf =>
            have hrep : section_replacement k0 (J.obj df0) wf0
                (if isFeatureTypeKey k0 then some k0 else ft) = .ok (J.obj cf) := by
              unfold section_replacement
              simp only [htw, htd]
              rw [if_pos (fun he => htdw he.symm)]
              exact hcls
            have hin := walkF (if isFeatureTypeKey k0 then some k0 else ft) .nil cf wf0 hgv
              (fun _ _ => by simp [JFields.keys])
            rw [show (jappend JFields.nil cf) = cf from rfl] at hin
            rw [show (jappend JFields.nil wf0) = wf0 from rfl] at hin
            simp only [bind, Except.bind, hrep, hin]
            rfl
        · unfold goodV at hgv
          rw [if_neg hsec] at hgv
          cases w with
          | obj wf0 =>
              cases d <;> try exact Bool.noConfusion hgv
              next df0 =>
              rw [set_attributes_step_nested_eq _ k0 wf0 _ (J.obj df0) hsec hget]
              have hgv2 : goodF (if isFeatureTypeKey k0 = true then some k0 else ft) df0 wf0 =
                  true := by
                simpa using hgv
              have hin := walkF (if isFeatureTypeKey k0 then some k0 else ft) .nil df0 wf0 hgv2
                (fun _ _ => by simp [JFields.keys])
              rw [show (jappend JFields.nil df0) = df0 from rfl] at hin
              rw [show (jappend JFields.nil wf0) = wf0 from rfl] at hin
              simp only [bind, Except.bind, hin]
              rfl
          | null => exact set_attributes_step_leaf_eq _ k0 _ _ hsec rfl
          | b x => exact set_attributes_step_leaf_eq _ k0 _ _ hsec rfl
          | i x => exact set_attributes_step_leaf_eq _ k0 _ _ hsec rfl
          | s x => exact set_attributes_step_leaf_eq _ k0 _ _ hsec rfl
          | arr x => exact set_attributes_step_leaf_eq _ k0 _ _ hsec rfl
          | digest x y => exact set_attributes_step_leaf_eq _ k0 _ _ hsec rfl
      rw [hstep]
      simp only [bind, Except.bind]
      rw [setAttr_jappend_skip pre _ k0 w hkpre]
      rw [show setAttr (JFields.cons k0 d rest) k0 w = JFields.cons k0 w rest from by
        rw [setAttr, if_pos rfl]]
      have htail := walkF ft (jappend pre (.cons k0 w .nil)) rest rest2 hgrest
        (fun k2 hk2 => by
          rw [keys_jappend]
          simp only [List.mem_append, JFields.keys, List.mem_singleton, not_or]
          exact ⟨hfresh k2 (by simp [JFields.keys, hk2]),
            fun he => hkr2 (he ▸ hk2)⟩)
      rw [jappend_snoc, jappend_snoc] at htail
      have hswap : set_attributes (J.obj (jappend pre (JFields.cons k0 w rest))) rest2
          (if isFeatureTypeKey k0 then some k0 else ft) =
          set_attributes (J.obj (jappend pre (JFields.cons k0 w rest))) rest2 ft := by
        by_cases hkF : isFeatureTypeKey k0 = true
        · rcases hmix with hm | hm
          · rw [hkF] at hm
            exact Bool.noConfusion hm
          · exact set_attributes_ft_irrel _ rest2 _ ft hm
        · rw [if_neg hkF]
      rw [hswap]
      exact htail
termination_by _ _ _ wf => sizeOf wf

theorem restoreF (ft : Option String) (df wf : JFields) (h : goodF ft df wf = true) :
    set_attributes (J.obj df) wf ft = .ok (J.obj wf) :=
  walkF ft .nil df wf h (fun _ _ => by simp [JFields.keys])

theorem goodExtF_keys : ∀ (cf : JFields) (k : String),
    goodExtF cf = true → k ∈ JFields.keys cf → k ∉ sectionKeys
  | .nil, k, _, hk => by simp [JFields.keys] at hk
  | .cons k0 w rest, k, hg, hk => by
      simp only [goodExtF, Bool.and_eq_true, Bool.not_eq_true',
        decide_eq_false_iff_not] at hg
      simp only [JFields.keys, List.mem_cons] at hk
      rcases hk with rfl | hk
      · exact hg.1.1.1
      · exact goodExtF_keys rest k hg.2 hk

theorem goodF_keys_inv : ∀ (ft : Option String) (df cf : JFields) (k : String),
    goodF ft df cf = true → k ∈ JFields.keys cf →
    k ∈ JFields.keys df ∨ k ∉ sectionKeys
  | ft, .nil, cf, k, hg, hk =>
      Or.inr (goodExtF_keys cf k (by simpa only [goodF] using hg) hk)
  | ft, .cons k0 d rest, .nil, k, hg, hk => by simp [goodF] at hg
  | ft, .cons k0 d rest, .cons k2 w rest2, k, hg, hk => by
      have hgC : (decide (k0 = k2) && !(decide (k0 ∈ JFields.keys rest)) &&
          !(decide (k0 ∈ JFields.keys rest2)) && (!(isFeatureTypeKey k0) || mixOKF rest2) &&
          goodV (ftAt k0 ft) k0 d w && goodF ft rest rest2) = true := hg
      simp only [Bool.and_eq_true, decide_eq_true_eq, Bool.not_eq_true', decide_eq_false_iff_not,
        Bool.or_eq_true] at hgC
      obtain ⟨⟨⟨⟨⟨hkk, -⟩, -⟩, -⟩, -⟩, hgrest⟩ := hgC
      subst hkk
      simp only [JFields.keys, List.mem_cons] at hk ⊢
      rcases hk with rfl | hk
      · exact Or.inl (Or.inl rfl)
      · rcases goodF_keys_inv ft rest rest2 k hgrest hk with hx | hx
        · exact Or.inl (Or.inr hx)
        · exact Or.inr hx

theorem walkFEnc : ∀ (ft : Option String) (pre df wf : JFields) (te : String) (Cf : JFields),
    goodF ft df wf = true →
    (∀ k2, k2 ∈ JFields.keys wf → k2 ∉ JFields.keys pre) →
    (∀ k2, k2 ∈ JFields.keys df → isFeatureTypeKey k2 = false) →
    "encoder" ∈ JFields.keys df →
    get_config_cls "encoder" (J.s te) ft = .ok (J.obj Cf) →
    ∃ X, set_attributes (J.obj (jappend pre df))
        (setAttr wf "encoder" (J.obj (.cons "type" (J.s te) .nil))) ft =
      .ok (J.obj (jappend pre (setAttr wf "encoder" X)))
  | ft, pre, .nil, wf, te, Cf, _, _, _, henc, _ => by simp [JFields.keys] at henc
  | ft, pre, .cons k0 d rest, .nil, te, Cf, hg, _, _, _, _ => by simp [goodF] at hg
  | ft, pre, .cons k0 d rest, .cons k2 w rest2, te, Cf, hg, hfresh, hnf, henc, hcls => by
      have hgC : (decide (k0 = k2) && !(decide (k0 ∈ JFields.keys rest)) &&
          !(decide (k0 ∈ JFields.keys rest2)) && (!(isFeatureTypeKey k0) || mixOKF rest2) &&
          goodV (ftAt k0 ft) k0 d w && goodF ft rest rest2) = true := hg
      simp only [Bool.and_eq_true, decide_eq_true_eq, Bool.not_eq_true', decide_eq_false_iff_not,
        Bool.or_eq_true] at hgC
      obtain ⟨⟨⟨⟨⟨hkk, hkr⟩, hkr2⟩, hmix⟩, hgv⟩, hgrest⟩ := hgC
      subst hkk
      have hk0nf : isFeatureTypeKey k0 = false := hnf k0 (by simp [JFields.keys])
      have hftif : (if isFeatureTypeKey k0 then some k0 else ft) = ft := by
        rw [hk0nf]
        rfl
      have hkpre : k0 ∉ pre.keys := hfresh k0 (by simp [JFields.keys])
      have hget : getAttr (jappend pre (.cons k0 d rest)) k0 = some d := by
        rw [getAttr_jappend_skip pre _ k0 hkpre, getAttr, if_pos rfl]
      simp only [ftAt] at hgv
      rw [hftif] at hgv
      by_cases hk0e : k0 = "encoder"
      · subst hk0e
        unfold goodV at hgv
        rw [if_pos (by decide : ("encoder" : String) ∈ sectionKeys)] at hgv
        cases d <;> try exact Bool.noConfusion hgv
        next df0 =>
        cases w <;> try exact Bool.noConfusion hgv
        next wf0 =>
        cases htd : getAttr df0 "type" <;> simp only [htd] at hgv <;>
          try exact Bool.noConfusion hgv
        case some td =>
        rw [setAttr, if_pos rfl]
        rw [set_attributes_cons]
        rw [hftif]
        have hEin : ∀ s2f : JFields, set_attributes (J.obj s2f)
            (JFields.cons "type" (J.s te) .nil) ft =
            .ok (J.obj (setAttr s2f "type" (J.s te))) := by
          intro s2f
          rw [set_attributes_cons, set_attributes_step_leaf_eq s2f "type" (J.s te) _
            (by decide) rfl]
          simp only [bind, Except.bind]
          rw [set_attributes_nil]
        by_cases htde : td = J.s te
        · have hrep : section_replacement "encoder" (J.obj df0)
              (JFields.cons "type" (J.s te) .nil) ft = .ok (J.obj df0) := by
            unfold section_replacement
            rw [show getAttr (JFields.cons "type" (J.s te) JFields.nil) "type" =
              some (J.s te) from rfl]
            simp only [htd]
            rw [if_neg (fun hne => hne htde)]
          refine ⟨J.obj (setAttr df0 "type" (J.s te)), ?_⟩
          rw [set_attributes_step_sect_eq _ "encoder" _ ft (J.obj df0) (by decide) hget]
          simp only [bind, Except.bind, hrep, hEin df0]
          rw [setAttr_jappend_skip pre _ "encoder" _ hkpre]
          rw [show setAttr (JFields.cons "encoder" (J.obj df0) rest) "encoder"
              (J.obj (setAttr df0 "type" (J.s te))) =
              JFields.cons "encoder" (J.obj (setAttr df0 "type" (J.s te))) rest from by
            rw [setAttr, if_pos rfl]]
          have htail := walkF ft
            (jappend pre (.cons "encoder" (J.obj (setAttr df0 "type" (J.s te))) .nil))
            rest rest2 hgrest
            (fun k2 hk2 => by
              rw [keys_jappend]
              simp only [List.mem_append, JFields.keys, List.mem_singleton, not_or]
              exact ⟨hfresh k2 (by simp [JFields.keys, hk2]), fun he => hkr2 (he ▸ hk2)⟩)
          rw [jappend_snoc, jappend_snoc] at htail
          rw [show setAttr (JFields.cons "encoder" (J.obj wf0) rest2) "encoder"
              (J.obj (setAttr df0 "type" (J.s te))) =
              JFields.cons "encoder" (J.obj (setAttr df0 "type" (J.s te))) rest2 from by
            rw [setAttr, if_pos rfl]]
          exact htail
        · have hrep : section_replacement "encoder" (J.obj df0)
              (JFields.cons "type" (J.s te) .nil) ft = .ok (J.obj Cf) := by
            unfold section_replacement
            rw [show getAttr (JFields.cons "type" (J.s te) JFields.nil) "type" =
              some (J.s te) from rfl]
            simp only [htd]
            rw [if_pos (fun he => htde he)]
            exact hcls
          refine ⟨J.obj (setAttr Cf "type" (J.s te)), ?_⟩
          rw [set_attributes_step_sect_eq _ "encoder" _ ft (J.obj df0) (by decide) hget]
          simp only [bind, Except.bind, hrep, hEin Cf]
          rw [setAttr_jappend_skip pre _ "encoder" _ hkpre]
          rw [show setAttr (JFields.cons "encoder" (J.obj df0) rest) "encoder"
              (J.obj (setAttr Cf "type" (J.s te))) =
              JFields.cons "encoder" (J.obj (setAttr Cf "type" (J.s te))) rest from by
            rw [setAttr, if_pos rfl]]
          have htail := walkF ft
            (jappend pre (.cons "encoder" (J.obj (setAttr Cf "type" (J.s te))) .nil))
            rest rest2 hgrest
            (fun k2 hk2 => by
              rw [keys_jappend]
              simp only [List.mem_append, JFields.keys, List.mem_singleton, not_or]
              exact ⟨hfresh k2 (by simp [JFields.keys, hk2]), fun he => hkr2 (he ▸ hk2)⟩)
          rw [jappend_snoc, jappend_snoc] at htail
          rw [show setAttr (JFields.cons "encoder" (J.obj wf0) rest2) "encoder"
              (J.obj (setAttr Cf "type" (J.s te))) =
              JFields.cons "encoder" (J.obj (setAttr Cf "type" (J.s te))) rest2 from by
            rw [setAttr, if_pos rfl]]
          exact htail
      · have hencr : "encoder" ∈ JFields.keys rest := by
          simp only [JFields.keys, List.mem_cons] at henc
          rcases henc with he | he
          · exact absurd he.symm hk0e
          · exact he
        rw [show setAttr (JFields.cons k0 w rest2) "encoder"
            (J.obj (.cons "type" (J.s te) .nil)) =
            JFields.cons k0 w (setAttr rest2 "encoder" (J.obj (.cons "type" (J.s te) .nil)))
            from by rw [setAttr, if_neg hk0e]]
        rw [set_attributes_cons]
        rw [hftif]
        have hstep : set_attributes_step (J.obj (jappend pre (.cons k0 d rest))) k0 w ft =
            .ok (J.obj (setAttr (jappend pre (.cons k0 d rest)) k0 w)) := by
          by_cases hsec : k0 ∈ sectionKeys
          · unfold goodV at hgv
            rw [if_pos hsec] at hgv
            cases d <;> try exact Bool.noConfusion hgv
            next df0 =>
            cases w <;> try exact Bool.noConfusion hgv
            next wf0 =>
            cases htd : getAttr df0 "type" <;> simp only [htd] at hgv <;>
              try exact Bool.noConfusion hgv
            case some td =>
            cases htw : getAttr wf0 "type" <;> simp only [htw] at hgv <;>
              try exact Bool.noConfusion hgv
            case some tw =>
            rw [set_attributes_step_sect_eq _ k0 wf0 _ (J.obj df0) hsec hget]
            by_cases htdw : tw = td
            · rw [if_pos htdw] at hgv
              have hrep : section_replacement k0 (J.obj df0) wf0 ft = .ok (J.obj df0) := by
                unfold section_replacement
                simp only [htw, htd]
                rw [if_neg (fun hne => hne htdw.symm)]
              have hin := walkF ft .nil df0 wf0 hgv (fun _ _ => by simp [JFields.keys])
              rw [show (jappend JFields.nil df0) = df0 from rfl] at hin
              rw [show (jappend JFields.nil wf0) = wf0 from rfl] at hin
              simp only [bind, Except.bind, hrep, hin]
              rfl
            · rw [if_neg htdw] at hgv
              cases hcls2 : get_config_cls k0 tw ft <;> simp only [hcls2] at hgv
              · exact Bool.noConfusion hgv
              next c =>
              cases c <;> try exact Bool.noConfusion hgv
              next cf =>
              have hrep : section_replacement k0 (J.obj df0) wf0 ft = .ok (J.obj cf) := by
                unfold section_replacement
                simp only [htw, htd]
                rw [if_pos (fun he => htdw he.symm)]
                exact hcls2
              have hin := walkF ft .nil cf wf0 hgv (fun _ _ => by simp [JFields.keys])
              rw [show (jappend JFields.nil cf) = cf from rfl] at hin
              rw [show (jappend JFields.nil wf0) = wf0 from rfl] at hin
              simp only [bind, Except.bind, hrep, hin]
              rfl
          · unfold goodV at hgv
            rw [if_neg hsec] at hgv
            cases w with
            | obj wf0 =>
                cases d <;> try exact Bool.noConfusion hgv
                next df0 =>
                rw [set_attributes_step_nested_eq _ k0 wf0 _ (J.obj df0) hsec hget]
                have hgv2 : goodF ft df0 wf0 = true := by simpa using hgv
                have hin := walkF ft .nil df0 wf0 hgv2 (fun _ _ => by simp [JFields.keys])
                rw [show (jappend JFields.nil df0) = df0 from rfl] at hin
                rw [show (jappend JFields.nil wf0) = wf0 from rfl] at hin
                simp only [bind, Except.bind, hin]
                rfl
            | null => exact set_attributes_step_leaf_eq _ k0 _ _ hsec rfl
            | b x => exact set_attributes_step_leaf_eq _ k0 _ _ hsec rfl
            | i x => exact set_attributes_step_leaf_eq _ k0 _ _ hsec rfl
            | s x => exact set_attributes_step_leaf_eq _ k0 _ _ hsec rfl
            | arr x => exact set_attributes_step_leaf_eq _ k0 _ _ hsec rfl
            | digest x y => exact set_attributes_step_leaf_eq _ k0 _ _ hsec rfl
        rw [hstep]
        simp only [bind, Except.bind]
        rw [setAttr_jappend_skip pre _ k0 w hkpre]
        rw [show setAttr (JFields.cons k0 d rest) k0 w = JFields.cons k0 w rest from by
          rw [setAttr, if_pos rfl]]
        obtain ⟨X, hX⟩ := walkFEnc ft (jappend pre (.cons k0 w .nil)) rest rest2 te Cf hgrest
          (fun k2 hk2 => by
            rw [keys_jappend]
            simp only [List.mem_append, JFields.keys, List.mem_singleton, not_or]
            exact ⟨hfresh k2 (by simp [JFields.keys, hk2]), fun he => hkr2 (he ▸ hk2)⟩)
          (fun k2 hk2 => hnf k2 (by simp [JFields.keys, hk2])) hencr hcls
        rw [jappend_snoc, jappend_snoc] at hX
        refine ⟨X, ?_⟩
        rw [show setAttr (JFields.cons k0 w rest2) "encoder" X =
            JFields.cons k0 w (setAttr rest2 "encoder" X) from by
          rw [setAttr, if_neg hk0e]]
        exact hX
termination_by _ _ _ wf _ _ => sizeOf wf

theorem goodExtF_mixOK : ∀ wf : JFields, goodExtF wf = true → mixOKF wf = true
  | .nil, _ => rfl
  | .cons k w rest, h => by
      simp only [goodExtF, Bool.and_eq_true] at h
      simp only [mixOKF, Bool.and_eq_true, Bool.or_eq_true]
      exact ⟨Or.inr h.1.1.2, goodExtF_mixOK rest h.2⟩

theorem goodF_keys_mem : ∀ (ft : Option String) (df cf : JFields) (k : String),
    goodF ft df cf = true → k ∈ JFields.keys df → k ∈ JFields.keys cf
  | ft, .nil, cf, k, _, hk => by simp [JFields.keys] at hk
  | ft, .cons k0 d rest, .nil, k, hg, _ => by simp [goodF] at hg
  | ft, .cons k0 d rest, .cons k2 w rest2, k, hg, hk => by
      have hgC : (decide (k0 = k2) && !(decide (k0 ∈ JFields.keys rest)) &&
          !(decide (k0 ∈ JFields.keys rest2)) && (!(isFeatureTypeKey k0) || mixOKF rest2) &&
          goodV (ftAt k0 ft) k0 d w && goodF ft rest rest2) = true := hg
      simp only [Bool.and_eq_true, decide_eq_true_eq] at hgC
      simp only [JFields.keys, List.mem_cons] at hk ⊢
      rcases hk with hk | hk
      · exact Or.inl (hk.trans hgC.1.1.1.1.1)
      · exact Or.inr (goodF_keys_mem ft rest rest2 k hgC.2 hk)

theorem mixOK_setAttr : ∀ (c : JFields) (k : String) (v : J), mixOKF c = true →
    (isFeatureTypeKey k = true ∨ isLeafJ v = true) → mixOKF (setAttr c k v) = true
  | .nil, k, v, _, hv => by
      simp only [setAttr, mixOKF, Bool.and_eq_true, Bool.or_eq_true]
      exact ⟨hv, trivial⟩
  | .cons k0 v0 rest, k, v, h, hv => by
      simp only [mixOKF, Bool.and_eq_true, Bool.or_eq_true] at h
      by_cases hk : k0 = k
      · rw [setAttr, if_pos hk]
        simp only [mixOKF, Bool.and_eq_true, Bool.or_eq_true]
        exact ⟨hk ▸ hv, h.2⟩
      · rw [setAttr, if_neg hk]
        simp only [mixOKF, Bool.and_eq_true, Bool.or_eq_true]
        exact ⟨h.1, mixOK_setAttr rest k v h.2 hv⟩

theorem goodExtF_setAttr_leaf : ∀ (c : JFields) (k : String) (v : J), goodExtF c = true →
    k ∉ sectionKeys → isLeafJ v = true → goodExtF (setAttr c k v) = true
  | .nil, k, v, _, hsec, hleaf => by
      simp only [setAttr, goodExtF, Bool.and_eq_true, Bool.not_eq_true', decide_eq_false_iff_not]
      exact ⟨⟨⟨hsec, hleaf⟩, by simp [JFields.keys]⟩, trivial⟩
  | .cons k0 w0 rest, k, v, h, hsec, hleaf => by
      simp only [goodExtF, Bool.and_eq_true, Bool.not_eq_true', decide_eq_false_iff_not] at h
      by_cases hk : k0 = k
      · rw [setAttr, if_pos hk]
        simp only [goodExtF, Bool.and_eq_true, Bool.not_eq_true', decide_eq_false_iff_not]
        exact ⟨⟨⟨hk ▸ hsec, hleaf⟩, h.1.2⟩, h.2⟩
      · rw [setAttr, if_neg hk]
        simp only [goodExtF, Bool.and_eq_true, Bool.not_eq_true', decide_eq_false_iff_not]
        refine ⟨⟨⟨h.1.1.1, h.1.1.2⟩, ?_⟩, goodExtF_setAttr_leaf rest k v h.2 hsec hleaf⟩
        by_cases hmem : k ∈ JFields.keys rest
        · rw [keys_setAttr_mem rest k v hmem]
          exact h.1.2
        · rw [setAttr_not_mem rest k v hmem, keys_jappend]
          simp only [List.mem_append, JFields.keys, List.mem_singleton, not_or]
          exact ⟨h.1.2, hk⟩

theorem getAttr_some_mem : ∀ (c : JFields) (k : String) (v : J), getAttr c k = some v →
    k ∈ JFields.keys c
  | .nil, k, v, h => by rw [getAttr] at h; exact Option.noConfusion h
  | .cons k0 v0 rest, k, v, h => by
      rw [getAttr] at h
      simp only [JFields.keys, List.mem_cons]
      by_cases hk : k0 = k
      · exact Or.inl hk.symm
      · rw [if_neg hk] at h
        exact Or.inr (getAttr_some_mem rest k v h)

theorem goodV_leaf (ft : Option String) (k : String) (d v : J)
    (hsec : k ∉ sectionKeys) (hleaf : isLeafJ v = true) : goodV ft k d v = true := by
  unfold goodV
  rw [if_neg hsec]
  cases v <;> first | rfl | exact Bool.noConfusion hleaf

theorem goodF_set_leaf : ∀ (ft : Option String) (df cf : JFields) (k : String) (v : J),
    goodF ft df cf = true → k ∉ sectionKeys → isLeafJ v = true →
    goodF ft df (setAttr cf k v) = true
  | ft, .nil, cf, k, v, hg, hsec, hleaf => by
      have h2 : goodExtF (setAttr cf k v) = true :=
        goodExtF_setAttr_leaf cf k v (by simpa only [goodF] using hg) hsec hleaf
      simpa only [goodF] using h2
  | ft, .cons k0 d rest, .nil, k, v, hg, _, _ => by simp [goodF] at hg
  | ft, .cons k0 d rest, .cons k2 w rest2, k, v, hg, hsec, hleaf => by
      have hgC : (decide (k0 = k2) && !(decide (k0 ∈ JFields.keys rest)) &&
          !(decide (k0 ∈ JFields.keys rest2)) && (!(isFeatureTypeKey k0) || mixOKF rest2) &&
          goodV (ftAt k0 ft) k0 d w && goodF ft rest rest2) = true := hg
      simp only [Bool.and_eq_true, decide_eq_true_eq, Bool.not_eq_true', decide_eq_false_iff_not,
        Bool.or_eq_true] at hgC
      obtain ⟨⟨⟨⟨⟨hkk, hkr⟩, hkr2⟩, hmix⟩, hgv⟩, hgrest⟩ := hgC
      subst hkk
      by_cases hk : k0 = k
      · rw [setAttr, if_pos hk]
        show (decide (k0 = k0) && !(decide (k0 ∈ JFields.keys rest)) &&
          !(decide (k0 ∈ JFields.keys rest2)) && (!(isFeatureTypeKey k0) || mixOKF rest2) &&
          goodV (ftAt k0 ft) k0 d v && goodF ft rest rest2) = true
        simp only [Bool.and_eq_true, decide_eq_true_eq, Bool.not_eq_true',
          decide_eq_false_iff_not, Bool.or_eq_true]
        exact ⟨⟨⟨⟨⟨trivial, hkr⟩, hkr2⟩, hmix⟩, goodV_leaf _ k0 d v (hk ▸ hsec) hleaf⟩, hgrest⟩
      · rw [setAttr, if_neg hk]
        show (decide (k0 = k0) && !(decide (k0 ∈ JFields.keys rest)) &&
          !(decide (k0 ∈ JFields.keys (setAttr rest2 k v))) &&
          (!(isFeatureTypeKey k0) || mixOKF (setAttr rest2 k v)) &&
          goodV (ftAt k0 ft) k0 d w && goodF ft rest (setAttr rest2 k v)) = true
        simp only [Bool.and_eq_true, decide_eq_true_eq, Bool.not_eq_true',
          decide_eq_false_iff_not, Bool.or_eq_true]
        refine ⟨⟨⟨⟨⟨trivial, hkr⟩, ?_⟩, ?_⟩, hgv⟩,
          goodF_set_leaf ft rest rest2 k v hgrest hsec hleaf⟩
        · by_cases hmem : k ∈ JFields.keys rest2
          · rw [keys_setAttr_mem rest2 k v hmem]
            exact hkr2
          · rw [setAttr_not_mem rest2 k v hmem, keys_jappend]
            simp only [List.mem_append, JFields.keys, List.mem_singleton, not_or]
            exact ⟨hkr2, hk⟩
        · rcases hmix with hm | hm
          · exact Or.inl hm
          · exact Or.inr (mixOK_setAttr rest2 k v hm (Or.inr hleaf))

theorem goodF_update_at : ∀ (ft : Option String) (df cf : JFields) (k : String) (d w2 : J),
    goodF ft df cf = true → getAttr df k = some d →
    goodV (ftAt k ft) k d w2 = true →
    (isFeatureTypeKey k = true ∨ isLeafJ w2 = true ∨
      (∀ k0, k0 ∈ JFields.keys df → isFeatureTypeKey k0 = false)) →
    goodF ft df (setAttr cf k w2) = true
  | ft, .nil, cf, k, d, w2, _, hgetd, _, _ => by
      rw [getAttr] at hgetd
      exact Option.noConfusion hgetd
  | ft, .cons k0 d0 rest, .nil, k, d, w2, hg, _, _, _ => by simp [goodF] at hg
  | ft, .cons k0 d0 rest, .cons k2 w rest2, k, d, w2, hg, hgetd, hgv2, hmix2 => by
      have hgC : (decide (k0 = k2) && !(decide (k0 ∈ JFields.keys rest)) &&
          !(decide (k0 ∈ JFields.keys rest2)) && (!(isFeatureTypeKey k0) || mixOKF rest2) &&
          goodV (ftAt k0 ft) k0 d0 w && goodF ft rest rest2) = true := hg
      simp only [Bool.and_eq_true, decide_eq_true_eq, Bool.not_eq_true', decide_eq_false_iff_not,
        Bool.or_eq_true] at hgC
      obtain ⟨⟨⟨⟨⟨hkk, hkr⟩, hkr2⟩, hmix⟩, hgv⟩, hgrest⟩ := hgC
      subst hkk
      rw [getAttr] at hgetd
      by_cases hk : k0 = k
      · rw [if_pos hk] at hgetd
        simp only [Option.some.injEq] at hgetd
        rw [setAttr, if_pos hk]
        show (decide (k0 = k0) && !(decide (k0 ∈ JFields.keys rest)) &&
          !(decide (k0 ∈ JFields.keys rest2)) && (!(isFeatureTypeKey k0) || mixOKF rest2) &&
          goodV (ftAt k0 ft) k0 d0 w2 && goodF ft rest rest2) = true
        simp only [Bool.and_eq_true, decide_eq_true_eq, Bool.not_eq_true',
          decide_eq_false_iff_not, Bool.or_eq_true]
        refine ⟨⟨⟨⟨⟨trivial, hkr⟩, hkr2⟩, hmix⟩, ?_⟩, hgrest⟩
        rw [hk, hgetd]
        exact hgv2
      · rw [if_neg hk] at hgetd
        rw [setAttr, if_neg hk]
        have hkmem2 : k ∈ JFields.keys rest2 :=
          goodF_keys_mem ft rest rest2 k hgrest (getAttr_some_mem rest k d hgetd)
        show (decide (k0 = k0) && !(decide (k0 ∈ JFields.keys rest)) &&
          !(decide (k0 ∈ JFields.keys (setAttr rest2 k w2))) &&
          (!(isFeatureTypeKey k0) || mixOKF (setAttr rest2 k w2)) &&
          goodV (ftAt k0 ft) k0 d0 w && goodF ft rest (setAttr rest2 k w2)) = true
        simp only [Bool.and_eq_true, decide_eq_true_eq, Bool.not_eq_true',
          decide_eq_false_iff_not, Bool.or_eq_true]
        have hmix2b : isFeatureTypeKey k = true ∨ isLeafJ w2 = true ∨
            (∀ k1, k1 ∈ JFields.keys rest → isFeatureTypeKey k1 = false) := by
          rcases hmix2 with h | h | h
          · exact Or.inl h
          · exact Or.inr (Or.inl h)
          · exact Or.inr (Or.inr (fun k1 hk1 => h k1 (by simp [JFields.keys, hk1])))
        refine ⟨⟨⟨⟨⟨trivial, hkr⟩, ?_⟩, ?_⟩, hgv⟩,
          goodF_update_at ft rest rest2 k d w2 hgrest hgetd hgv2 hmix2b⟩
        · rw [keys_setAttr_mem rest2 k w2 hkmem2]
          exact hkr2
        · by_cases hfk0 : isFeatureTypeKey k0 = true
          · have hm : mixOKF rest2 = true := by
              rcases hmix with hm | hm
              · rw [hfk0] at hm
                exact Bool.noConfusion hm
              · exact hm
            have hkw : isFeatureTypeKey k = true ∨ isLeafJ w2 = true := by
              rcases hmix2 with h | h | h
              · exact Or.inl h
              · exact Or.inr h
              · have hcontra := h k0 (by simp [JFields.keys])
                rw [hfk0] at hcontra
                exact Bool.noConfusion hcontra
            exact Or.inr (mixOK_setAttr rest2 k w2 hm hkw)
          · exact Or.inl (by simpa using hfk0)

theorem goodExtF_lookup : ∀ (cf : JFields) (k : String) (sub : J),
    goodExtF cf = true → getAttr cf k = some sub →
    k ∉ sectionKeys ∧ isLeafJ sub = true
  | .nil, k, sub, _, hc => by rw [getAttr] at hc; exact Option.noConfusion hc
  | .cons k0 w0 rest, k, sub, hg, hc => by
      simp only [goodExtF, Bool.and_eq_true, Bool.not_eq_true', decide_eq_false_iff_not] at hg
      rw [getAttr] at hc
      by_cases hk : k0 = k
      · rw [if_pos hk] at hc
        simp only [Option.some.injEq] at hc
        exact ⟨hk ▸ hg.1.1.1, hc ▸ hg.1.1.2⟩
      · rw [if_neg hk] at hc
        exact goodExtF_lookup rest k sub hg.2 hc

theorem goodF_lookup : ∀ (ft : Option String) (df cf : JFields) (k : String) (sub : J),
    goodF ft df cf = true → getAttr cf k = some sub →
    (∃ d, getAttr df k = some d ∧ goodV (ftAt k ft) k d sub = true) ∨
    (getAttr df k = none ∧ k ∉ sectionKeys ∧ isLeafJ sub = true)
  | ft, .nil, cf, k, sub, hg, hc => by
      obtain ⟨h1, h2⟩ := goodExtF_lookup cf k sub (by simpa only [goodF] using hg) hc
      exact Or.inr ⟨rfl, h1, h2⟩
  | ft, .cons k0 d0 rest, .nil, k, sub, hg, _ => by simp [goodF] at hg
  | ft, .cons k0 d0 rest, .cons k2 w rest2, k, sub, hg, hc => by
      have hgC : (decide (k0 = k2) && !(decide (k0 ∈ JFields.keys rest)) &&
          !(decide (k0 ∈ JFields.keys rest2)) && (!(isFeatureTypeKey k0) || mixOKF rest2) &&
          goodV (ftAt k0 ft) k0 d0 w && goodF ft rest rest2) = true := hg
      simp only [Bool.and_eq_true, decide_eq_true_eq, Bool.not_eq_true', decide_eq_false_iff_not,
        Bool.or_eq_true] at hgC
      obtain ⟨⟨⟨⟨⟨hkk, hkr⟩, hkr2⟩, hmix⟩, hgv⟩, hgrest⟩ := hgC
      subst hkk
      rw [getAttr] at hc
      by_cases hk : k0 = k
      · rw [if_pos hk] at hc
        simp only [Option.some.injEq] at hc
        subst hk
        subst hc
        exact Or.inl ⟨d0, by rw [getAttr, if_pos rfl], hgv⟩
      · rw [if_neg hk] at hc
        have := goodF_lookup ft rest rest2 k sub hgrest hc
        rcases this with ⟨d, hd, hgv2⟩ | ⟨hd, h1, h2⟩
        · exact Or.inl ⟨d, by rw [getAttr, if_neg hk]; exact hd, hgv2⟩
        · exact Or.inr ⟨by rw [getAttr, if_neg hk]; exact hd, h1, h2⟩

theorem pyDictOKF_nodup : ∀ u : JFields, pyDictOKF u = true → u.keys.Nodup
  | .nil, _ => List.nodup_nil
  | .cons k v rest, h => by
      have hC : (!(isFeatureTypeKey k) && !(decide (k ∈ JFields.keys rest)) &&
          (!(decide (k = "type")) || isLeafJ v) && pyDictOKJ v && pyDictOKF rest) = true := h
      simp only [Bool.and_eq_true, Bool.not_eq_true', decide_eq_false_iff_not,
        Bool.or_eq_true] at hC
      simp only [JFields.keys, List.nodup_cons]
      exact ⟨hC.1.1.1.2, pyDictOKF_nodup rest hC.2⟩

-- Deep absence of feature-type-named keys (holds for every schema default).
mutual
def noFTDeepJ : J → Bool
  | J.obj f => noFTDeepF f
  | _ => true

def noFTDeepF : JFields → Bool
  | .nil => true
  | .cons k v rest => !(isFeatureTypeKey k) && noFTDeepJ v && noFTDeepF rest
end

theorem noFTDeepF_keys : ∀ df : JFields, noFTDeepF df = true →
    ∀ k, k ∈ JFields.keys df → isFeatureTypeKey k = false
  | .nil, _, k, hk => by simp [JFields.keys] at hk
  | .cons k0 v rest, h, k, hk => by
      have hC : (!(isFeatureTypeKey k0) && noFTDeepJ v && noFTDeepF rest) = true := h
      simp only [Bool.and_eq_true, Bool.not_eq_true'] at hC
      simp only [JFields.keys, List.mem_cons] at hk
      rcases hk with hk | hk
      · exact hk ▸ hC.1.1
      · exact noFTDeepF_keys rest hC.2 k hk

theorem noFTDeepF_lookup : ∀ (df : JFields) (k : String) (subf : JFields),
    noFTDeepF df = true → getAttr df k = some (J.obj subf) → noFTDeepF subf = true
  | .nil, k, subf, _, hget => by rw [getAttr] at hget; exact Option.noConfusion hget
  | .cons k0 v rest, k, subf, h, hget => by
      have hC : (!(isFeatureTypeKey k0) && noFTDeepJ v && noFTDeepF rest) = true := h
      simp only [Bool.and_eq_true, Bool.not_eq_true'] at hC
      rw [getAttr] at hget
      by_cases hk : k0 = k
      · rw [if_pos hk] at hget
        simp only [Option.some.injEq] at hget
        have := hC.1.2
        rw [hget] at this
        simpa only [noFTDeepJ] using this
      · rw [if_neg hk] at hget
        exact noFTDeepF_lookup rest k subf hC.2 hget

theorem isLeafJ_ne_obj (v : J) (h : isLeafJ v = true) : ∀ vf, v ≠ J.obj vf := by
  intro vf he
  subst he
  exact Bool.noConfusion h

theorem pyDictOKF_type_leaf : ∀ (u : JFields) (tv : J), pyDictOKF u = true →
    getAttr u "type" = some tv → isLeafJ tv = true
  | .nil, tv, _, hget => by rw [getAttr] at hget; exact Option.noConfusion hget
  | .cons k v rest, tv, h, hget => by
      have hC : (!(isFeatureTypeKey k) && !(decide (k ∈ JFields.keys rest)) &&
          (!(decide (k = "type")) || isLeafJ v) && pyDictOKJ v && pyDictOKF rest) = true := h
      simp only [Bool.and_eq_true, Bool.not_eq_true', decide_eq_false_iff_not,
        Bool.or_eq_true] at hC
      rw [getAttr] at hget
      by_cases hk : k = "type"
      · rw [if_pos hk] at hget
        simp only [Option.some.injEq] at hget
        rcases hC.1.1.2 with hx | hx
        · exact absurd hk hx
        · exact hget ▸ hx
      · rw [if_neg hk] at hget
        exact pyDictOKF_type_leaf rest tv hC.2 hget

theorem set_attributes_step_nonobj (o : J) (k : String) (v : J) (ft : Option String)
    (h : isLeafJ o = true) : set_attributes_step o k v ft = .error (.attributeError k) := by
  cases o <;> first | exact Bool.noConfusion h | (unfold set_attributes_step; rfl)

theorem get_encoder_cls_good (ftv t : String) (c : J) (h : get_encoder_cls ftv t = some c) :
    ∃ cf, c = J.obj cf ∧ (∀ ft2, goodF ft2 cf cf = true) ∧ noFTDeepF cf = true := by
  unfold get_encoder_cls at h
  split at h <;> try exact Option.noConfusion h
  all_goals simp only [Option.some.injEq] at h
  all_goals subst h
  all_goals exact ⟨_, rfl, fun _ => rfl, rfl⟩

theorem get_decoder_cls_good (ftv t : String) (c : J) (h : get_decoder_cls ftv t = some c) :
    ∃ cf, c = J.obj cf ∧ (∀ ft2, goodF ft2 cf cf = true) ∧ noFTDeepF cf = true := by
  unfold get_decoder_cls at h
  split at h <;> try exact Option.noConfusion h
  all_goals simp only [Option.some.injEq] at h
  all_goals subst h
  all_goals exact ⟨_, rfl, fun _ => rfl, rfl⟩

theorem get_loss_cls_good (ftv t : String) (c : J) (h : get_loss_cls ftv t = some c) :
    ∃ cf, c = J.obj cf ∧ (∀ ft2, goodF ft2 cf cf = true) ∧ noFTDeepF cf = true := by
  unfold get_loss_cls at h
  split at h <;> try exact Option.noConfusion h
  all_goals simp only [Option.some.injEq] at h
  all_goals subst h
  all_goals exact ⟨_, rfl, fun _ => rfl, rfl⟩

theorem get_optimizer_cls_good (t : String) (c : J) (h : get_optimizer_cls t = some c) :
    ∃ cf, c = J.obj cf ∧ (∀ ft2, goodF ft2 cf cf = true) ∧ noFTDeepF cf = true := by
  unfold get_optimizer_cls at h
  split at h <;> try exact Option.noConfusion h
  all_goals simp only [Option.some.injEq] at h
  all_goals subst h
  all_goals exact ⟨_, rfl, fun _ => rfl, rfl⟩

theorem get_split_cls_good (t : String) (c : J) (h : get_split_cls t = some c) :
    ∃ cf, c = J.obj cf ∧ (∀ ft2, goodF ft2 cf cf = true) ∧ noFTDeepF cf = true := by
  unfold get_split_cls at h
  split at h <;> try exact Option.noConfusion h
  all_goals simp only [Option.some.injEq] at h
  all_goals subst h
  all_goals exact ⟨_, rfl, fun _ => rfl, rfl⟩

theorem get_config_cls_good (k : String) (tv : J) (ft : Option String) (c : J)
    (h : get_config_cls k tv ft = .ok c) :
    (∃ t, tv = J.s t) ∧
    ∃ cf, c = J.obj cf ∧ (∀ ft2, goodF ft2 cf cf = true) ∧ noFTDeepF cf = true := by
  unfold get_config_cls at h
  repeat' split at h
  all_goals try exact Except.noConfusion h
  all_goals simp only [Except.ok.injEq] at h
  all_goals subst h
  · exact ⟨⟨_, rfl⟩, get_encoder_cls_good _ _ _ (by assumption)⟩
  · exact ⟨⟨_, rfl⟩, get_decoder_cls_good _ _ _ (by assumption)⟩
  · exact ⟨⟨_, rfl⟩, get_loss_cls_good _ _ _ (by assumption)⟩
  · exact ⟨⟨_, rfl⟩, get_optimizer_cls_good _ _ (by assumption)⟩
  · exact ⟨⟨_, rfl⟩, get_split_cls_good _ _ (by assumption)⟩

theorem set_attributes_step_sect_leaf (f : JFields) (k : String) (v : J) (ft : Option String)
    (hsec : k ∈ sectionKeys) (hleaf : isLeafJ v = true) (o2 : J)
    (h : set_attributes_step (J.obj f) k v ft = .ok o2) : False := by
  cases v <;> try exact Bool.noConfusion hleaf
  all_goals unfold set_attributes_step at h
  all_goals rw [if_pos hsec] at h
  all_goals cases hga : getAttr f k <;> simp only [hga] at h <;> exact Except.noConfusion h

theorem buildF : ∀ (ft : Option String) (u : JFields) (df cf : JFields) (res : J),
    goodF ft df cf = true →
    noFTDeepF df = true →
    pyDictOKF u = true →
    (∀ k2, k2 ∈ JFields.keys u → getAttr cf k2 = getAttr df k2) →
    set_attributes (J.obj cf) u ft = .ok res →
    ∃ rf, res = J.obj rf ∧ goodF ft df rf = true
  | ft, .nil, df, cf, res, hg, _, _, _, h => by
      rw [set_attributes_nil] at h
      simp only [Except.ok.injEq] at h
      exact ⟨cf, h.symm, hg⟩
  | ft, .cons k uv urest, df, cf, res, hg, hdeep, hok, hunt, h => by
      have hokC : (!(isFeatureTypeKey k) && !(decide (k ∈ JFields.keys urest)) &&
          (!(decide (k = "type")) || isLeafJ uv) && pyDictOKJ uv && pyDictOKF urest) = true := hok
      simp only [Bool.and_eq_true, Bool.not_eq_true', decide_eq_false_iff_not,
        Bool.or_eq_true] at hokC
      obtain ⟨⟨⟨⟨hfk, hkur⟩, -⟩, hpyv⟩, hpyrest⟩ := hokC
      have hfkP : ¬ (isFeatureTypeKey k = true) := by
        rw [hfk]
        exact Bool.noConfusion
      rw [set_attributes_cons, if_neg hfkP] at h
      simp only [bind, Except.bind] at h
      cases hstep : set_attributes_step (J.obj cf) k uv ft <;> rw [hstep] at h
      · exact Except.noConfusion h
      case ok o2 =>
      cases uv
      case obj uvf =>
        have hpyf : pyDictOKF uvf = true := by simpa only [pyDictOKJ] using hpyv
        have hftAt : ftAt k ft = ft := by
          unfold ftAt
          rw [if_neg hfkP]
        by_cases hsec : k ∈ sectionKeys
        · cases hga : getAttr cf k
          · exfalso
            unfold set_attributes_step at hstep
            simp only [hga] at hstep
            exact Except.noConfusion hstep
          next sub =>
          have hdk : getAttr df k = some sub := by
            rw [← hunt k (by simp [JFields.keys]), hga]
          rcases goodF_lookup ft df cf k sub hg hga with ⟨d, hd, hgvdd⟩ | ⟨hd, -, -⟩
          swap
          · rw [hd] at hdk
            exact Option.noConfusion hdk
          have hdsub : sub = d := by
            rw [hdk] at hd
            simpa using hd
          subst hdsub
          rw [hftAt] at hgvdd
          unfold goodV at hgvdd
          rw [if_pos hsec] at hgvdd
          cases sub <;> try exact Bool.noConfusion hgvdd
          next subf =>
          cases hty : getAttr subf "type" <;> simp only [hty] at hgvdd
          · exact Bool.noConfusion hgvdd
          next td =>
          rw [if_pos trivial] at hgvdd
          rw [set_attributes_step_sect_eq cf k uvf ft (J.obj subf) hsec hga] at hstep
          simp only [bind, Except.bind] at hstep
          cases htvu : getAttr uvf "type"
          · have hrep : section_replacement k (J.obj subf) uvf ft = .ok (J.obj subf) := by
              unfold section_replacement
              simp only [htvu]
            simp only [hrep] at hstep
            cases hsub : set_attributes (J.obj subf) uvf ft <;> rw [hsub] at hstep
            · exact Except.noConfusion hstep
            next sub2 =>
            simp only [pure, Except.pure, Except.ok.injEq] at hstep
            subst hstep
            obtain ⟨sub2f, rfl, hgsub2⟩ := buildF ft uvf subf subf sub2 hgvdd
              (noFTDeepF_lookup df k subf hdeep hdk) hpyf (fun _ _ => rfl) hsub
            obtain ⟨rf0, hrf0, hpres⟩ := set_attributes_obj subf uvf ft (J.obj sub2f) hsub
            have hrf0e : sub2f = rf0 := by simpa using hrf0
            have hty2 : getAttr sub2f "type" = some td := by
              rw [hrf0e, hpres "type" (getAttr_none_not_mem uvf "type" htvu)]
              exact hty
            have hgv2 : goodV (ftAt k ft) k (J.obj subf) (J.obj sub2f) = true := by
              rw [hftAt]
              unfold goodV
              rw [if_pos hsec]
              simp only [hty, hty2]
              rw [if_pos trivial]
              exact hgsub2
            refine buildF ft urest df (setAttr cf k (J.obj sub2f)) res
              (goodF_update_at ft df cf k (J.obj subf) (J.obj sub2f) hg hdk hgv2
                (Or.inr (Or.inr (noFTDeepF_keys df hdeep))))
              hdeep hpyrest (fun k2 hk2 => ?_) h
            rw [getAttr_setAttr_ne cf k _ k2 (fun he => hkur (he ▸ hk2))]
            exact hunt k2 (by simp [JFields.keys, hk2])
          case some tv =>
            have htvleaf : isLeafJ tv = true := pyDictOKF_type_leaf uvf tv hpyf htvu
            by_cases hne : td = tv
            · have hrep : section_replacement k (J.obj subf) uvf ft = .ok (J.obj subf) := by
                unfold section_replacement
                simp only [htvu, hty]
                rw [if_neg (fun hx => hx hne)]
              simp only [hrep] at hstep
              cases hsub : set_attributes (J.obj subf) uvf ft <;> rw [hsub] at hstep
              · exact Except.noConfusion hstep
              next sub2 =>
              simp only [pure, Except.pure, Except.ok.injEq] at hstep
              subst hstep
              obtain ⟨sub2f, rfl, hgsub2⟩ := buildF ft uvf subf subf sub2 hgvdd
                (noFTDeepF_lookup df k subf hdeep hdk) hpyf (fun _ _ => rfl) hsub
              have hty2 : getAttr sub2f "type" = some tv := by
                have hlv := set_attributes_leaf_value subf uvf ft (J.obj sub2f) "type" tv hsub
                  (pyDictOKF_nodup uvf hpyf) htvu (isLeafJ_ne_obj tv htvleaf) (by decide)
                simpa [jGetAttr] using hlv
              have hgv2 : goodV (ftAt k ft) k (J.obj subf) (J.obj sub2f) = true := by
                rw [hftAt]
                unfold goodV
                rw [if_pos hsec]
                simp only [hty, hty2]
                rw [if_pos hne.symm]
                exact hgsub2
              refine buildF ft urest df (setAttr cf k (J.obj sub2f)) res
                (goodF_update_at ft df cf k (J.obj subf) (J.obj sub2f) hg hdk hgv2
                  (Or.inr (Or.inr (noFTDeepF_keys df hdeep))))
                hdeep hpyrest (fun k2 hk2 => ?_) h
              rw [getAttr_setAttr_ne cf k _ k2 (fun he => hkur (he ▸ hk2))]
              exact hunt k2 (by simp [JFields.keys, hk2])
            · cases hcls : get_config_cls k tv ft
              · exfalso
                have hrep : section_replacement k (J.obj subf) uvf ft = .error (by assumption) := by
                  unfold section_replacement
                  simp only [htvu, hty]
                  rw [if_pos hne]
                  exact hcls
                rw [hrep] at hstep
                exact Except.noConfusion hstep
              next C =>
              obtain ⟨-, cfC, hCe, hgoodC, hdeepC⟩ := get_config_cls_good k tv ft C hcls
              subst hCe
              have hrep : section_replacement k (J.obj subf) uvf ft = .ok (J.obj cfC) := by
                unfold section_replacement
                simp only [htvu, hty]
                rw [if_pos hne]
                exact hcls
              simp only [hrep] at hstep
              cases hsub : set_attributes (J.obj cfC) uvf ft <;> rw [hsub] at hstep
              · exact Except.noConfusion hstep
              next sub2 =>
              simp only [pure, Except.pure, Except.ok.injEq] at hstep
              subst hstep
              obtain ⟨sub2f, rfl, hgsub2⟩ := buildF ft uvf cfC cfC sub2 (hgoodC ft)
                hdeepC hpyf (fun _ _ => rfl) hsub
              have hty2 : getAttr sub2f "type" = some tv := by
                have hlv := set_attributes_leaf_value cfC uvf ft (J.obj sub2f) "type" tv hsub
                  (pyDictOKF_nodup uvf hpyf) htvu (isLeafJ_ne_obj tv htvleaf) (by decide)
                simpa [jGetAttr] using hlv
              have hgv2 : goodV (ftAt k ft) k (J.obj subf) (J.obj sub2f) = true := by
                rw [hftAt]
                unfold goodV
                rw [if_pos hsec]
                simp only [hty, hty2]
                rw [if_neg (fun he => hne he.symm)]
                simp only [hcls]
                exact hgsub2
              refine buildF ft urest df (setAttr cf k (J.obj sub2f)) res
                (goodF_update_at ft df cf k (J.obj subf) (J.obj sub2f) hg hdk hgv2
                  (Or.inr (Or.inr (noFTDeepF_keys df hdeep))))
                hdeep hpyrest (fun k2 hk2 => ?_) h
              rw [getAttr_setAttr_ne cf k _ k2 (fun he => hkur (he ▸ hk2))]
              exact hunt k2 (by simp [JFields.keys, hk2])
        · cases hga : getAttr cf k
          · exfalso
            unfold set_attributes_step at hstep
            simp only [hga] at hstep
            exact Except.noConfusion hstep
          next sub =>
          have hdk : getAttr df k = some sub := by
            rw [← hunt k (by simp [JFields.keys]), hga]
          rcases goodF_lookup ft df cf k sub hg hga with ⟨d, hd, hgvdd⟩ | ⟨hd, -, -⟩
          swap
          · rw [hd] at hdk
            exact Option.noConfusion hdk
          have hdsub : sub = d := by
            rw [hdk] at hd
            simpa using hd
          subst hdsub
          rw [hftAt] at hgvdd
          rw [set_attributes_step_nested_eq cf k uvf ft sub hsec hga] at hstep
          simp only [bind, Except.bind] at hstep
          cases hsub : set_attributes sub uvf ft <;> rw [hsub] at hstep
          · exact Except.noConfusion hstep
          case ok sub2 =>
          simp only [pure, Except.pure, Except.ok.injEq] at hstep
          subst hstep
          cases sub
          case obj subf =>
            have hgself : goodF ft subf subf = true := by
              unfold goodV at hgvdd
              rw [if_neg hsec] at hgvdd
              simpa using hgvdd
            obtain ⟨sub2f, rfl, hgsub2⟩ := buildF ft uvf subf subf sub2 hgself
              (noFTDeepF_lookup df k subf hdeep hdk) hpyf (fun _ _ => rfl) hsub
            have hgv2 : goodV (ftAt k ft) k (J.obj subf) (J.obj sub2f) = true := by
              rw [hftAt]
              unfold goodV
              rw [if_neg hsec]
              simpa using hgsub2
            refine buildF ft urest df (setAttr cf k (J.obj sub2f)) res
              (goodF_update_at ft df cf k (J.obj subf) (J.obj sub2f) hg hdk hgv2
                (Or.inr (Or.inr (noFTDeepF_keys df hdeep))))
              hdeep hpyrest (fun k2 hk2 => ?_) h
            rw [getAttr_setAttr_ne cf k _ k2 (fun he => hkur (he ▸ hk2))]
            exact hunt k2 (by simp [JFields.keys, hk2])
          all_goals cases uvf with
            | nil =>
                rw [set_attributes_nil] at hsub
                simp only [Except.ok.injEq] at hsub
                subst hsub
                rw [setAttr_self cf k _ hga] at h
                exact buildF ft urest df cf res hg hdeep hpyrest
                  (fun k2 hk2 => hunt k2 (by simp [JFields.keys, hk2])) h
            | cons k3 v3 r3 =>
                exfalso
                rw [set_attributes_cons] at hsub
                rw [set_attributes_step_nonobj _ k3 v3 _ (by rfl)] at hsub
                simp only [bind, Except.bind] at hsub
                exact Except.noConfusion hsub
      all_goals (
        by_cases hsec : k ∈ sectionKeys
        · exact absurd hstep (fun hx => set_attributes_step_sect_leaf cf k _ ft hsec (by rfl) o2 hx)
        · have ho2 := set_attributes_step_leaf cf k _ ft o2 hstep hsec
            (fun vf he => J.noConfusion he)
          subst ho2
          exact buildF ft urest df (setAttr cf k _) res
            (goodF_set_leaf ft df cf k _ hg hsec (by rfl)) hdeep hpyrest
            (fun k2 hk2 => by
              rw [getAttr_setAttr_ne cf k _ k2 (fun he => hkur (he ▸ hk2))]
              exact hunt k2 (by simp [JFields.keys, hk2])) h)
termination_by _ u _ _ _ => sizeOf u

theorem selfGoodExt : ∀ (ft : Option String) (cf : JFields), goodExtF cf = true →
    goodF ft cf cf = true
  | ft, .nil, _ => by simp [goodF, goodExtF]
  | ft, .cons k w rest, h => by
      simp only [goodExtF, Bool.and_eq_true, Bool.not_eq_true', decide_eq_false_iff_not] at h
      obtain ⟨⟨⟨hsec, hleaf⟩, hkr⟩, hrest⟩ := h
      show (decide (k = k) && !(decide (k ∈ JFields.keys rest)) &&
        !(decide (k ∈ JFields.keys rest)) && (!(isFeatureTypeKey k) || mixOKF rest) &&
        goodV (ftAt k ft) k w w && goodF ft rest rest) = true
      simp only [Bool.and_eq_true, decide_eq_true_eq, Bool.not_eq_true',
        decide_eq_false_iff_not, Bool.or_eq_true]
      exact ⟨⟨⟨⟨⟨trivial, hkr⟩, hkr⟩, Or.inr (goodExtF_mixOK rest hrest)⟩,
        goodV_leaf _ k w w hsec hleaf⟩, selfGoodExt ft rest hrest⟩

theorem selfGoodF : ∀ (ft : Option String) (df cf : JFields), goodF ft df cf = true →
    goodF ft cf cf = true
  | ft, .nil, cf, h => selfGoodExt ft cf (by simpa only [goodF] using h)
  | ft, .cons k0 d rest, .nil, h => by simp [goodF] at h
  | ft, .cons k0 d rest, .cons k2 w rest2, h => by
      have hgC : (decide (k0 = k2) && !(decide (k0 ∈ JFields.keys rest)) &&
          !(decide (k0 ∈ JFields.keys rest2)) && (!(isFeatureTypeKey k0) || mixOKF rest2) &&
          goodV (ftAt k0 ft) k0 d w && goodF ft rest rest2) = true := h
      simp only [Bool.and_eq_true, decide_eq_true_eq, Bool.not_eq_true', decide_eq_false_iff_not,
        Bool.or_eq_true] at hgC
      obtain ⟨⟨⟨⟨⟨hkk, hkr⟩, hkr2⟩, hmix⟩, hgv⟩, hgrest⟩ := hgC
      subst hkk
      show (decide (k0 = k0) && !(decide (k0 ∈ JFields.keys rest2)) &&
        !(decide (k0 ∈ JFields.keys rest2)) && (!(isFeatureTypeKey k0) || mixOKF rest2) &&
        goodV (ftAt k0 ft) k0 w w && goodF ft rest2 rest2) = true
      simp only [Bool.and_eq_true, decide_eq_true_eq, Bool.not_eq_true',
        decide_eq_false_iff_not, Bool.or_eq_true]
      refine ⟨⟨⟨⟨⟨trivial, hkr2⟩, hkr2⟩, hmix⟩, ?_⟩, selfGoodF ft rest rest2 hgrest⟩
      by_cases hsec : k0 ∈ sectionKeys
      · unfold goodV at hgv ⊢
        rw [if_pos hsec] at hgv ⊢
        cases d <;> try exact Bool.noConfusion hgv
        next df0 =>
        cases w <;> try exact Bool.noConfusion hgv
        next wf0 =>
        cases htd : getAttr df0 "type" <;> simp only [htd] at hgv
        · exact Bool.noConfusion hgv
        next td =>
        cases htw : getAttr wf0 "type" <;> simp only [htw] at hgv ⊢
        · exact Bool.noConfusion hgv
        next tw =>
        rw [if_pos trivial]
        by_cases htdw : tw = td
        · rw [if_pos htdw] at hgv
          exact selfGoodF _ df0 wf0 hgv
        · rw [if_neg htdw] at hgv
          cases hcls : get_config_cls k0 tw (ftAt k0 ft) <;> simp only [hcls] at hgv
          · exact Bool.noConfusion hgv
          next c =>
          cases c <;> try exact Bool.noConfusion hgv
          next cf0 =>
          exact selfGoodF _ cf0 wf0 hgv
      · unfold goodV at hgv ⊢
        rw [if_neg hsec] at hgv ⊢
        cases w <;> try rfl
        next wf0 =>
        cases d <;> try exact Bool.noConfusion hgv
        next df0 =>
        exact selfGoodF _ df0 wf0 hgv
termination_by _ _ cf => sizeOf cf



/-! ## Round-trip machinery: membership, cleanliness and depth utilities -/

theorem mem_keys_getAttr_isSome : ∀ (c : JFields) (k : String), k ∈ JFields.keys c →
    ∃ v, getAttr c k = some v
  | .nil, k, h => by simp [JFields.keys] at h
  | .cons k0 v0 rest, k, h => by
      rw [getAttr]
      by_cases hk : k0 = k
      · exact ⟨v0, if_pos hk⟩
      · rw [if_neg hk]
        refine mem_keys_getAttr_isSome rest k ?_
        simp only [JFields.keys, List.mem_cons] at h
        rcases h with h | h
        · exact absurd h.symm hk
        · exact h

theorem mem_keys_setAttr : ∀ (c : JFields) (k : String) (v : J) (k2 : String),
    k2 ∈ JFields.keys c → k2 ∈ JFields.keys (setAttr c k v)
  | .nil, k, v, k2, h => by simp [JFields.keys] at h
  | .cons k0 v0 rest, k, v, k2, h => by
      rw [setAttr]
      by_cases hk : k0 = k
      · rw [if_pos hk]
        simp only [JFields.keys, List.mem_cons] at h ⊢
        exact h
      · rw [if_neg hk]
        simp only [JFields.keys, List.mem_cons] at h ⊢
        rcases h with h | h
        · exact Or.inl h
        · exact Or.inr (mem_keys_setAttr rest k v k2 h)

theorem pyDictOK_getAttr : ∀ (f : JFields) (k : String) (v : J), pyDictOKF f = true →
    getAttr f k = some v → pyDictOKJ v = true
  | .nil, k, v, _, hget => by rw [getAttr] at hget; exact Option.noConfusion hget
  | .cons k0 v0 rest, k, v, h, hget => by
      have hC : (!(isFeatureTypeKey k0) && !(decide (k0 ∈ JFields.keys rest)) &&
          (!(decide (k0 = "type")) || isLeafJ v0) && pyDictOKJ v0 && pyDictOKF rest) = true := h
      simp only [Bool.and_eq_true, Bool.not_eq_true', decide_eq_false_iff_not,
        Bool.or_eq_true] at hC
      rw [getAttr] at hget
      by_cases hk : k0 = k
      · rw [if_pos hk] at hget
        simp only [Option.some.injEq] at hget
        exact hget ▸ hC.1.2
      · rw [if_neg hk] at hget
        exact pyDictOK_getAttr rest k v hC.2 hget

theorem pyDictOKF_setAttr : ∀ (f : JFields) (k : String) (v : J), pyDictOKF f = true →
    isFeatureTypeKey k = false → (k = "type" → isLeafJ v = true) → pyDictOKJ v = true →
    pyDictOKF (setAttr f k v) = true
  | .nil, k, v, _, hfk, htyp, hpv => by
      rw [setAttr]
      show (!(isFeatureTypeKey k) && !(decide (k ∈ JFields.keys .nil)) &&
          (!(decide (k = "type")) || isLeafJ v) && pyDictOKJ v && pyDictOKF .nil) = true
      simp only [Bool.and_eq_true, Bool.not_eq_true', decide_eq_false_iff_not, Bool.or_eq_true]
      refine ⟨⟨⟨⟨hfk, by simp [JFields.keys]⟩, ?_⟩, hpv⟩, rfl⟩
      by_cases hk : k = "type"
      · exact Or.inr (htyp hk)
      · exact Or.inl hk
  | .cons k0 v0 rest, k, v, h, hfk, htyp, hpv => by
      have hC : (!(isFeatureTypeKey k0) && !(decide (k0 ∈ JFields.keys rest)) &&
          (!(decide (k0 = "type")) || isLeafJ v0) && pyDictOKJ v0 && pyDictOKF rest) = true := h
      simp only [Bool.and_eq_true, Bool.not_eq_true', decide_eq_false_iff_not,
        Bool.or_eq_true] at hC
      obtain ⟨⟨⟨⟨hk0f, hk0r⟩, hk0t⟩, hpv0⟩, hrest⟩ := hC
      rw [setAttr]
      by_cases hk : k0 = k
      · rw [if_pos hk]
        show (!(isFeatureTypeKey k0) && !(decide (k0 ∈ JFields.keys rest)) &&
            (!(decide (k0 = "type")) || isLeafJ v) && pyDictOKJ v && pyDictOKF rest) = true
        simp only [Bool.and_eq_true, Bool.not_eq_true', decide_eq_false_iff_not, Bool.or_eq_true]
        refine ⟨⟨⟨⟨hk0f, hk0r⟩, ?_⟩, hpv⟩, hrest⟩
        by_cases hkt : k0 = "type"
        · exact Or.inr (htyp (hk ▸ hkt))
        · exact Or.inl hkt
      · rw [if_neg hk]
        show (!(isFeatureTypeKey k0) && !(decide (k0 ∈ JFields.keys (setAttr rest k v))) &&
            (!(decide (k0 = "type")) || isLeafJ v0) && pyDictOKJ v0 &&
            pyDictOKF (setAttr rest k v)) = true
        simp only [Bool.and_eq_true, Bool.not_eq_true', decide_eq_false_iff_not, Bool.or_eq_true]
        refine ⟨⟨⟨⟨hk0f, ?_⟩, hk0t⟩, hpv0⟩, pyDictOKF_setAttr rest k v hrest hfk htyp hpv⟩
        by_cases hmem : k ∈ JFields.keys rest
        · rw [keys_setAttr_mem rest k v hmem]
          exact hk0r
        · rw [setAttr_not_mem rest k v hmem, keys_jappend]
          simp only [List.mem_append, JFields.keys, List.mem_singleton, not_or]
          exact ⟨hk0r, hk⟩

theorem noFTDeepJ_leaf (v : J) (h : isLeafJ v = true) : noFTDeepJ v = true := by
  cases v <;> first | rfl | exact Bool.noConfusion h

theorem noFTDeepF_setAttr : ∀ (f : JFields) (k : String) (v : J), noFTDeepF f = true →
    isFeatureTypeKey k = false → noFTDeepJ v = true → noFTDeepF (setAttr f k v) = true
  | .nil, k, v, _, hfk, hv => by
      rw [setAttr]
      show (!(isFeatureTypeKey k) && noFTDeepJ v && noFTDeepF .nil) = true
      simp only [hfk, hv, Bool.not_false, Bool.and_true, Bool.true_and]
      rfl
  | .cons k0 v0 rest, k, v, h, hfk, hv => by
      have hC : (!(isFeatureTypeKey k0) && noFTDeepJ v0 && noFTDeepF rest) = true := h
      simp only [Bool.and_eq_true, Bool.not_eq_true'] at hC
      rw [setAttr]
      by_cases hk : k0 = k
      · rw [if_pos hk]
        show (!(isFeatureTypeKey k0) && noFTDeepJ v && noFTDeepF rest) = true
        simp [hC.1.1, hv, hC.2]
      · rw [if_neg hk]
        show (!(isFeatureTypeKey k0) && noFTDeepJ v0 && noFTDeepF (setAttr rest k v)) = true
        simp [hC.1.1, hC.1.2, noFTDeepF_setAttr rest k v hC.2 hfk hv]

theorem noFTDeepJ_getAttr (cf : JFields) (k : String) (v : J) (h : noFTDeepF cf = true)
    (hget : getAttr cf k = some v) : noFTDeepJ v = true := by
  cases v
  case obj subf => simpa only [noFTDeepJ] using noFTDeepF_lookup cf k subf h hget
  all_goals rfl

theorem section_replacement_noFT (k : String) (sub : J) (uvf : JFields) (ft : Option String)
    (sec2 : J) (hsub : noFTDeepJ sub = true)
    (h : section_replacement k sub uvf ft = .ok sec2) : noFTDeepJ sec2 = true := by
  unfold section_replacement at h
  split at h
  · split at h <;> try exact Except.noConfusion h
    split at h <;> try exact Except.noConfusion h
    split at h
    · obtain ⟨-, cfC, hCe, -, hdeepC⟩ := get_config_cls_good k _ ft sec2 h
      subst hCe
      simpa only [noFTDeepJ] using hdeepC
    · simp only [Except.ok.injEq] at h
      exact h ▸ hsub
  · simp only [Except.ok.injEq] at h
    exact h ▸ hsub

theorem buildNoFT : ∀ (ft : Option String) (u cf : JFields) (res : J),
    noFTDeepF cf = true →
    pyDictOKF u = true →
    set_attributes (J.obj cf) u ft = .ok res →
    ∃ rf, res = J.obj rf ∧ noFTDeepF rf = true
  | ft, .nil, cf, res, hd, _, h => by
      rw [set_attributes_nil] at h
      simp only [Except.ok.injEq] at h
      exact ⟨cf, h.symm, hd⟩
  | ft, .cons k uv urest, cf, res, hd, hok, h => by
      have hokC : (!(isFeatureTypeKey k) && !(decide (k ∈ JFields.keys urest)) &&
          (!(decide (k = "type")) || isLeafJ uv) && pyDictOKJ uv && pyDictOKF urest) = true := hok
      simp only [Bool.and_eq_true, Bool.not_eq_true', decide_eq_false_iff_not,
        Bool.or_eq_true] at hokC
      obtain ⟨⟨⟨⟨hfk, -⟩, -⟩, hpyv⟩, hpyrest⟩ := hokC
      have hfkP : ¬ (isFeatureTypeKey k = true) := by
        rw [hfk]
        exact Bool.noConfusion
      rw [set_attributes_cons, if_neg hfkP] at h
      simp only [bind, Except.bind] at h
      cases hstep : set_attributes_step (J.obj cf) k uv ft <;> rw [hstep] at h
      · exact Except.noConfusion h
      case ok o2 =>
      cases uv
      case obj uvf =>
        have hpyf : pyDictOKF uvf = true := by simpa only [pyDictOKJ] using hpyv
        cases hga : getAttr cf k
        · exfalso
          unfold set_attributes_step at hstep
          simp only [hga] at hstep
          exact Except.noConfusion hstep
        next sub =>
        have hsubd : noFTDeepJ sub = true := noFTDeepJ_getAttr cf k sub hd hga
        by_cases hsec : k ∈ sectionKeys
        · rw [set_attributes_step_sect_eq cf k uvf ft sub hsec hga] at hstep
          simp only [bind, Except.bind] at hstep
          cases hrep : section_replacement k sub uvf ft <;> simp only [hrep] at hstep
          · exact Except.noConfusion hstep
          next sec2 =>
          have hsec2d : noFTDeepJ sec2 = true := section_replacement_noFT k sub uvf ft sec2 hsubd hrep
          cases hsub2 : set_attributes sec2 uvf ft <;> simp only [hsub2] at hstep
          · exact Except.noConfusion hstep
          next sub2 =>
          simp only [pure, Except.pure, Except.ok.injEq] at hstep
          subst hstep
          cases sec2
          case obj s2f =>
            obtain ⟨sub2f, rfl, hdsub2⟩ := buildNoFT ft uvf s2f sub2
              (by simpa only [noFTDeepJ] using hsec2d) hpyf hsub2
            exact buildNoFT ft urest (setAttr cf k (J.obj sub2f)) res
              (noFTDeepF_setAttr cf k _ hd hfk (by simpa only [noFTDeepJ] using hdsub2))
              hpyrest h
          all_goals cases uvf with
            | nil =>
                rw [set_attributes_nil] at hsub2
                simp only [Except.ok.injEq] at hsub2
                subst hsub2
                exact buildNoFT ft urest (setAttr cf k _) res
                  (noFTDeepF_setAttr cf k _ hd hfk (by rfl)) hpyrest h
            | cons k3 v3 r3 =>
                exfalso
                rw [set_attributes_cons] at hsub2
                rw [set_attributes_step_nonobj _ k3 v3 _ (by rfl)] at hsub2
                simp only [bind, Except.bind] at hsub2
                exact Except.noConfusion hsub2
        · rw [set_attributes_step_nested_eq cf k uvf ft sub hsec hga] at hstep
          simp only [bind, Except.bind] at hstep
          cases hsub2 : set_attributes sub uvf ft <;> simp only [hsub2] at hstep
          · exact Except.noConfusion hstep
          next sub2 =>
          simp only [pure, Except.pure, Except.ok.injEq] at hstep
          subst hstep
          cases sub
          case obj subf =>
            obtain ⟨sub2f, rfl, hdsub2⟩ := buildNoFT ft uvf subf sub2
              (by simpa only [noFTDeepJ] using hsubd) hpyf hsub2
            exact buildNoFT ft urest (setAttr cf k (J.obj sub2f)) res
              (noFTDeepF_setAttr cf k _ hd hfk (by simpa only [noFTDeepJ] using hdsub2))
              hpyrest h
          all_goals cases uvf with
            | nil =>
                rw [set_attributes_nil] at hsub2
                simp only [Except.ok.injEq] at hsub2
                subst hsub2
                exact buildNoFT ft urest (setAttr cf k _) res
                  (noFTDeepF_setAttr cf k _ hd hfk (by rfl)) hpyrest h
            | cons k3 v3 r3 =>
                exfalso
                rw [set_attributes_cons] at hsub2
                rw [set_attributes_step_nonobj _ k3 v3 _ (by rfl)] at hsub2
                simp only [bind, Except.bind] at hsub2
                exact Except.noConfusion hsub2
      all_goals (
        by_cases hsec : k ∈ sectionKeys
        · exact absurd hstep (fun hx => set_attributes_step_sect_leaf cf k _ ft hsec (by rfl) o2 hx)
        · have ho2 := set_attributes_step_leaf cf k _ ft o2 hstep hsec
            (fun vf he => J.noConfusion he)
          subst ho2
          exact buildNoFT ft urest (setAttr cf k _) res
            (noFTDeepF_setAttr cf k _ hd hfk (by rfl)) hpyrest h)
termination_by _ u _ _ => sizeOf u

theorem isFeatureTypeKey_not_section (k : String) (h : isFeatureTypeKey k = true) :
    k ∉ sectionKeys := by
  intro hmem
  have hmem2 : k = "encoder" ∨ k = "decoder" ∨ k = "loss" ∨ k = "optimizer" ∨ k = "split" := by
    simpa [sectionKeys] using hmem
  rcases hmem2 with rfl | rfl | rfl | rfl | rfl <;> exact Bool.noConfusion h

theorem buildDefaultsF : ∀ (ftc : Option String) (u : JFields) (df cf : JFields) (res : J),
    goodF none df cf = true →
    (∀ k, k ∈ JFields.keys df → isFeatureTypeKey k = true ∧
      ∀ subf, getAttr df k = some (J.obj subf) → noFTDeepF subf = true) →
    defaultsArgOK u = true →
    (∀ k2, k2 ∈ JFields.keys u → getAttr cf k2 = getAttr df k2) →
    (∀ t subf, isFeatureTypeKey t = true → getAttr cf t = some (J.obj subf) →
      noFTDeepF subf = true) →
    set_attributes (J.obj cf) u ftc = .ok res →
    ∃ rf, res = J.obj rf ∧ goodF none df rf = true ∧
      ∀ t subf, isFeatureTypeKey t = true → getAttr rf t = some (J.obj subf) →
        noFTDeepF subf = true
  | ftc, .nil, df, cf, res, hg, _, _, _, hslot, h => by
      rw [set_attributes_nil] at h
      simp only [Except.ok.injEq] at h
      exact ⟨cf, h.symm, hg, hslot⟩
  | ftc, .cons k uv urest, df, cf, res, hg, hdfc, hok, hunt, hslot, h => by
      have hokC : (!(decide (k ∈ JFields.keys urest)) && (!(isFeatureTypeKey k) || pyDictOKJ uv) &&
          defaultsArgOK urest) = true := hok
      simp only [Bool.and_eq_true, Bool.not_eq_true', decide_eq_false_iff_not,
        Bool.or_eq_true] at hokC
      obtain ⟨⟨hkur, hpyv⟩, hokrest⟩ := hokC
      rw [set_attributes_cons] at h
      simp only [bind, Except.bind] at h
      cases hstep : set_attributes_step (J.obj cf) k uv (if isFeatureTypeKey k then some k else ftc) <;>
        simp only [hstep] at h
      · exact Except.noConfusion h
      case ok o2 =>
      cases uv
      case obj uvf =>
        cases hga : getAttr cf k
        · exfalso
          unfold set_attributes_step at hstep
          simp only [hga] at hstep
          exact Except.noConfusion hstep
        next sub =>
        rcases goodF_lookup none df cf k sub hg hga with ⟨d, hd, hgvdd⟩ | ⟨hd, hnsec, hleafsub⟩
        · -- base position: must be a feature-type key
          have hdk : getAttr df k = some sub := by
            rw [← hunt k (by simp [JFields.keys]), hga]
          have hdsub : sub = d := by
            rw [hdk] at hd
            simpa using hd
          subst hdsub
          obtain ⟨hfk, hdeepk⟩ := hdfc k (getAttr_some_mem df k sub hd)
          have hsec : k ∉ sectionKeys := isFeatureTypeKey_not_section k hfk
          have hftk : (if isFeatureTypeKey k then some k else ftc) = some k := by
            rw [if_pos hfk]
          rw [hftk] at hstep
          rw [hftk] at h
          have hftAt : ftAt k none = some k := by
            unfold ftAt
            rw [if_pos hfk]
          rw [hftAt] at hgvdd
          rw [set_attributes_step_nested_eq cf k uvf (some k) sub hsec hga] at hstep
          simp only [bind, Except.bind] at hstep
          cases hsub : set_attributes sub uvf (some k) <;> rw [hsub] at hstep
          · exact Except.noConfusion hstep
          next sub2 =>
          simp only [pure, Except.pure, Except.ok.injEq] at hstep
          subst hstep
          cases sub
          case obj subf =>
            have hgself : goodF (some k) subf subf = true := by
              unfold goodV at hgvdd
              rw [if_neg hsec] at hgvdd
              simpa using hgvdd
            have hpyf : pyDictOKF uvf = true := by
              rcases hpyv with hx | hx
              · rw [hfk] at hx
                exact Bool.noConfusion hx
              · simpa only [pyDictOKJ] using hx
            obtain ⟨sub2f, rfl, hgsub2⟩ := buildF (some k) uvf subf subf sub2 hgself
              (hdeepk subf hdk) hpyf (fun _ _ => rfl) hsub
            have hgv2 : goodV (ftAt k none) k (J.obj subf) (J.obj sub2f) = true := by
              rw [hftAt]
              unfold goodV
              rw [if_neg hsec]
              simpa using hgsub2
            have hsub2d : noFTDeepF sub2f = true := by
              obtain ⟨rf2, hrf2, hd2⟩ := buildNoFT (some k) uvf subf (J.obj sub2f)
                (hslot k subf hfk hga) hpyf hsub
              have : sub2f = rf2 := by simpa using hrf2
              exact this ▸ hd2
            refine buildDefaultsF (some k) urest df (setAttr cf k (J.obj sub2f)) res
              (goodF_update_at none df cf k (J.obj subf) (J.obj sub2f) hg hdk hgv2
                (Or.inl hfk))
              hdfc hokrest (fun k2 hk2 => ?_) (fun t subf2 hft hget => ?_) h
            · rw [getAttr_setAttr_ne cf k _ k2 (fun he => hkur (he ▸ hk2))]
              exact hunt k2 (by simp [JFields.keys, hk2])
            · by_cases ht : t = k
              · subst ht
                rw [getAttr_setAttr_self] at hget
                simp only [Option.some.injEq, J.obj.injEq] at hget
                exact hget ▸ hsub2d
              · rw [getAttr_setAttr_ne cf k _ t (fun he => ht he.symm)] at hget
                exact hslot t subf2 hft hget
          all_goals cases uvf with
            | nil =>
                rw [set_attributes_nil] at hsub
                simp only [Except.ok.injEq] at hsub
                subst hsub
                rw [setAttr_self cf k _ hga] at h
                exact buildDefaultsF (some k) urest df cf res hg hdfc hokrest
                  (fun k2 hk2 => hunt k2 (by simp [JFields.keys, hk2])) hslot h
            | cons k3 v3 r3 =>
                exfalso
                rw [set_attributes_cons] at hsub
                rw [set_attributes_step_nonobj _ k3 v3 _ (by rfl)] at hsub
                simp only [bind, Except.bind] at hsub
                exact Except.noConfusion hsub
        · -- appended leaf position: only an empty dict value passes
          unfold set_attributes_step at hstep
          simp only [hga] at hstep
          rw [if_neg hnsec] at hstep
          cases hsub : set_attributes sub uvf (if isFeatureTypeKey k then some k else ftc) <;>
            simp only [hsub] at hstep
          · exact Except.noConfusion hstep
          next sub2 =>
          cases uvf with
          | cons k3 v3 r3 =>
              exfalso
              rw [set_attributes_cons] at hsub
              rw [set_attributes_step_nonobj _ k3 v3 _ hleafsub] at hsub
              simp only [bind, Except.bind] at hsub
              exact Except.noConfusion hsub
          | nil =>
              rw [set_attributes_nil] at hsub
              simp only [Except.ok.injEq] at hsub
              subst hsub
              simp only [bind, Except.bind, pure, Except.pure, Except.ok.injEq] at hstep
              subst hstep
              rw [setAttr_self cf k _ hga] at h
              exact buildDefaultsF _ urest df cf res hg hdfc hokrest
                (fun k2 hk2 => hunt k2 (by simp [JFields.keys, hk2])) hslot h
      all_goals (
        by_cases hsec : k ∈ sectionKeys
        · exact absurd hstep
            (fun hx => set_attributes_step_sect_leaf cf k _ _ hsec (by rfl) o2 hx)
        · have ho2 := set_attributes_step_leaf cf k _ _ o2 hstep hsec
            (fun vf he => J.noConfusion he)
          subst ho2
          exact buildDefaultsF _ urest df (setAttr cf k _) res
            (goodF_set_leaf none df cf k _ hg hsec (by rfl)) hdfc hokrest
            (fun k2 hk2 => by
              rw [getAttr_setAttr_ne cf k _ k2 (fun he => hkur (he ▸ hk2))]
              exact hunt k2 (by simp [JFields.keys, hk2]))
            (fun t subf2 hft hget => by
              by_cases ht : t = k
              · subst ht
                rw [getAttr_setAttr_self] at hget
                simp only [Option.some.injEq] at hget
                exact absurd hget (by intro hx; exact J.noConfusion hx)
              · rw [getAttr_setAttr_ne cf k _ t (fun he => ht he.symm)] at hget
                exact hslot t subf2 hft hget) h)
termination_by _ u _ _ _ => sizeOf u

theorem goodF_getAttr_some (ft : Option String) (df cf : JFields) (k : String) (d : J)
    (hg : goodF ft df cf = true) (hd : getAttr df k = some d) :
    ∃ w, getAttr cf k = some w ∧ goodV (ftAt k ft) k d w = true := by
  obtain ⟨w, hw⟩ := mem_keys_getAttr_isSome cf k
    (goodF_keys_mem ft df cf k hg (getAttr_some_mem df k d hd))
  rcases goodF_lookup ft df cf k w hg hw with ⟨d2, hd2, hgv⟩ | ⟨hnone, -, -⟩
  · rw [hd] at hd2
    simp only [Option.some.injEq] at hd2
    exact ⟨w, hw, hd2 ▸ hgv⟩
  · rw [hd] at hnone
    exact Option.noConfusion hnone

def slotNoFTOK : JFields → Bool
  | .nil => true
  | .cons k v rest => (!(isFeatureTypeKey k) || noFTDeepJ v) && slotNoFTOK rest

theorem slotNoFTOK_spec : ∀ (c : JFields), slotNoFTOK c = true →
    ∀ t subf, isFeatureTypeKey t = true → getAttr c t = some (J.obj subf) →
      noFTDeepF subf = true
  | .nil, _, t, subf, _, hget => by rw [getAttr] at hget; exact Option.noConfusion hget
  | .cons k v rest, h, t, subf, hft, hget => by
      have hC : ((!(isFeatureTypeKey k) || noFTDeepJ v) && slotNoFTOK rest) = true := h
      simp only [Bool.and_eq_true, Bool.or_eq_true, Bool.not_eq_true'] at hC
      rw [getAttr] at hget
      by_cases hk : k = t
      · rw [if_pos hk] at hget
        simp only [Option.some.injEq] at hget
        rcases hC.1 with hx | hx
        · rw [hk, hft] at hx
          exact Bool.noConfusion hx
        · rw [hget] at hx
          simpa only [noFTDeepJ] using hx
      · rw [if_neg hk] at hget
        exact slotNoFTOK_spec rest hC.2 t subf hft hget

theorem input_registry_cases (t : String) (c : J) (h : input_config_registry t = some c) :
    (t = "binary" ∧ c = BinaryInputFeatureConfig) ∨
    (t = "category" ∧ c = CategoryInputFeatureConfig) ∨
    (t = "number" ∧ c = NumberInputFeatureConfig) ∨
    (t = "text" ∧ c = TextInputFeatureConfig) := by
  unfold input_config_registry at h
  split at h <;> try exact Option.noConfusion h
  all_goals simp only [Option.some.injEq] at h
  · exact Or.inl ⟨rfl, h.symm⟩
  · exact Or.inr (Or.inl ⟨rfl, h.symm⟩)
  · exact Or.inr (Or.inr (Or.inl ⟨rfl, h.symm⟩))
  · exact Or.inr (Or.inr (Or.inr ⟨rfl, h.symm⟩))

theorem output_registry_cases (t : String) (c : J) (h : output_config_registry t = some c) :
    (t = "binary" ∧ c = BinaryOutputFeatureConfig) ∨
    (t = "category" ∧ c = CategoryOutputFeatureConfig) ∨
    (t = "number" ∧ c = NumberOutputFeatureConfig) ∨
    (t = "text" ∧ c = TextOutputFeatureConfig) := by
  unfold output_config_registry at h
  split at h <;> try exact Option.noConfusion h
  all_goals simp only [Option.some.injEq] at h
  · exact Or.inl ⟨rfl, h.symm⟩
  · exact Or.inr (Or.inl ⟨rfl, h.symm⟩)
  · exact Or.inr (Or.inr (Or.inl ⟨rfl, h.symm⟩))
  · exact Or.inr (Or.inr (Or.inr ⟨rfl, h.symm⟩))

theorem combiner_registry_cases (t : String) (c : J) (h : combiner_registry t = some c) :
    (t = "concat" ∧ c = ConcatCombinerConfig) ∨
    (t = "sequence" ∧ c = SequenceCombinerConfig) := by
  unfold combiner_registry at h
  split at h <;> try exact Option.noConfusion h
  all_goals simp only [Option.some.injEq] at h
  · exact Or.inl ⟨rfl, h.symm⟩
  · exact Or.inr ⟨rfl, h.symm⟩

theorem set_global_defaults_aux_good : ∀ (ks : List String) (t : String) (clsf f td : JFields)
    (want : List String) (f2 : JFields),
    goodF (some t) clsf f = true → noFTDeepF f = true →
    (∀ k0, k0 ∈ JFields.keys clsf → isFeatureTypeKey k0 = false) →
    (∀ sec v, sec ∈ want → getAttr td sec = some v →
      isFeatureTypeKey sec = false ∧ noFTDeepJ v = true ∧
      ∃ dslot, getAttr clsf sec = some dslot ∧
        goodV (ftAt sec (some t)) sec dslot v = true) →
    set_global_defaults_aux f td want ks = .ok f2 →
    goodF (some t) clsf f2 = true ∧ noFTDeepF f2 = true ∧
    (∀ k2, k2 ∉ want → getAttr f2 k2 = getAttr f k2) ∧
    (∀ k2, k2 ∈ JFields.keys f → k2 ∈ JFields.keys f2)
  | [], t, clsf, f, td, want, f2, hg, hd, hnf, hslots, h => by
      rw [set_global_defaults_aux] at h
      simp only [Except.ok.injEq] at h
      subst h
      exact ⟨hg, hd, fun _ _ => rfl, fun _ hk => hk⟩
  | sec :: ks, t, clsf, f, td, want, f2, hg, hd, hnf, hslots, h => by
      rw [set_global_defaults_aux] at h
      by_cases hw : sec ∈ want
      · rw [if_pos hw] at h
        cases hv : getAttr td sec <;> rw [hv] at h
        · exact Except.noConfusion h
        next v =>
        obtain ⟨hsecnf, hvd, dslot, hdslot, hgv⟩ := hslots sec v hw hv
        obtain ⟨hg2, hd2, huntouched, hkeys⟩ := set_global_defaults_aux_good ks t clsf
          (setAttr f sec v) td want f2
          (goodF_update_at (some t) clsf f sec dslot v hg hdslot hgv
            (Or.inr (Or.inr hnf)))
          (noFTDeepF_setAttr f sec v hd hsecnf hvd) hnf hslots h
        refine ⟨hg2, hd2, fun k2 hk2 => ?_, fun k2 hk2 => hkeys k2 (mem_keys_setAttr f sec v k2 hk2)⟩
        rw [huntouched k2 hk2, getAttr_setAttr_ne f sec v k2 (fun he => hk2 (he ▸ hw))]
      · rw [if_neg hw] at h
        exact set_global_defaults_aux_good ks t clsf f td want f2 hg hd hnf hslots h

theorem goodV_nonsect_obj (ft : Option String) (k : String) (dfx wf : JFields)
    (hs : k ∉ sectionKeys) (h : goodV ft k (J.obj dfx) (J.obj wf) = true) :
    goodF ft dfx wf = true := by
  unfold goodV at h
  rw [if_neg hs] at h
  simpa using h

theorem set_global_defaults_inv (ff : JFields) (t : String) (isIn : Bool) (df : JFields)
    (fwd : J) (h : set_global_defaults (J.obj ff) t isIn (J.obj df) = .ok fwd) :
    ∃ td ff2, getAttr df t = some (J.obj td) ∧
      set_global_defaults_aux ff td
        (if isIn then ["encoder", "preprocessing"] else ["decoder", "loss"]) ff.keys = .ok ff2 ∧
      fwd = J.obj ff2 := by
  unfold set_global_defaults at h
  cases hga : getAttr df t <;> simp only [hga] at h
  · exact Except.noConfusion h
  next w =>
  cases w <;> try exact Except.noConfusion h
  next td =>
  simp only [bind, Except.bind] at h
  cases haux : set_global_defaults_aux ff td
      (if isIn then ["encoder", "preprocessing"] else ["decoder", "loss"]) ff.keys <;>
    simp only [haux] at h
  · exact Except.noConfusion h
  next ff2 =>
  simp only [pure, Except.pure, Except.ok.injEq] at h
  exact ⟨td, ff2, rfl, haux, h.symm⟩

theorem fwd_good_core (t : String) (clsf td ff2 : JFields) (want : List String)
    (hgcls : goodF (some t) clsf clsf = true)
    (hdcls : noFTDeepF clsf = true)
    (hslots : ∀ sec v, sec ∈ want → getAttr td sec = some v →
      isFeatureTypeKey sec = false ∧ noFTDeepJ v = true ∧
      ∃ dslot, getAttr clsf sec = some dslot ∧ goodV (ftAt sec (some t)) sec dslot v = true)
    (haux : set_global_defaults_aux clsf td want clsf.keys = .ok ff2) :
    goodF (some t) ff2 ff2 = true ∧ noFTDeepF ff2 = true ∧
    (∀ k2, k2 ∉ want → getAttr ff2 k2 = getAttr clsf k2) ∧
    (∀ k2, k2 ∈ JFields.keys clsf → k2 ∈ JFields.keys ff2) := by
  obtain ⟨hg2, hd2, hu, hk⟩ := set_global_defaults_aux_good clsf.keys t clsf clsf td want ff2
    hgcls hdcls (noFTDeepF_keys clsf hdcls) hslots haux
  exact ⟨selfGoodF _ _ _ hg2, hd2, hu, hk⟩

theorem input_fwd_good (t : String) (cls dfs fwd : J)
    (hreg : input_config_registry t = some cls)
    (hgd : goodO none DefaultsConfig dfs = true)
    (hslot : ∀ tt subf, isFeatureTypeKey tt = true → jGetAttr dfs tt = some (J.obj subf) →
      noFTDeepF subf = true)
    (hfwd : set_global_defaults cls t true dfs = .ok fwd) :
    ∃ fwdf, fwd = J.obj fwdf ∧ goodF (some t) fwdf fwdf = true ∧ noFTDeepF fwdf = true ∧
      getAttr fwdf "active" = some (J.b true) ∧
      "column" ∈ JFields.keys fwdf ∧ "proc_column" ∈ JFields.keys fwdf ∧
      "encoder" ∈ JFields.keys fwdf := by
  cases dfs <;> try exact Bool.noConfusion hgd
  next df =>
  rcases input_registry_cases t cls hreg with ⟨ht, rfl⟩ | ⟨ht, rfl⟩ | ⟨ht, rfl⟩ | ⟨ht, rfl⟩ <;>
  · obtain ⟨td, ff2, hga, haux, rfl⟩ := set_global_defaults_inv _ t true df fwd hfwd
    rw [ht] at hga
    rcases goodF_lookup none _ df _ (J.obj td) hgd hga with ⟨dv, hd, hgv⟩ | ⟨-, -, hleaf⟩
    swap
    · exact Bool.noConfusion hleaf
    injection hd with hdv
    subst hdv
    have hgtd := goodV_nonsect_obj _ _ _ td (by decide) hgv
    have hjga : jGetAttr (J.obj df) t = some (J.obj td) := by
      rw [ht]
      simpa [jGetAttr] using hga
    have hdtd : noFTDeepF td = true := hslot t td (by rw [ht]; decide) hjga
    obtain ⟨hg2, hd2, hu, hk⟩ := fwd_good_core t _ td ff2 _ (by rw [ht]; rfl) (by rfl)
      (fun sec v hsec hv => by
        rcases (by simpa using hsec : sec = "encoder" ∨ sec = "preprocessing") with rfl | rfl
        · obtain ⟨ev, hev, hgve⟩ := goodF_getAttr_some _ _ td "encoder" _ hgtd rfl
          rw [hev] at hv
          have hve : ev = v := by simpa using hv
          subst hve
          refine ⟨by decide, noFTDeepJ_getAttr td "encoder" ev hdtd hev, _, rfl, ?_⟩
          rw [ht]
          exact hgve
        · obtain ⟨pv, hpv, hgvp⟩ := goodF_getAttr_some _ _ td "preprocessing" _ hgtd rfl
          rw [hpv] at hv
          have hvp : pv = v := by simpa using hv
          subst hvp
          refine ⟨by decide, noFTDeepJ_getAttr td "preprocessing" pv hdtd hpv, _, rfl, ?_⟩
          rw [ht]
          exact hgvp) haux
    refine ⟨ff2, rfl, hg2, hd2, ?_, hk "column" (by decide), hk "proc_column" (by decide),
      hk "encoder" (by decide)⟩
    rw [hu "active" (by decide)]
    rfl

theorem output_fwd_good (t : String) (cls dfs fwd : J)
    (hreg : output_config_registry t = some cls)
    (hgd : goodO none DefaultsConfig dfs = true)
    (hslot : ∀ tt subf, isFeatureTypeKey tt = true → jGetAttr dfs tt = some (J.obj subf) →
      noFTDeepF subf = true)
    (hfwd : set_global_defaults cls t false dfs = .ok fwd) :
    ∃ fwdf, fwd = J.obj fwdf ∧ goodF (some t) fwdf fwdf = true ∧ noFTDeepF fwdf = true ∧
      getAttr fwdf "active" = some (J.b true) ∧
      "column" ∈ JFields.keys fwdf ∧ "proc_column" ∈ JFields.keys fwdf ∧
      "decoder" ∈ JFields.keys fwdf := by
  cases dfs <;> try exact Bool.noConfusion hgd
  next df =>
  rcases output_registry_cases t cls hreg with ⟨ht, rfl⟩ | ⟨ht, rfl⟩ | ⟨ht, rfl⟩ | ⟨ht, rfl⟩ <;>
  · obtain ⟨td, ff2, hga, haux, rfl⟩ := set_global_defaults_inv _ t false df fwd hfwd
    rw [ht] at hga
    rcases goodF_lookup none _ df _ (J.obj td) hgd hga with ⟨dv, hd, hgv⟩ | ⟨-, -, hleaf⟩
    swap
    · exact Bool.noConfusion hleaf
    injection hd with hdv
    subst hdv
    have hgtd := goodV_nonsect_obj _ _ _ td (by decide) hgv
    have hjga : jGetAttr (J.obj df) t = some (J.obj td) := by
      rw [ht]
      simpa [jGetAttr] using hga
    have hdtd : noFTDeepF td = true := hslot t td (by rw [ht]; decide) hjga
    obtain ⟨hg2, hd2, hu, hk⟩ := fwd_good_core t _ td ff2 _ (by rw [ht]; rfl) (by rfl)
      (fun sec v hsec hv => by
        rcases (by simpa using hsec : sec = "decoder" ∨ sec = "loss") with rfl | rfl
        · obtain ⟨ev, hev, hgve⟩ := goodF_getAttr_some _ _ td "decoder" _ hgtd rfl
          rw [hev] at hv
          have hve : ev = v := by simpa using hv
          subst hve
          refine ⟨by decide, noFTDeepJ_getAttr td "decoder" ev hdtd hev, _, rfl, ?_⟩
          rw [ht]
          exact hgve
        · obtain ⟨pv, hpv, hgvp⟩ := goodF_getAttr_some _ _ td "loss" _ hgtd rfl
          rw [hpv] at hv
          have hvp : pv = v := by simpa using hv
          subst hvp
          refine ⟨by decide, noFTDeepJ_getAttr td "loss" pv hdtd hpv, _, rfl, ?_⟩
          rw [ht]
          exact hgvp) haux
    refine ⟨ff2, rfl, hg2, hd2, ?_, hk "column" (by decide), hk "proc_column" (by decide),
      hk "decoder" (by decide)⟩
    rw [hu "active" (by decide)]
    rfl

theorem resolve_defaults_round (d : JFields) (dfs : J)
    (hdefok : ∀ df, getAttr d "defaults" = some (J.obj df) → defaultsArgOK df = true)
    (h : resolve_defaults d = .ok dfs) :
    goodO none DefaultsConfig dfs = true ∧
    (∀ tt subf, isFeatureTypeKey tt = true → jGetAttr dfs tt = some (J.obj subf) →
      noFTDeepF subf = true) ∧
    (∀ d2, getAttr d2 "defaults" = some dfs → resolve_defaults d2 = .ok dfs) := by
  unfold resolve_defaults at h
  cases hga : getAttr d "defaults" <;> simp only [hga] at h
  · simp only [Except.ok.injEq] at h
    subst h
    refine ⟨by rfl, fun tt subf hft hjg => ?_, fun d2 hget2 => ?_⟩
    · exact slotNoFTOK_spec _ (by rfl) tt subf hft hjg
    · unfold resolve_defaults
      rw [hget2]
      exact restoreF none _ _ (by rfl)
  next v =>
  cases v <;> try exact Except.noConfusion h
  next df =>
  obtain ⟨rf, rfl, hgood, hslotrf⟩ := buildDefaultsF none df _ _ dfs (by rfl)
    (fun k hk => by
      have hk2 : k = "binary" ∨ k = "category" ∨ k = "number" ∨ k = "text" := by
        simpa [JFields.ofList, JFields.keys] using hk
      rcases hk2 with rfl | rfl | rfl | rfl <;>
        exact ⟨by decide, fun subf hs => by
          injection hs with hs2
          injection hs2 with hs3
          rw [← hs3]
          decide⟩)
    (hdefok df hga) (fun _ _ => rfl) (slotNoFTOK_spec _ (by rfl)) h
  refine ⟨hgood, fun tt subf hft hjg => hslotrf tt subf hft (by simpa [jGetAttr] using hjg),
    fun d2 hget2 => ?_⟩
  unfold resolve_defaults
  rw [hget2]
  exact restoreF none _ rf hgood

/-- The dict `{"type": "passthrough"}` that the GBM encoder forcing writes
into the `encoder` slot (both passthrough encoder schemas serialise to it). -/
def passthroughTypeDict : J := J.obj (JFields.cons "type" (J.s "passthrough") JFields.nil)

theorem input_encoder_passthrough_cls (t : String) (cls : J)
    (hreg : input_config_registry t = some cls) :
    ∃ Cf, get_config_cls "encoder" (J.s "passthrough") (some t) = .ok (J.obj Cf) := by
  rcases input_registry_cases t cls hreg with ⟨ht, -⟩ | ⟨ht, -⟩ | ⟨ht, -⟩ | ⟨ht, -⟩ <;>
    rw [ht] <;> exact ⟨_, rfl⟩

theorem parse_input_feature_round (dfs : J) (c f c2 : JFields)
    (hgd : goodO none DefaultsConfig dfs = true)
    (hslot : ∀ tt subf, isFeatureTypeKey tt = true → jGetAttr dfs tt = some (J.obj subf) →
      noFTDeepF subf = true)
    (hpy : pyDictOKF f = true)
    (h : parse_input_feature dfs c f = .ok c2) :
    ∃ n rf, c2 = setAttr c n (J.obj rf) ∧
      getAttr rf "name" = some (J.s n) ∧
      (getAttr rf "column").isSome = true ∧
      (getAttr rf "proc_column").isSome = true ∧
      (∀ cB, parse_input_feature dfs cB rf = .ok (setAttr cB n (J.obj rf))) ∧
      (∀ cB, ∃ X, parse_input_feature dfs cB (setAttr rf "encoder" passthroughTypeDict) =
        .ok (setAttr cB n (J.obj (setAttr rf "encoder" X)))) := by
  unfold parse_input_feature at h
  simp only [bind, Except.bind, pure, Except.pure] at h
  cases htv : getAttr f "type" <;> simp only [htv] at h
  · exact Except.noConfusion h
  case some tv =>
  cases tv <;> try exact Except.noConfusion h
  case s t =>
  cases hreg : input_config_registry t <;> simp only [hreg] at h
  · exact Except.noConfusion h
  case some cls =>
  cases hfwd : set_global_defaults cls t true dfs <;> simp only [hfwd] at h
  · exact Except.noConfusion h
  case ok fwd =>
  cases hnv : getAttr f "name" <;> simp only [hnv] at h
  · exact Except.noConfusion h
  case some nv =>
  cases nv <;> try exact Except.noConfusion h
  case s n =>
  simp only [getAttr_setAttr_self] at h
  cases hres : set_attributes fwd f (some t) <;> simp only [hres] at h
  · exact Except.noConfusion h
  case ok resolved =>
  simp only [Except.ok.injEq] at h
  obtain ⟨fwdf, rfl, hgf, hdf, hactf, hcol, hproc, hencf⟩ :=
    input_fwd_good t cls dfs fwd hreg hgd hslot hfwd
  obtain ⟨rf, rfl, hgood⟩ := buildF (some t) f fwdf fwdf resolved hgf hdf hpy
    (fun _ _ => rfl) hres
  have htype2 : getAttr rf "type" = some (J.s t) := by
    have hlv := set_attributes_leaf_value fwdf f (some t) (J.obj rf) "type" (J.s t) hres
      (pyDictOKF_nodup f hpy) htv (fun vf he => J.noConfusion he) (by decide)
    simpa [jGetAttr] using hlv
  have hname2 : getAttr rf "name" = some (J.s n) := by
    have hlv := set_attributes_leaf_value fwdf f (some t) (J.obj rf) "name" (J.s n) hres
      (pyDictOKF_nodup f hpy) hnv (fun vf he => J.noConfusion he) (by decide)
    simpa [jGetAttr] using hlv
  obtain ⟨cv, hcv⟩ := mem_keys_getAttr_isSome rf "column"
    (goodF_keys_mem (some t) fwdf rf "column" hgood hcol)
  obtain ⟨pv, hpv⟩ := mem_keys_getAttr_isSome rf "proc_column"
    (goodF_keys_mem (some t) fwdf rf "proc_column" hgood hproc)
  refine ⟨n, rf, by rw [← h, setAttr_setAttr_same], hname2, by rw [hcv]; rfl, by rw [hpv]; rfl,
    fun cB => ?_, fun cB => ?_⟩
  · unfold parse_input_feature
    simp only [bind, Except.bind, pure, Except.pure]
    simp only [htype2, hreg, hfwd, hname2, getAttr_setAttr_self,
      restoreF (some t) fwdf rf hgood, setAttr_setAttr_same]
  · obtain ⟨Cf, hcls⟩ := input_encoder_passthrough_cls t cls hreg
    obtain ⟨X, hX⟩ := walkFEnc (some t) .nil fwdf rf "passthrough" Cf hgood
      (fun _ hk2 => by simp [JFields.keys])
      (noFTDeepF_keys fwdf hdf) hencf hcls
    have hX2 : set_attributes (J.obj fwdf) (setAttr rf "encoder" passthroughTypeDict) (some t) =
        .ok (J.obj (setAttr rf "encoder" X)) := hX
    have htypeE : getAttr (setAttr rf "encoder" passthroughTypeDict) "type" =
        some (J.s t) := by
      rw [getAttr_setAttr_ne _ _ _ _ (by decide)]
      exact htype2
    have hnameE : getAttr (setAttr rf "encoder" passthroughTypeDict) "name" =
        some (J.s n) := by
      rw [getAttr_setAttr_ne _ _ _ _ (by decide)]
      exact hname2
    refine ⟨X, ?_⟩
    unfold parse_input_feature
    simp only [bind, Except.bind, pure, Except.pure]
    simp only [htypeE, hreg, hfwd, hnameE, getAttr_setAttr_self, hX2, setAttr_setAttr_same]

theorem parse_output_feature_round (dfs : J) (c f c2 : JFields)
    (hgd : goodO none DefaultsConfig dfs = true)
    (hslot : ∀ tt subf, isFeatureTypeKey tt = true → jGetAttr dfs tt = some (J.obj subf) →
      noFTDeepF subf = true)
    (hpy : pyDictOKF f = true)
    (h : parse_output_feature dfs c f = .ok c2) :
    ∃ n rf, c2 = setAttr c n (J.obj rf) ∧
      getAttr rf "name" = some (J.s n) ∧
      (getAttr rf "column").isSome = true ∧
      (getAttr rf "proc_column").isSome = true ∧
      ∀ cB, parse_output_feature dfs cB rf = .ok (setAttr cB n (J.obj rf)) := by
  unfold parse_output_feature at h
  simp only [bind, Except.bind, pure, Except.pure] at h
  cases htv : getAttr f "type" <;> simp only [htv] at h
  · exact Except.noConfusion h
  case some tv =>
  cases tv <;> try exact Except.noConfusion h
  case s t =>
  cases hreg : output_config_registry t <;> simp only [hreg] at h
  · exact Except.noConfusion h
  case some cls =>
  cases hfwd : set_global_defaults cls t false dfs <;> simp only [hfwd] at h
  · exact Except.noConfusion h
  case ok fwd =>
  cases hnv : getAttr f "name" <;> simp only [hnv] at h
  · exact Except.noConfusion h
  case some nv =>
  cases nv <;> try exact Except.noConfusion h
  case s n =>
  simp only [getAttr_setAttr_self] at h
  cases hres : set_attributes fwd f (some t) <;> simp only [hres] at h
  · exact Except.noConfusion h
  case ok resolved =>
  obtain ⟨fwdf, rfl, hgf, hdf, hactf, hcol, hproc, hdeck⟩ :=
    output_fwd_good t cls dfs fwd hreg hgd hslot hfwd
  obtain ⟨rf, rfl, hgood⟩ := buildF (some t) f fwdf fwdf resolved hgf hdf hpy
    (fun _ _ => rfl) hres
  have htype2 : getAttr rf "type" = some (J.s t) := by
    have hlv := set_attributes_leaf_value fwdf f (some t) (J.obj rf) "type" (J.s t) hres
      (pyDictOKF_nodup f hpy) htv (fun vf he => J.noConfusion he) (by decide)
    simpa [jGetAttr] using hlv
  have hname2 : getAttr rf "name" = some (J.s n) := by
    have hlv := set_attributes_leaf_value fwdf f (some t) (J.obj rf) "name" (J.s n) hres
      (pyDictOKF_nodup f hpy) hnv (fun vf he => J.noConfusion he) (by decide)
    simpa [jGetAttr] using hlv
  obtain ⟨cv, hcv⟩ := mem_keys_getAttr_isSome rf "column"
    (goodF_keys_mem (some t) fwdf rf "column" hgood hcol)
  obtain ⟨pv, hpv⟩ := mem_keys_getAttr_isSome rf "proc_column"
    (goodF_keys_mem (some t) fwdf rf "proc_column" hgood hproc)
  cases hdec : getAttr rf "decoder" <;> simp only [hdec] at h
  · exact Except.noConfusion h
  next dw =>
  cases dw <;> try exact Except.noConfusion h
  next decf =>
  cases hdt : getAttr decf "type" <;> simp only [hdt] at h
  · exact Except.noConfusion h
  next dt =>
  by_cases htag : dt = J.s "tagger"
  · rw [if_pos htag] at h
    simp only [Except.ok.injEq] at h
    have hgood2 : goodF (some t) fwdf (setAttr rf "reduce_input" J.null) = true :=
      goodF_set_leaf (some t) fwdf rf "reduce_input" J.null hgood (by decide) (by rfl)
    have hname2b : getAttr (setAttr rf "reduce_input" J.null) "name" = some (J.s n) := by
      rw [getAttr_setAttr_ne rf _ _ _ (by decide)]
      exact hname2
    have htype2b : getAttr (setAttr rf "reduce_input" J.null) "type" = some (J.s t) := by
      rw [getAttr_setAttr_ne rf _ _ _ (by decide)]
      exact htype2
    have hdec2 : getAttr (setAttr rf "reduce_input" J.null) "decoder" = some (J.obj decf) := by
      rw [getAttr_setAttr_ne rf _ _ _ (by decide)]
      exact hdec
    refine ⟨n, setAttr rf "reduce_input" J.null, by rw [← h, setAttr_setAttr_same], hname2b,
      ?_, ?_, fun cB => ?_⟩
    · rw [getAttr_setAttr_ne rf _ _ _ (by decide), hcv]
      rfl
    · rw [getAttr_setAttr_ne rf _ _ _ (by decide), hpv]
      rfl
    · unfold parse_output_feature
      simp only [bind, Except.bind, pure, Except.pure]
      simp only [htype2b, hreg, hfwd, hname2b, getAttr_setAttr_self,
        restoreF (some t) fwdf _ hgood2, hdec2, hdt]
      rw [if_pos htag]
      simp only [setAttr_setAttr_same]
  · rw [if_neg htag] at h
    simp only [Except.ok.injEq] at h
    refine ⟨n, rf, by rw [← h, setAttr_setAttr_same], hname2, by rw [hcv]; rfl,
      by rw [hpv]; rfl, fun cB => ?_⟩
    unfold parse_output_feature
    simp only [bind, Except.bind, pure, Except.pure]
    simp only [htype2, hreg, hfwd, hname2, getAttr_setAttr_self,
      restoreF (some t) fwdf rf hgood, hdec, hdt]
    rw [if_neg htag]
    simp only [setAttr_setAttr_same]

/-- A resolved feature container entry that parses back to itself: the value
is an object named after its key whose `column` and `proc_column` are set,
and re-parsing it onto any container stores exactly it under its key. -/
def RestorableEntryP (P : JFields → JFields → Except PyError JFields) (n : String) (v : J) : Prop :=
  ∃ rf, v = J.obj rf ∧ getAttr rf "name" = some (J.s n) ∧
    (getAttr rf "column").isSome = true ∧ (getAttr rf "proc_column").isSome = true ∧
    ∀ cB, P cB rf = .ok (setAttr cB n v)

/-- A restorable input entry additionally re-parses when its `encoder` slot is
overwritten by the passthrough dict, the result differing only in that slot
(the GBM forcing writes exactly such slots,
src/ludwig/schema/config_object.py:144-153). -/
def InEntryP (dfs : J) (n : String) (v : J) : Prop :=
  RestorableEntryP (parse_input_feature dfs) n v ∧
  ∀ rf, v = J.obj rf →
    ∀ cB, ∃ X, parse_input_feature dfs cB (setAttr rf "encoder" passthroughTypeDict) =
      .ok (setAttr cB n (J.obj (setAttr rf "encoder" X)))

/-- A feature container all of whose entries are restorable, with unique keys. -/
def RestorableCs (P : JFields → JFields → Except PyError JFields) : JFields → Prop
  | .nil => True
  | .cons n v rest => RestorableEntryP P n v ∧ n ∉ JFields.keys rest ∧ RestorableCs P rest

/-- An input-feature container of restorable entries that also tolerate the
passthrough `encoder` overwrite. -/
def InCs (dfs : J) : JFields → Prop
  | .nil => True
  | .cons n v rest => InEntryP dfs n v ∧ n ∉ JFields.keys rest ∧ InCs dfs rest

theorem InCs_restorable (dfs : J) : ∀ C, InCs dfs C → RestorableCs (parse_input_feature dfs) C
  | .nil, _ => trivial
  | .cons n v rest, hc => ⟨hc.1.1, hc.2.1, InCs_restorable dfs rest hc.2.2⟩

/-- The field lists of the feature objects stored in a container, in order. -/
def objListOf : JFields → List JFields
  | .nil => []
  | .cons _ (J.obj rf) rest => rf :: objListOf rest
  | .cons _ _ rest => objListOf rest

/-- The sub-container of entries whose `active` attribute is truthy
(mirroring the projection filter, src/ludwig/schema/config_object.py:476-477). -/
def activeSub : JFields → JFields
  | .nil => .nil
  | .cons n v rest =>
      match v with
      | J.obj ff =>
          if pyTruthy ((getAttr ff "active").getD J.null) then .cons n v (activeSub rest)
          else activeSub rest
      | _ => activeSub rest

theorem activeValues_objList_activeSub : ∀ C : JFields,
    activeFeatureValues C = (objListOf (activeSub C)).map J.obj
  | .nil => rfl
  | .cons n (J.obj ff) rest => by
      rw [show activeFeatureValues (.cons n (J.obj ff) rest) =
        (if pyTruthy ((getAttr ff "active").getD J.null) then
          J.obj ff :: activeFeatureValues rest else activeFeatureValues rest) from rfl]
      rw [show activeSub (.cons n (J.obj ff) rest) =
        (if pyTruthy ((getAttr ff "active").getD J.null) then
          .cons n (J.obj ff) (activeSub rest) else activeSub rest) from rfl]
      by_cases ht : pyTruthy ((getAttr ff "active").getD J.null) = true
      · rw [if_pos ht, if_pos ht, objListOf, List.map_cons,
          activeValues_objList_activeSub rest]
      · rw [if_neg ht, if_neg ht]
        exact activeValues_objList_activeSub rest
  | .cons n J.null rest => activeValues_objList_activeSub rest
  | .cons n (J.b x) rest => activeValues_objList_activeSub rest
  | .cons n (J.i x) rest => activeValues_objList_activeSub rest
  | .cons n (J.s x) rest => activeValues_objList_activeSub rest
  | .cons n (J.arr x) rest => activeValues_objList_activeSub rest
  | .cons n (J.digest x y) rest => activeValues_objList_activeSub rest

theorem activeValues_activeSub : ∀ C : JFields,
    activeFeatureValues (activeSub C) = activeFeatureValues C
  | .nil => rfl
  | .cons n (J.obj ff) rest => by
      rw [show activeSub (.cons n (J.obj ff) rest) =
        (if pyTruthy ((getAttr ff "active").getD J.null) then
          .cons n (J.obj ff) (activeSub rest) else activeSub rest) from rfl]
      rw [show activeFeatureValues (.cons n (J.obj ff) rest) =
        (if pyTruthy ((getAttr ff "active").getD J.null) then
          J.obj ff :: activeFeatureValues rest else activeFeatureValues rest) from rfl]
      by_cases ht : pyTruthy ((getAttr ff "active").getD J.null) = true
      · rw [if_pos ht, if_pos ht]
        rw [show activeFeatureValues (.cons n (J.obj ff) (activeSub rest)) =
          (if pyTruthy ((getAttr ff "active").getD J.null) then
            J.obj ff :: activeFeatureValues (activeSub rest)
          else activeFeatureValues (activeSub rest)) from rfl]
        rw [if_pos ht, activeValues_activeSub rest]
      · rw [if_neg ht, if_neg ht]
        exact activeValues_activeSub rest
  | .cons n J.null rest => activeValues_activeSub rest
  | .cons n (J.b x) rest => activeValues_activeSub rest
  | .cons n (J.i x) rest => activeValues_activeSub rest
  | .cons n (J.s x) rest => activeValues_activeSub rest
  | .cons n (J.arr x) rest => activeValues_activeSub rest
  | .cons n (J.digest x y) rest => activeValues_activeSub rest

theorem keys_activeSub_sub : ∀ (C : JFields) (k : String),
    k ∈ JFields.keys (activeSub C) → k ∈ JFields.keys C
  | .nil, k, hk => hk
  | .cons n (J.obj ff) rest, k, hk => by
      rw [show activeSub (.cons n (J.obj ff) rest) =
        (if pyTruthy ((getAttr ff "active").getD J.null) then
          .cons n (J.obj ff) (activeSub rest) else activeSub rest) from rfl] at hk
      by_cases ht : pyTruthy ((getAttr ff "active").getD J.null) = true
      · rw [if_pos ht] at hk
        simp only [JFields.keys, List.mem_cons] at hk ⊢
        rcases hk with rfl | hk
        · exact Or.inl rfl
        · exact Or.inr (keys_activeSub_sub rest k hk)
      · rw [if_neg ht] at hk
        simp only [JFields.keys, List.mem_cons]
        exact Or.inr (keys_activeSub_sub rest k hk)
  | .cons n J.null rest, k, hk => by
      simp only [JFields.keys, List.mem_cons]
      exact Or.inr (keys_activeSub_sub rest k hk)
  | .cons n (J.b x) rest, k, hk => by
      simp only [JFields.keys, List.mem_cons]
      exact Or.inr (keys_activeSub_sub rest k hk)
  | .cons n (J.i x) rest, k, hk => by
      simp only [JFields.keys, List.mem_cons]
      exact Or.inr (keys_activeSub_sub rest k hk)
  | .cons n (J.s x) rest, k, hk => by
      simp only [JFields.keys, List.mem_cons]
      exact Or.inr (keys_activeSub_sub rest k hk)
  | .cons n (J.arr x) rest, k, hk => by
      simp only [JFields.keys, List.mem_cons]
      exact Or.inr (keys_activeSub_sub rest k hk)
  | .cons n (J.digest x y) rest, k, hk => by
      simp only [JFields.keys, List.mem_cons]
      exact Or.inr (keys_activeSub_sub rest k hk)

theorem RestorableCs_activeSub (P : JFields → JFields → Except PyError JFields) :
    ∀ C, RestorableCs P C → RestorableCs P (activeSub C)
  | .nil, _ => trivial
  | .cons n v rest, hc => by
      obtain ⟨he, hn, hrest⟩ := hc
      have ih := RestorableCs_activeSub P rest hrest
      cases v with
      | obj ff =>
          rw [show activeSub (.cons n (J.obj ff) rest) =
            (if pyTruthy ((getAttr ff "active").getD J.null) then
              .cons n (J.obj ff) (activeSub rest) else activeSub rest) from rfl]
          by_cases ht : pyTruthy ((getAttr ff "active").getD J.null) = true
          · rw [if_pos ht]
            exact ⟨he, fun hm => hn (keys_activeSub_sub rest n hm), ih⟩
          · rw [if_neg ht]
            exact ih
      | null => exact ih
      | b x => exact ih
      | i x => exact ih
      | s x => exact ih
      | arr x => exact ih
      | digest x y => exact ih

theorem RestorableCs_setAttr (P : JFields → JFields → Except PyError JFields) :
    ∀ (c : JFields) (n : String) (v : J), RestorableCs P c → RestorableEntryP P n v →
    RestorableCs P (setAttr c n v)
  | .nil, n, v, _, he => by
      rw [setAttr]
      exact ⟨he, by simp [JFields.keys], trivial⟩
  | .cons k w rest, n, v, hc, he => by
      obtain ⟨hek, hkr, hrest⟩ := hc
      rw [setAttr]
      by_cases hk : k = n
      · rw [if_pos hk]
        exact ⟨hk ▸ he, hkr, hrest⟩
      · rw [if_neg hk]
        refine ⟨hek, ?_, RestorableCs_setAttr P rest n v hrest he⟩
        by_cases hmem : n ∈ JFields.keys rest
        · rw [keys_setAttr_mem rest n v hmem]
          exact hkr
        · rw [setAttr_not_mem rest n v hmem, keys_jappend]
          simp only [List.mem_append, JFields.keys, List.mem_singleton, not_or]
          exact ⟨hkr, hk⟩

theorem InCs_setAttr (dfs : J) :
    ∀ (c : JFields) (n : String) (v : J), InCs dfs c → InEntryP dfs n v →
    InCs dfs (setAttr c n v)
  | .nil, n, v, _, he => by
      rw [setAttr]
      exact ⟨he, by simp [JFields.keys], trivial⟩
  | .cons k w rest, n, v, hc, he => by
      obtain ⟨hek, hkr, hrest⟩ := hc
      rw [setAttr]
      by_cases hk : k = n
      · rw [if_pos hk]
        exact ⟨hk ▸ he, hkr, hrest⟩
      · rw [if_neg hk]
        refine ⟨hek, ?_, InCs_setAttr dfs rest n v hrest he⟩
        by_cases hmem : n ∈ JFields.keys rest
        · rw [keys_setAttr_mem rest n v hmem]
          exact hkr
        · rw [setAttr_not_mem rest n v hmem, keys_jappend]
          simp only [List.mem_append, JFields.keys, List.mem_singleton, not_or]
          exact ⟨hkr, hk⟩

theorem parse_input_features_inv (dfs : J)
    (hgd : goodO none DefaultsConfig dfs = true)
    (hslot : ∀ tt subf, isFeatureTypeKey tt = true → jGetAttr dfs tt = some (J.obj subf) →
      noFTDeepF subf = true) :
    ∀ (fs : List JFields) (c C : JFields),
    (∀ f ∈ fs, pyDictOKF f = true) →
    InCs dfs c →
    parse_input_features dfs c fs = .ok C →
    InCs dfs C
  | [], c, C, _, hc, h => by
      rw [parse_input_features] at h
      simp only [Except.ok.injEq] at h
      exact h ▸ hc
  | f :: fs, c, C, hfs, hc, h => by
      rw [parse_input_features] at h
      simp only [bind, Except.bind] at h
      cases h1 : parse_input_feature dfs c f <;> simp only [h1] at h
      · exact Except.noConfusion h
      next c2 =>
      obtain ⟨n, rf, rfl, hname, hcol, hproc, hrestore, hraw⟩ :=
        parse_input_feature_round dfs c f c2 hgd hslot (hfs f (by simp)) h1
      exact parse_input_features_inv dfs hgd hslot fs _ C
        (fun f2 hf2 => hfs f2 (by simp [hf2]))
        (InCs_setAttr dfs c n (J.obj rf) hc
          ⟨⟨rf, rfl, hname, hcol, hproc, hrestore⟩,
            fun rf2 he => by
              injection he with he2
              subst he2
              exact hraw⟩) h

theorem parse_output_features_inv (dfs : J)
    (hgd : goodO none DefaultsConfig dfs = true)
    (hslot : ∀ tt subf, isFeatureTypeKey tt = true → jGetAttr dfs tt = some (J.obj subf) →
      noFTDeepF subf = true) :
    ∀ (fs : List JFields) (c C : JFields),
    (∀ f ∈ fs, pyDictOKF f = true) →
    RestorableCs (parse_output_feature dfs) c →
    parse_output_features dfs c fs = .ok C →
    RestorableCs (parse_output_feature dfs) C
  | [], c, C, _, hc, h => by
      rw [parse_output_features] at h
      simp only [Except.ok.injEq] at h
      exact h ▸ hc
  | f :: fs, c, C, hfs, hc, h => by
      rw [parse_output_features] at h
      simp only [bind, Except.bind] at h
      cases h1 : parse_output_feature dfs c f <;> simp only [h1] at h
      · exact Except.noConfusion h
      next c2 =>
      obtain ⟨n, rf, rfl, hname, hcol, hproc, hrest⟩ :=
        parse_output_feature_round dfs c f c2 hgd hslot (hfs f (by simp)) h1
      exact parse_output_features_inv dfs hgd hslot fs _ C
        (fun f2 hf2 => hfs f2 (by simp [hf2]))
        (RestorableCs_setAttr _ c n (J.obj rf) hc ⟨rf, rfl, hname, hcol, hproc, hrest⟩) h

theorem parse_input_features_rebuild (dfs : J) :
    ∀ (Csuf acc : JFields), RestorableCs (parse_input_feature dfs) Csuf →
    (∀ k, k ∈ JFields.keys Csuf → k ∉ JFields.keys acc) →
    parse_input_features dfs acc (objListOf Csuf) = .ok (jappend acc Csuf)
  | .nil, acc, _, _ => by
      rw [objListOf, parse_input_features, jappend_nil]
  | .cons n v rest, acc, hc, hfresh => by
      obtain ⟨⟨rf, rfl, -, -, -, hrestore⟩, hnr, hrest⟩ := hc
      rw [objListOf, parse_input_features]
      simp only [bind, Except.bind, hrestore acc]
      have hnacc : n ∉ JFields.keys acc := hfresh n (by simp [JFields.keys])
      rw [setAttr_not_mem acc n (J.obj rf) hnacc]
      rw [parse_input_features_rebuild dfs rest _ hrest (fun k hk => ?_)]
      · rw [jappend_snoc]
      · rw [keys_jappend]
        simp only [List.mem_append, JFields.keys, List.mem_singleton, not_or]
        exact ⟨hfresh k (by simp [JFields.keys, hk]), fun he => hnr (he ▸ hk)⟩

theorem parse_output_features_rebuild (dfs : J) :
    ∀ (Csuf acc : JFields), RestorableCs (parse_output_feature dfs) Csuf →
    (∀ k, k ∈ JFields.keys Csuf → k ∉ JFields.keys acc) →
    parse_output_features dfs acc (objListOf Csuf) = .ok (jappend acc Csuf)
  | .nil, acc, _, _ => by
      rw [objListOf, parse_output_features, jappend_nil]
  | .cons n v rest, acc, hc, hfresh => by
      obtain ⟨⟨rf, rfl, -, -, -, hrestore⟩, hnr, hrest⟩ := hc
      rw [objListOf, parse_output_features]
      simp only [bind, Except.bind, hrestore acc]
      have hnacc : n ∉ JFields.keys acc := hfresh n (by simp [JFields.keys])
      rw [setAttr_not_mem acc n (J.obj rf) hnacc]
      rw [parse_output_features_rebuild dfs rest _ hrest (fun k hk => ?_)]
      · rw [jappend_snoc]
      · rw [keys_jappend]
        simp only [List.mem_append, JFields.keys, List.mem_singleton, not_or]
        exact ⟨hfresh k (by simp [JFields.keys, hk]), fun he => hnr (he ▸ hk)⟩

theorem restorable_objList_facts (P : JFields → JFields → Except PyError JFields) :
    ∀ C : JFields, RestorableCs P C → ∀ rf, rf ∈ objListOf C →
    (getAttr rf "column").isSome = true ∧ (getAttr rf "proc_column").isSome = true
  | .nil, _, rf, hrf => by simp [objListOf] at hrf
  | .cons n v rest, hc, rf, hrf => by
      obtain ⟨⟨rf0, rfl, -, hcol, hproc, -⟩, -, hrest⟩ := hc
      rw [objListOf] at hrf
      simp only [List.mem_cons] at hrf
      rcases hrf with rfl | hrf
      · exact ⟨hcol, hproc⟩
      · exact restorable_objList_facts P rest hrest rf hrf

/-- A stored GBM input entry (the image of the encoder forcing,
src/ludwig/schema/config_object.py:144-153): a feature object of one of the
three allowed types whose `encoder` holds the forced passthrough schema, and
which re-parses to itself up to its `encoder` slot. -/
def GBMEntry (dfs : J) (n : String) (v : J) : Prop :=
  ∃ rf, v = J.obj rf ∧ getAttr rf "name" = some (J.s n) ∧
    (getAttr rf "column").isSome = true ∧ (getAttr rf "proc_column").isSome = true ∧
    ((getAttr rf "type" = some (J.s "binary") ∧
        getAttr rf "encoder" = some BinaryPassthroughEncoderConfig) ∨
      ((getAttr rf "type" = some (J.s "category") ∨ getAttr rf "type" = some (J.s "number")) ∧
        getAttr rf "encoder" = some PassthroughEncoderConfig)) ∧
    ∀ cB, ∃ X, parse_input_feature dfs cB rf =
      .ok (setAttr cB n (J.obj (setAttr rf "encoder" X)))

/-- An input container after GBM encoder forcing. -/
def GBMCs (dfs : J) : JFields → Prop
  | .nil => True
  | .cons n v rest => GBMEntry dfs n v ∧ n ∉ JFields.keys rest ∧ GBMCs dfs rest

theorem GBMCs_activeSub (dfs : J) : ∀ C, GBMCs dfs C → GBMCs dfs (activeSub C)
  | .nil, _ => trivial
  | .cons n v rest, hc => by
      obtain ⟨he, hn, hrest⟩ := hc
      have ih := GBMCs_activeSub dfs rest hrest
      cases v with
      | obj ff =>
          rw [show activeSub (.cons n (J.obj ff) rest) =
            (if pyTruthy ((getAttr ff "active").getD J.null) then
              .cons n (J.obj ff) (activeSub rest) else activeSub rest) from rfl]
          by_cases ht : pyTruthy ((getAttr ff "active").getD J.null) = true
          · rw [if_pos ht]
            exact ⟨he, fun hm => hn (keys_activeSub_sub rest n hm), ih⟩
          · rw [if_neg ht]
            exact ih
      | null => exact ih
      | b x => exact ih
      | i x => exact ih
      | s x => exact ih
      | arr x => exact ih
      | digest x y => exact ih

theorem gbm_objList_facts (dfs : J) :
    ∀ C : JFields, GBMCs dfs C → ∀ rf, rf ∈ objListOf C →
    (getAttr rf "column").isSome = true ∧ (getAttr rf "proc_column").isSome = true
  | .nil, _, rf, hrf => by simp [objListOf] at hrf
  | .cons n v rest, hc, rf, hrf => by
      obtain ⟨⟨rf0, rfl, -, hcol, hproc, -, -⟩, -, hrest⟩ := hc
      rw [objListOf] at hrf
      simp only [List.mem_cons] at hrf
      rcases hrf with rfl | hrf
      · exact ⟨hcol, hproc⟩
      · exact gbm_objList_facts dfs rest hrest rf hrf

theorem gbm_force_inv (dfs : J) : ∀ (C C2 : JFields), InCs dfs C →
    gbm_force_encoders C = .ok C2 →
    GBMCs dfs C2 ∧ JFields.keys C2 = JFields.keys C
  | .nil, C2, _, h => by
      simp only [gbm_force_encoders, Except.ok.injEq] at h
      subst h
      exact ⟨trivial, rfl⟩
  | .cons n v rest, C2, hc, h => by
      obtain ⟨⟨⟨rf0, hv, hname, hcol, hproc, -⟩, hencP⟩, hn, hrest⟩ := hc
      subst hv
      unfold gbm_force_encoders at h
      simp only [bind, Except.bind, pure, Except.pure] at h
      cases htv : getAttr rf0 "type" <;> simp only [htv] at h
      · exact Except.noConfusion h
      next tv =>
      by_cases hb : tv = J.s "binary"
      · rw [if_pos hb] at h
        cases hrec : gbm_force_encoders rest <;> simp only [hrec] at h
        · exact Except.noConfusion h
        next rest2 =>
        simp only [Except.ok.injEq] at h
        subst h
        obtain ⟨hgrest, hkeq⟩ := gbm_force_inv dfs rest rest2 hrest hrec
        refine ⟨⟨⟨setAttr rf0 "encoder" BinaryPassthroughEncoderConfig, rfl, ?_, ?_, ?_,
          Or.inl ⟨?_, getAttr_setAttr_self _ _ _⟩, fun cB => ?_⟩, ?_, hgrest⟩, ?_⟩
        · rw [getAttr_setAttr_ne _ _ _ _ (by decide)]
          exact hname
        · rw [getAttr_setAttr_ne _ _ _ _ (by decide)]
          exact hcol
        · rw [getAttr_setAttr_ne _ _ _ _ (by decide)]
          exact hproc
        · rw [getAttr_setAttr_ne _ _ _ _ (by decide), htv, hb]
        · obtain ⟨X, hX⟩ := hencP rf0 rfl cB
          refine ⟨X, ?_⟩
          rw [setAttr_setAttr_same]
          exact hX
        · rw [hkeq]
          exact hn
        · simp only [JFields.keys, hkeq]
      · rw [if_neg hb] at h
        by_cases hcn : tv = J.s "category" ∨ tv = J.s "number"
        · rw [if_pos hcn] at h
          cases hrec : gbm_force_encoders rest <;> simp only [hrec] at h
          · exact Except.noConfusion h
          next rest2 =>
          simp only [Except.ok.injEq] at h
          subst h
          obtain ⟨hgrest, hkeq⟩ := gbm_force_inv dfs rest rest2 hrest hrec
          refine ⟨⟨⟨setAttr rf0 "encoder" PassthroughEncoderConfig, rfl, ?_, ?_, ?_,
            Or.inr ⟨?_, getAttr_setAttr_self _ _ _⟩, fun cB => ?_⟩, ?_, hgrest⟩, ?_⟩
          · rw [getAttr_setAttr_ne _ _ _ _ (by decide)]
            exact hname
          · rw [getAttr_setAttr_ne _ _ _ _ (by decide)]
            exact hcol
          · rw [getAttr_setAttr_ne _ _ _ _ (by decide)]
            exact hproc
          · rw [getAttr_setAttr_ne _ _ _ _ (by decide), htv]
            rcases hcn with hcv | hcv
            · exact Or.inl (by rw [hcv])
            · exact Or.inr (by rw [hcv])
          · obtain ⟨X, hX⟩ := hencP rf0 rfl cB
            refine ⟨X, ?_⟩
            rw [setAttr_setAttr_same]
            exact hX
          · rw [hkeq]
            exact hn
          · simp only [JFields.keys, hkeq]
        · rw [if_neg hcn] at h
          exact Except.noConfusion h

theorem gbm_rebuild (dfs : J) : ∀ (Csuf acc : JFields), GBMCs dfs Csuf →
    (∀ k, k ∈ JFields.keys Csuf → k ∉ JFields.keys acc) →
    ∃ CX, parse_input_features dfs acc (objListOf Csuf) = .ok (jappend acc CX) ∧
      gbm_force_encoders CX = .ok Csuf ∧ JFields.keys CX = JFields.keys Csuf
  | .nil, acc, _, _ =>
      ⟨.nil, by rw [objListOf, parse_input_features, jappend_nil], rfl, rfl⟩
  | .cons n v rest, acc, hc, hfresh => by
      obtain ⟨⟨rf, rfl, -, -, -, htyenc, hrestore⟩, hnr, hrest⟩ := hc
      obtain ⟨X, hX⟩ := hrestore acc
      rw [objListOf, parse_input_features]
      simp only [bind, Except.bind, hX]
      have hnacc : n ∉ JFields.keys acc := hfresh n (by simp [JFields.keys])
      rw [setAttr_not_mem acc n _ hnacc]
      obtain ⟨CX, hparse, hforce, hkeys⟩ := gbm_rebuild dfs rest
        (jappend acc (.cons n (J.obj (setAttr rf "encoder" X)) .nil)) hrest (fun k hk => by
          rw [keys_jappend]
          simp only [List.mem_append, JFields.keys, List.mem_singleton, not_or]
          exact ⟨hfresh k (by simp [JFields.keys, hk]), fun he => hnr (he ▸ hk)⟩)
      rw [hparse, jappend_snoc]
      refine ⟨.cons n (J.obj (setAttr rf "encoder" X)) CX, rfl, ?_, ?_⟩
      · unfold gbm_force_encoders
        simp only [bind, Except.bind, pure, Except.pure]
        rcases htyenc with ⟨hty, henc⟩ | ⟨hty2, henc⟩
        · have htyB : getAttr (setAttr rf "encoder" X) "type" = some (J.s "binary") := by
            rw [getAttr_setAttr_ne _ _ _ _ (by decide)]
            exact hty
          simp only [htyB]
          rw [if_pos trivial]
          simp only [hforce]
          rw [setAttr_setAttr_same, setAttr_self rf "encoder" _ henc]
        · rcases hty2 with hty | hty
          · have htyB : getAttr (setAttr rf "encoder" X) "type" = some (J.s "category") := by
              rw [getAttr_setAttr_ne _ _ _ _ (by decide)]
              exact hty
            simp only [htyB]
            rw [if_neg (by decide : ¬ ((J.s "category" : J) = J.s "binary"))]
            rw [if_pos (Or.inl trivial)]
            simp only [hforce]
            rw [setAttr_setAttr_same, setAttr_self rf "encoder" _ henc]
          · have htyB : getAttr (setAttr rf "encoder" X) "type" = some (J.s "number") := by
              rw [getAttr_setAttr_ne _ _ _ _ (by decide)]
              exact hty
            simp only [htyB]
            rw [if_neg (by decide : ¬ ((J.s "number" : J) = J.s "binary"))]
            rw [if_pos (Or.inr trivial)]
            simp only [hforce]
            rw [setAttr_setAttr_same, setAttr_self rf "encoder" _ henc]
      · simp only [JFields.keys, hkeys]

theorem toList_ofList : ∀ xs : List J, (JList.ofList xs).toList = xs
  | [] => rfl
  | x :: xs => by rw [JList.ofList, JList.toList, toList_ofList xs]

theorem mapM_obj_ok : ∀ l : List JFields,
    List.mapM (fun v => match v with
      | J.obj f => Except.ok f
      | _ => Except.error (PyError.typeError "feature entries must be dicts"))
      (l.map J.obj) = Except.ok l
  | [] => rfl
  | f :: l => by
      rw [List.map_cons, List.mapM_cons, mapM_obj_ok l]
      rfl

theorem getFeatureList_to_dict_in (m : ModelConfig) :
    getFeatureList (ModelConfig.to_dict m) "input_features" =
      .ok (objListOf (activeSub m.input_features)) := by
  unfold getFeatureList
  have hga : getAttr (ModelConfig.to_dict m) "input_features" =
      some (J.arrL (activeFeatureValues m.input_features)) := rfl
  rw [hga, activeValues_objList_activeSub]
  simp only [J.arrL]
  rw [toList_ofList]
  exact mapM_obj_ok _

theorem getFeatureList_to_dict_out (m : ModelConfig) :
    getFeatureList (ModelConfig.to_dict m) "output_features" =
      .ok (objListOf (activeSub m.output_features)) := by
  unfold getFeatureList
  have hga : getAttr (ModelConfig.to_dict m) "output_features" =
      some (J.arrL (activeFeatureValues m.output_features)) := rfl
  rw [hga, activeValues_objList_activeSub]
  simp only [J.arrL]
  rw [toList_ofList]
  exact mapM_obj_ok _

theorem set_feature_column_id (rf : JFields) (h : (getAttr rf "column").isSome = true) :
    set_feature_column rf = .ok rf := by
  unfold set_feature_column
  cases hc : getAttr rf "column"
  · rw [hc] at h
    exact Bool.noConfusion h
  · rfl

theorem mapM_set_feature_column_id : ∀ l : List JFields,
    (∀ rf ∈ l, (getAttr rf "column").isSome = true) →
    l.mapM set_feature_column = .ok l
  | [], _ => rfl
  | rf :: l, h => by
      rw [List.mapM_cons, set_feature_column_id rf (h rf (by simp)),
        mapM_set_feature_column_id l (fun rf2 hrf2 => h rf2 (by simp [hrf2]))]
      rfl

theorem set_proc_column_id (rf : JFields) (h : (getAttr rf "proc_column").isSome = true) :
    set_proc_column rf = rf := by
  unfold set_proc_column
  cases hc : getAttr rf "proc_column"
  · rw [hc] at h
    exact Bool.noConfusion h
  · rfl

theorem map_set_proc_column_id : ∀ l : List JFields,
    (∀ rf ∈ l, (getAttr rf "proc_column").isSome = true) →
    l.map set_proc_column = l
  | [], _ => rfl
  | rf :: l, h => by
      rw [List.map_cons, set_proc_column_id rf (h rf (by simp)),
        map_set_proc_column_id l (fun rf2 hrf2 => h rf2 (by simp [hrf2]))]

theorem pyTruthy_setAttr (f : JFields) (k : String) (v : J) :
    pyTruthy (J.obj (setAttr f k v)) = true := by
  cases f with
  | nil => rfl
  | cons a b c =>
      rw [setAttr]
      by_cases h : a = k
      · rw [if_pos h]
        rfl
      · rw [if_neg h]
        rfl

theorem set_default_value_getAttr_ne (d : JFields) (k : String) (v : J) (k2 : String)
    (h : k ≠ k2) : getAttr (set_default_value d k v) k2 = getAttr d k2 := by
  unfold set_default_value
  by_cases hs : (getAttr d k).isSome = true
  · rw [if_pos hs]
  · rw [if_neg hs, getAttr_setAttr_ne d k v k2 h]

theorem set_default_value_isSome (d : JFields) (k : String) (v : J) :
    (getAttr (set_default_value d k v) k).isSome = true := by
  unfold set_default_value
  by_cases hs : (getAttr d k).isSome = true
  · rw [if_pos hs]
    exact hs
  · rw [if_neg hs, getAttr_setAttr_self]
    rfl

theorem set_default_value_of_isSome (d : JFields) (k : String) (v : J)
    (h : (getAttr d k).isSome = true) : set_default_value d k v = d := by
  unfold set_default_value
  rw [if_pos h]

theorem getD_ne_null (o : Option J) (h : o.getD J.null ≠ J.null) :
    o = some (o.getD J.null) := by
  cases o with
  | none => exact absurd rfl h
  | some x => rfl

theorem set_hyperopt_round (base hy tr1 hyp tr2 : J)
    (hes : ∃ bf esd, base = J.obj bf ∧ getAttr bf "early_stop" = some esd)
    (hg : goodO none base tr1 = true)
    (hml : ∀ hf ef sf mv, hy = J.obj hf → getAttr hf "executor" = some (J.obj ef) →
      getAttr ef "scheduler" = some (J.obj sf) → getAttr sf "max_t" = some mv →
      isLeafJ mv = true)
    (h : set_hyperopt_defaults hy tr1 = .ok (hyp, tr2)) :
    goodO none base tr2 = true ∧
    set_hyperopt_defaults hyp tr2 = .ok (hyp, tr2) := by
  obtain ⟨bf, esd, rfl, hesd⟩ := hes
  unfold set_hyperopt_defaults at h
  by_cases h1 : pyTruthy hy = true
  case neg =>
    rw [if_pos h1] at h
    simp only [Except.ok.injEq, Prod.mk.injEq] at h
    obtain ⟨rfl, rfl⟩ := h
    refine ⟨hg, ?_⟩
    unfold set_hyperopt_defaults
    rw [if_pos h1]
  case pos =>
  rw [if_neg (not_not_intro h1)] at h
  simp only [bind, Except.bind, pure, Except.pure] at h
  cases hy <;> try exact Except.noConfusion h
  next hf =>
  cases hex : getAttr hf "executor" with
  | none =>
      simp only [hex, Option.getD_none] at h
      rw [if_pos (by decide : ¬ (pyTruthy ((getAttr (.nil : JFields) "scheduler").getD J.null) = true))] at h
      simp only [Except.ok.injEq, Prod.mk.injEq] at h
      obtain ⟨rfl, rfl⟩ := h
      refine ⟨hg, ?_⟩
      unfold set_hyperopt_defaults
      rw [if_neg (not_not_intro h1)]
      simp only [bind, Except.bind, pure, Except.pure, hex, Option.getD_none]
      rw [if_pos (by decide : ¬ (pyTruthy ((getAttr (.nil : JFields) "scheduler").getD J.null) = true))]
  | some exv =>
      simp only [hex, Option.getD_some] at h
      cases exv <;> try exact Except.noConfusion h
      next ef =>
      cases hsch : getAttr ef "scheduler" with
      | none =>
          simp only [hsch, Option.getD_none] at h
          rw [if_pos (by decide : ¬ (pyTruthy J.null = true))] at h
          simp only [Except.ok.injEq, Prod.mk.injEq] at h
          obtain ⟨rfl, rfl⟩ := h
          refine ⟨hg, ?_⟩
          unfold set_hyperopt_defaults
          rw [if_neg (not_not_intro h1)]
          simp only [bind, Except.bind, pure, Except.pure, hex, Option.getD_some, hsch,
            Option.getD_none]
          rw [if_pos (by decide : ¬ (pyTruthy J.null = true))]
      | some schv =>
          simp only [hsch, Option.getD_some] at h
          by_cases hst : pyTruthy schv = true
          case neg =>
            rw [if_pos hst] at h
            simp only [Except.ok.injEq, Prod.mk.injEq] at h
            obtain ⟨rfl, rfl⟩ := h
            refine ⟨hg, ?_⟩
            unfold set_hyperopt_defaults
            rw [if_neg (not_not_intro h1)]
            simp only [bind, Except.bind, pure, Except.pure, hex, Option.getD_some, hsch]
            rw [if_pos hst]
          case pos =>
          rw [if_neg (not_not_intro hst)] at h
          simp only [Option.isSome_some, if_pos rfl] at h
          cases tr1 <;> try exact Bool.noConfusion hg
          next tf =>
          obtain ⟨esv, hesv, -⟩ := goodF_getAttr_some none bf tf "early_stop" esd hg hesd
          simp only [hesv] at h
          cases schv <;> try exact Except.noConfusion h
          next sf =>
          simp only [bind, Except.bind, pure, Except.pure, if_true] at h
          by_cases hmt : (getAttr sf "max_t").getD J.null = J.null
          case pos =>
            rw [if_neg (not_not_intro hmt)] at h
            by_cases hep : (getAttr (setAttr tf "early_stop" (J.i (-1))) "epochs").getD J.null
                = J.null
            case pos =>
              rw [if_neg (not_not_intro hep)] at h
              simp only [Except.ok.injEq, Prod.mk.injEq] at h
              obtain ⟨rfl, rfl⟩ := h
              have hex2 : getAttr (setAttr hf "executor"
                  (J.obj (set_default_value ef "type" (J.s "ray")))) "executor" =
                  some (J.obj (set_default_value ef "type" (J.s "ray"))) :=
                getAttr_setAttr_self _ _ _
              have hsch2 : getAttr (set_default_value ef "type" (J.s "ray")) "scheduler" =
                  some (J.obj sf) := by
                rw [set_default_value_getAttr_ne _ _ _ _ (by decide)]
                exact hsch
              have hes2 : getAttr (setAttr tf "early_stop" (J.i (-1))) "early_stop" =
                  some (J.i (-1)) := getAttr_setAttr_self _ _ _
              refine ⟨goodF_set_leaf none _ tf "early_stop" (J.i (-1)) hg (by decide) (by rfl), ?_⟩
              unfold set_hyperopt_defaults
              rw [if_neg (not_not_intro (pyTruthy_setAttr hf "executor" _))]
              simp only [bind, Except.bind, pure, Except.pure, hex2, Option.getD_some, hsch2]
              rw [if_neg (not_not_intro hst)]
              simp only [hex2, Option.isSome_some, if_pos rfl, if_true]
              rw [set_default_value_of_isSome _ _ _ (set_default_value_isSome ef "type" (J.s "ray"))]
              rw [setAttr_self _ _ _ hex2]
              simp only [hes2]
              rw [setAttr_setAttr_same]
              rw [if_neg (not_not_intro hmt)]
              rw [if_neg (not_not_intro hep)]
            case neg =>
              rw [if_pos hep] at h
              simp only [Except.ok.injEq, Prod.mk.injEq] at h
              obtain ⟨rfl, rfl⟩ := h
              have hex3 : getAttr (setAttr
                  (setAttr hf "executor" (J.obj (set_default_value ef "type" (J.s "ray"))))
                  "executor"
                  (J.obj (setAttr (set_default_value ef "type" (J.s "ray")) "scheduler"
                    (J.obj (setAttr sf "max_t"
                      ((getAttr (setAttr tf "early_stop" (J.i (-1))) "epochs").getD J.null))))))
                  "executor" =
                  some (J.obj (setAttr (set_default_value ef "type" (J.s "ray")) "scheduler"
                    (J.obj (setAttr sf "max_t"
                      ((getAttr (setAttr tf "early_stop" (J.i (-1))) "epochs").getD J.null))))) :=
                getAttr_setAttr_self _ _ _
              have hsch3 : getAttr (setAttr (set_default_value ef "type" (J.s "ray")) "scheduler"
                  (J.obj (setAttr sf "max_t"
                    ((getAttr (setAttr tf "early_stop" (J.i (-1))) "epochs").getD J.null))))
                  "scheduler" =
                  some (J.obj (setAttr sf "max_t"
                    ((getAttr (setAttr tf "early_stop" (J.i (-1))) "epochs").getD J.null))) :=
                getAttr_setAttr_self _ _ _
              have hef3type : (getAttr (setAttr (set_default_value ef "type" (J.s "ray"))
                  "scheduler" (J.obj (setAttr sf "max_t"
                    ((getAttr (setAttr tf "early_stop" (J.i (-1))) "epochs").getD J.null))))
                  "type").isSome = true := by
                rw [getAttr_setAttr_ne _ _ _ _ (by decide)]
                exact set_default_value_isSome ef "type" (J.s "ray")
              have hes2 : getAttr (setAttr tf "early_stop" (J.i (-1))) "early_stop" =
                  some (J.i (-1)) := getAttr_setAttr_self _ _ _
              refine ⟨goodF_set_leaf none _ tf "early_stop" (J.i (-1)) hg (by decide) (by rfl), ?_⟩
              unfold set_hyperopt_defaults
              rw [if_neg (not_not_intro (pyTruthy_setAttr _ "executor" _))]
              simp only [bind, Except.bind, pure, Except.pure, hex3, Option.getD_some, hsch3]
              rw [if_neg (not_not_intro (pyTruthy_setAttr sf "max_t" _))]
              simp only [hex3, Option.isSome_some, if_pos rfl, if_true]
              rw [set_default_value_of_isSome _ _ _ hef3type]
              rw [setAttr_self _ _ _ hex3]
              simp only [hes2]
              rw [setAttr_setAttr_same]
              simp only [getAttr_setAttr_self, Option.getD_some]
              rw [if_pos hep]
              rw [getAttr_setAttr_ne sf "max_t" _ "time_attr" (by decide)]
              by_cases hta : (getAttr sf "time_attr").getD J.null = J.s "time_total_s"
              · rw [if_pos hta]
                rw [if_neg hep]
              · rw [if_neg hta]
                rw [if_neg (fun hc => hc.2 rfl)]
                rw [setAttr_self _ _ _ (getD_ne_null _ hep)]
          case neg =>
            rw [if_pos hmt] at h
            have hmleaf : isLeafJ ((getAttr sf "max_t").getD J.null) = true :=
              hml hf ef sf _ rfl hex hsch (getD_ne_null _ hmt)
            by_cases hta : (getAttr sf "time_attr").getD J.null = J.s "time_total_s"
            case pos =>
              rw [if_pos hta] at h
              by_cases hep : (getAttr (setAttr tf "early_stop" (J.i (-1))) "epochs").getD J.null
                  = J.null
              case pos =>
                rw [if_pos hep] at h
                simp only [Except.ok.injEq, Prod.mk.injEq] at h
                obtain ⟨rfl, rfl⟩ := h
                have hex2 : getAttr (setAttr hf "executor"
                    (J.obj (set_default_value ef "type" (J.s "ray")))) "executor" =
                    some (J.obj (set_default_value ef "type" (J.s "ray"))) :=
                  getAttr_setAttr_self _ _ _
                have hsch2 : getAttr (set_default_value ef "type" (J.s "ray")) "scheduler" =
                    some (J.obj sf) := by
                  rw [set_default_value_getAttr_ne _ _ _ _ (by decide)]
                  exact hsch
                have hesX : getAttr (setAttr (setAttr tf "early_stop" (J.i (-1)))
                    "epochs" sysMaxsize) "early_stop" = some (J.i (-1)) := by
                  rw [getAttr_setAttr_ne _ _ _ _ (by decide)]
                  exact getAttr_setAttr_self _ _ _
                refine ⟨goodF_set_leaf none _ _ "epochs" sysMaxsize
                  (goodF_set_leaf none _ tf "early_stop" (J.i (-1)) hg (by decide) (by rfl))
                  (by decide) (by rfl), ?_⟩
                unfold set_hyperopt_defaults
                rw [if_neg (not_not_intro (pyTruthy_setAttr hf "executor" _))]
                simp only [bind, Except.bind, pure, Except.pure, hex2, Option.getD_some, hsch2]
                rw [if_neg (not_not_intro hst)]
                simp only [hex2, Option.isSome_some, if_pos rfl, if_true]
                rw [set_default_value_of_isSome _ _ _
                  (set_default_value_isSome ef "type" (J.s "ray"))]
                rw [setAttr_self _ _ _ hex2]
                simp only [hesX]
                rw [setAttr_self _ _ _ hesX]
                rw [if_pos hmt]
                rw [if_pos hta]
                simp only [getAttr_setAttr_self, Option.getD_some]
                rw [if_neg (by decide : ¬ (sysMaxsize = J.null))]
              case neg =>
                rw [if_neg hep] at h
                simp only [Except.ok.injEq, Prod.mk.injEq] at h
                obtain ⟨rfl, rfl⟩ := h
                have hex2 : getAttr (setAttr hf "executor"
                    (J.obj (set_default_value ef "type" (J.s "ray")))) "executor" =
                    some (J.obj (set_default_value ef "type" (J.s "ray"))) :=
                  getAttr_setAttr_self _ _ _
                have hsch2 : getAttr (set_default_value ef "type" (J.s "ray")) "scheduler" =
                    some (J.obj sf) := by
                  rw [set_default_value_getAttr_ne _ _ _ _ (by decide)]
                  exact hsch
                have hes2 : getAttr (setAttr tf "early_stop" (J.i (-1))) "early_stop" =
                    some (J.i (-1)) := getAttr_setAttr_self _ _ _
                refine ⟨goodF_set_leaf none _ tf "early_stop" (J.i (-1)) hg (by decide)
                  (by rfl), ?_⟩
                unfold set_hyperopt_defaults
                rw [if_neg (not_not_intro (pyTruthy_setAttr hf "executor" _))]
                simp only [bind, Except.bind, pure, Except.pure, hex2, Option.getD_some, hsch2]
                rw [if_neg (not_not_intro hst)]
                simp only [hex2, Option.isSome_some, if_pos rfl, if_true]
                rw [set_default_value_of_isSome _ _ _
                  (set_default_value_isSome ef "type" (J.s "ray"))]
                rw [setAttr_self _ _ _ hex2]
                simp only [hes2]
                rw [setAttr_setAttr_same]
                rw [if_pos hmt]
                rw [if_pos hta]
                rw [if_neg hep]
            case neg =>
              rw [if_neg hta] at h
              by_cases hcond : (getAttr (setAttr tf "early_stop" (J.i (-1))) "epochs").getD J.null
                  ≠ J.null ∧
                  (getAttr (setAttr tf "early_stop" (J.i (-1))) "epochs").getD J.null ≠
                    (getAttr sf "max_t").getD J.null
              case pos =>
                rw [if_pos hcond] at h
                exact Except.noConfusion h
              case neg =>
                rw [if_neg hcond] at h
                simp only [Except.ok.injEq, Prod.mk.injEq] at h
                obtain ⟨rfl, rfl⟩ := h
                have hex2 : getAttr (setAttr hf "executor"
                    (J.obj (set_default_value ef "type" (J.s "ray")))) "executor" =
                    some (J.obj (set_default_value ef "type" (J.s "ray"))) :=
                  getAttr_setAttr_self _ _ _
                have hsch2 : getAttr (set_default_value ef "type" (J.s "ray")) "scheduler" =
                    some (J.obj sf) := by
                  rw [set_default_value_getAttr_ne _ _ _ _ (by decide)]
                  exact hsch
                have hesY : getAttr (setAttr (setAttr tf "early_stop" (J.i (-1)))
                    "epochs" ((getAttr sf "max_t").getD J.null)) "early_stop" =
                    some (J.i (-1)) := by
                  rw [getAttr_setAttr_ne _ _ _ _ (by decide)]
                  exact getAttr_setAttr_self _ _ _
                refine ⟨goodF_set_leaf none _ _ "epochs" ((getAttr sf "max_t").getD J.null)
                  (goodF_set_leaf none _ tf "early_stop" (J.i (-1)) hg (by decide) (by rfl))
                  (by decide) hmleaf, ?_⟩
                unfold set_hyperopt_defaults
                rw [if_neg (not_not_intro (pyTruthy_setAttr hf "executor" _))]
                simp only [bind, Except.bind, pure, Except.pure, hex2, Option.getD_some, hsch2]
                rw [if_neg (not_not_intro hst)]
                simp only [hex2, Option.isSome_some, if_pos rfl, if_true]
                rw [set_default_value_of_isSome _ _ _
                  (set_default_value_isSome ef "type" (J.s "ray"))]
                rw [setAttr_self _ _ _ hex2]
                simp only [hesY]
                rw [setAttr_self _ _ _ hesY]
                rw [if_pos hmt]
                rw [if_neg hta]
                simp only [getAttr_setAttr_self, Option.getD_some]
                rw [if_neg (fun hc => hc.2 rfl)]
                rw [setAttr_setAttr_same]

theorem resolve_model_type_non_gbm (d : JFields) (c : JFields) (mt : String) (tr0 : J)
    (c2 : JFields)
    (hmt : ∀ v, getAttr d "model_type" = some v → v ≠ J.s "gbm")
    (h : resolve_model_type d c = .ok (mt, tr0, c2)) :
    mt = "ecd" ∧ tr0 = ECDTrainerConfig ∧ c2 = c := by
  unfold resolve_model_type at h
  cases hga : getAttr d "model_type" <;> simp only [hga] at h
  · simp only [Except.ok.injEq, Prod.mk.injEq] at h
    exact ⟨h.1.symm, h.2.1.symm, h.2.2.symm⟩
  next v =>
  rw [if_neg (fun he => hmt v hga he)] at h
  simp only [Except.ok.injEq, Prod.mk.injEq] at h
  exact ⟨h.1.symm, h.2.1.symm, h.2.2.symm⟩

theorem resolve_trainer_round (d : JFields) (base : J) (basef : JFields) (tr1 : J)
    (hbase : base = J.obj basef)
    (hself : goodF none basef basef = true)
    (hdeep : noFTDeepF basef = true)
    (hok : ∀ tf, getAttr d "trainer" = some (J.obj tf) → pyDictOKF tf = true)
    (h : resolve_trainer d base = .ok tr1) :
    goodO none base tr1 = true := by
  subst hbase
  unfold resolve_trainer at h
  cases hga : getAttr d "trainer" <;> simp only [hga] at h
  · simp only [Except.ok.injEq] at h
    subst h
    exact hself
  next v =>
  cases v <;> try exact Except.noConfusion h
  next tf =>
  obtain ⟨rf, rfl, hgood⟩ := buildF none tf basef basef tr1 hself hdeep (hok tf hga)
    (fun _ _ => rfl) h
  exact hgood

theorem resolve_trainer_gbm_type (d : JFields) (tr1 : J)
    (hok : ∀ tf, getAttr d "trainer" = some (J.obj tf) → pyDictOKF tf = true)
    (htyp : ∀ tf, getAttr d "trainer" = some (J.obj tf) →
      getAttr tf "type" = none ∨ getAttr tf "type" = some (J.s "lightgbm_trainer"))
    (h : resolve_trainer d GBMTrainerConfig = .ok tr1) :
    jGetAttr tr1 "type" = some (J.s "lightgbm_trainer") := by
  unfold resolve_trainer at h
  cases htd : getAttr d "trainer" <;> simp only [htd] at h
  · simp only [Except.ok.injEq] at h
    rw [← h]
    rfl
  case some td =>
  cases td <;> try exact Except.noConfusion h
  case obj tf =>
  cases htyp tf htd with
  | inl hnone =>
      obtain ⟨rf, rfl, hpres⟩ := set_attributes_obj
        (JFields.ofList [("type", J.s "lightgbm_trainer"), ("early_stop", J.i 5),
          ("boosting_type", J.s "gbdt"), ("num_boost_round", J.i 100)]) tf none tr1 h
      rw [jGetAttr, hpres "type" (getAttr_none_not_mem tf "type" hnone)]
      rfl
  | inr hsome =>
      exact set_attributes_leaf_value
        (JFields.ofList [("type", J.s "lightgbm_trainer"), ("early_stop", J.i 5),
          ("boosting_type", J.s "gbdt"), ("num_boost_round", J.i 100)]) tf none tr1
        "type" (J.s "lightgbm_trainer") h (pyDictOKF_nodup tf (hok tf htd)) hsome
        (fun vf hv => J.noConfusion hv) (by decide)

theorem resolve_model_type_cases (d c : JFields) (mt : String) (tr0 : J) (c2 : JFields)
    (h : resolve_model_type d c = .ok (mt, tr0, c2)) :
    (mt = "ecd" ∧ tr0 = ECDTrainerConfig ∧ c2 = c) ∨
    (mt = "gbm" ∧ tr0 = GBMTrainerConfig ∧ gbm_force_encoders c = .ok c2 ∧
      (∀ tf, getAttr d "trainer" = some (J.obj tf) →
        getAttr tf "type" = none ∨ getAttr tf "type" = some (J.s "lightgbm_trainer"))) := by
  cases hga : getAttr d "model_type" with
  | none =>
      exact Or.inl (resolve_model_type_non_gbm d c mt tr0 c2
        (fun v hv => by rw [hga] at hv; exact Option.noConfusion hv) h)
  | some v =>
      by_cases hgbm : v = J.s "gbm"
      · subst hgbm
        obtain ⟨h1, h2, h3, h4⟩ := resolve_model_type_gbm_inv d c mt tr0 c2 hga h
        exact Or.inr ⟨h1, h2, h3, h4⟩
      · exact Or.inl (resolve_model_type_non_gbm d c mt tr0 c2
          (fun v2 hv2 => by
            rw [hga] at hv2
            injection hv2 with hv3
            rw [← hv3]
            exact hgbm) h)

theorem resolve_preprocessing_round (d : JFields) (pre : J)
    (hok : ∀ pf, getAttr d "preprocessing" = some (J.obj pf) → pyDictOKF pf = true)
    (h : resolve_preprocessing d = .ok pre) :
    ∀ d2, getAttr d2 "preprocessing" = some pre → resolve_preprocessing d2 = .ok pre := by
  unfold resolve_preprocessing at h
  cases hga : getAttr d "preprocessing" <;> simp only [hga] at h
  · simp only [Except.ok.injEq] at h
    subst h
    intro d2 hget2
    unfold resolve_preprocessing
    rw [hget2]
    exact restoreF none _ _ (by rfl)
  next v =>
  cases v <;> try exact Except.noConfusion h
  next pf =>
  obtain ⟨rf, rfl, hgood⟩ := buildF none pf _ _ pre (by rfl) (by rfl) (hok pf hga)
    (fun _ _ => rfl) h
  intro d2 hget2
  unfold resolve_preprocessing
  rw [hget2]
  exact restoreF none _ rf hgood

theorem combiner_cls_good (t : String) (c : J) (h : combiner_registry t = some c) :
    ∃ cf, c = J.obj cf ∧ (∀ ft2, goodF ft2 cf cf = true) ∧ noFTDeepF cf = true := by
  unfold combiner_registry at h
  split at h <;> try exact Option.noConfusion h
  all_goals simp only [Option.some.injEq] at h
  all_goals subst h
  all_goals exact ⟨_, rfl, fun _ => rfl, rfl⟩

theorem resolve_combiner_round (d : JFields) (cmb : J)
    (hok : ∀ cf, getAttr d "combiner" = some (J.obj cf) → pyDictOKF cf = true)
    (h : resolve_combiner d = .ok cmb) :
    ∀ d2, getAttr d2 "combiner" = some cmb → resolve_combiner d2 = .ok cmb := by
  unfold resolve_combiner at h
  cases hga : getAttr d "combiner" <;> simp only [hga] at h
  · simp only [Except.ok.injEq] at h
    subst h
    intro d2 hget2
    unfold resolve_combiner
    rw [hget2]
    rfl
  next v =>
  cases v <;> try exact Except.noConfusion h
  next cf =>
  simp only [bind, Except.bind, pure, Except.pure] at h
  cases hct : getAttr cf "type" <;> simp only [hct] at h
  · exact Except.noConfusion h
  next ct =>
  have htleaf : isLeafJ ct = true := pyDictOKF_type_leaf cf ct (hok cf hga) hct
  by_cases hne : jGetAttr ConcatCombinerConfig "type" = some ct
  case pos =>
    rw [if_neg (fun hx => hx hne)] at h
    rw [if_neg (by decide : ¬ (jGetAttr ConcatCombinerConfig "type" = some (J.s "sequence")))] at h
    obtain ⟨cmf, rfl, hgood⟩ := buildF none cf _ _ cmb (by rfl) (by rfl) (hok cf hga)
      (fun _ _ => rfl) h
    have hctype2 : getAttr cmf "type" = some ct := by
      have hlv := set_attributes_leaf_value _ cf none (J.obj cmf) "type" ct h
        (pyDictOKF_nodup cf (hok cf hga)) hct (isLeafJ_ne_obj ct htleaf) (by decide)
      simpa [jGetAttr] using hlv
    intro d2 hget2
    unfold resolve_combiner
    rw [hget2]
    simp only [bind, Except.bind, pure, Except.pure, hctype2]
    rw [if_neg (fun hx => hx hne)]
    rw [if_neg (by decide : ¬ (jGetAttr ConcatCombinerConfig "type" = some (J.s "sequence")))]
    exact restoreF none _ cmf hgood
  case neg =>
    rw [if_pos hne] at h
    cases ct <;> try exact Except.noConfusion h
    next cstr =>
    cases hcreg : combiner_registry cstr <;> simp only [hcreg] at h
    · exact Except.noConfusion h
    next cls =>
    obtain ⟨clsf, rfl, hgcls, hdcls⟩ := combiner_cls_good cstr cls hcreg
    obtain ⟨cmf, rfl, hgood⟩ := buildF _ cf clsf clsf cmb (hgcls _) hdcls (hok cf hga)
      (fun _ _ => rfl) h
    have hctype2 : getAttr cmf "type" = some (J.s cstr) := by
      have hlv := set_attributes_leaf_value clsf cf _ (J.obj cmf) "type" (J.s cstr) h
        (pyDictOKF_nodup cf (hok cf hga)) hct (isLeafJ_ne_obj _ htleaf) (by decide)
      simpa [jGetAttr] using hlv
    intro d2 hget2
    unfold resolve_combiner
    rw [hget2]
    simp only [bind, Except.bind, pure, Except.pure, hctype2]
    rw [if_pos hne]
    simp only [hcreg]
    exact restoreF _ clsf cmf hgood

theorem mem_keys_setAttr_inv : ∀ (c : JFields) (k : String) (v : J) (k2 : String),
    k2 ∈ JFields.keys (setAttr c k v) → k2 ∈ JFields.keys c ∨ k2 = k
  | c, k, v, k2, h => by
      by_cases hmem : k ∈ JFields.keys c
      · rw [keys_setAttr_mem c k v hmem] at h
        exact Or.inl h
      · rw [setAttr_not_mem c k v hmem, keys_jappend] at h
        simp only [List.mem_append, JFields.keys, List.mem_singleton] at h
        exact h

theorem prep_feature_ok (f f2 : JFields) (h1 : pyDictOKF f = true)
    (hc : set_feature_column f = .ok f2) :
    pyDictOKF (set_proc_column f2) = true := by
  have hstep : pyDictOKF f2 = true := by
    unfold set_feature_column at hc
    cases hcol : getAttr f "column" <;> rw [hcol] at hc
    · cases hnm : getAttr f "name" <;> rw [hnm] at hc
      · exact Except.noConfusion hc
      next nv =>
      simp only [Except.ok.injEq] at hc
      subst hc
      exact pyDictOKF_setAttr f "column" nv h1 (by decide)
        (fun he => absurd he (by decide)) (pyDictOK_getAttr f "name" nv h1 hnm)
    · simp only [Except.ok.injEq] at hc
      subst hc
      exact h1
  unfold set_proc_column
  cases hpc : getAttr f2 "proc_column"
  · exact pyDictOKF_setAttr f2 "proc_column" _ hstep (by decide)
      (fun he => absurd he (by decide)) (by rfl)
  · exact hstep

theorem prep_features_ok : ∀ (fs0 fs1 : List JFields),
    (∀ f ∈ fs0, pyDictOKF f = true) →
    fs0.mapM set_feature_column = .ok fs1 →
    ∀ f ∈ fs1.map set_proc_column, pyDictOKF f = true
  | [], fs1, _, hmm2, f, hf => by
      simp only [List.mapM_nil, pure, Except.pure, Except.ok.injEq] at hmm2
      subst hmm2
      simp at hf
  | f0 :: fs0, fs1, hok, hmm2, f, hf => by
      rw [List.mapM_cons] at hmm2
      simp only [bind, Except.bind, pure, Except.pure] at hmm2
      cases hc : set_feature_column f0 <;> rw [hc] at hmm2
      · exact Except.noConfusion hmm2
      next f02 =>
      cases hcs : fs0.mapM set_feature_column <;> rw [hcs] at hmm2
      · exact Except.noConfusion hmm2
      next fs02 =>
      simp only [Except.ok.injEq] at hmm2
      subst hmm2
      simp only [List.map_cons, List.mem_cons] at hf
      rcases hf with rfl | hf
      · exact prep_feature_ok f0 f02 (hok f0 (by simp)) hc
      · exact prep_features_ok fs0 fs02 (fun f3 hf3 => hok f3 (by simp [hf3])) hcs f hf

/-- C1: round-trip of construction and projection.  For every config dict `d`
on which `ModelConfig.from_dict` succeeds yielding `m`, constructing again
from the projection `m.to_dict()` succeeds, and the projection of the
resulting object equals `m.to_dict()`
(src/ludwig/schema/config_object.py:110-179 and 469-489); this covers both
the ECD and the GBM model types and features whose `active` flag the user
cleared.  Proved for configs that real schema validation admits: the user
`defaults`, `combiner`, `trainer` and `preprocessing` sections and every
feature entry are Python dicts with per-level unique keys, no stray
feature-type-named keys and scalar `type` discriminators, and a scheduler
`max_t` is a scalar. -/
theorem round_trip_construction (d : JFields) (m : ModelConfig)
    (hdefok : ∀ df, getAttr d "defaults" = some (J.obj df) → defaultsArgOK df = true)
    (hcmbok : ∀ cf, getAttr d "combiner" = some (J.obj cf) → pyDictOKF cf = true)
    (htrok : ∀ tf, getAttr d "trainer" = some (J.obj tf) → pyDictOKF tf = true)
    (hpreok : ∀ pf, getAttr d "preprocessing" = some (J.obj pf) → pyDictOKF pf = true)
    (hinok : ∀ fs, getFeatureList d "input_features" = .ok fs →
      ∀ f ∈ fs, pyDictOKF f = true)
    (houtok : ∀ fs, getFeatureList d "output_features" = .ok fs →
      ∀ f ∈ fs, pyDictOKF f = true)
    (hsml : ∀ hf ef sf mv, getAttr d "hyperopt" = some (J.obj hf) →
      getAttr hf "executor" = some (J.obj ef) → getAttr ef "scheduler" = some (J.obj sf) →
      getAttr sf "max_t" = some mv → isLeafJ mv = true)
    (h : from_dict d = .ok m) :
    ∃ m2, from_dict (ModelConfig.to_dict m) = .ok m2 ∧
      ModelConfig.to_dict m2 = ModelConfig.to_dict m := by
  obtain ⟨dfs, inRaw0, outRaw0, inRaw1, outRaw1, inputC, outputC, mt, tr0, inputC2, cmb, tr1,
    pre, hyp, tr2, h1, h2, h3, h4, h5, h6, h7, h8, h9, h10, h11, h12, h13, hm⟩ :=
    from_dict_ok_inv d m h
  obtain ⟨hgd, hslot, hdrest⟩ := resolve_defaults_round d dfs hdefok h1
  have hinC := prep_features_ok inRaw0 inRaw1 (hinok inRaw0 h2) h4
  have houtC := prep_features_ok outRaw0 outRaw1 (houtok outRaw0 h3) h5
  have hCin : InCs dfs inputC :=
    parse_input_features_inv dfs hgd hslot _ .nil inputC hinC trivial h6
  have hCout : RestorableCs (parse_output_feature dfs) outputC :=
    parse_output_features_inv dfs hgd hslot _ .nil outputC houtC trivial h7
  have hCout2 : RestorableCs (parse_output_feature dfs) (activeSub outputC) :=
    RestorableCs_activeSub _ outputC hCout
  have hcmbrest := resolve_combiner_round d cmb hcmbok h9
  have hprerest := resolve_preprocessing_round d pre hpreok h11
  have hml2 : ∀ hf ef sf mv, (getAttr d "hyperopt").getD (J.obj .nil) = J.obj hf →
      getAttr hf "executor" = some (J.obj ef) → getAttr ef "scheduler" = some (J.obj sf) →
      getAttr sf "max_t" = some mv → isLeafJ mv = true := by
    intro hf ef sf mv hhy hex hsch2 hmv
    cases hga : getAttr d "hyperopt" with
    | none =>
        rw [hga, Option.getD_none] at hhy
        injection hhy with hhf
        rw [← hhf] at hex
        rw [getAttr] at hex
        exact Option.noConfusion hex
    | some hv =>
        rw [hga, Option.getD_some] at hhy
        subst hhy
        exact hsml hf ef sf mv hga hex hsch2 hmv
  rcases resolve_model_type_cases d inputC mt tr0 inputC2 h8 with
    ⟨rfl, rfl, rfl⟩ | ⟨rfl, rfl, hforce, htyp⟩
  · have htr1good := resolve_trainer_round d ECDTrainerConfig _ tr1 rfl (by rfl) (by rfl)
      htrok h10
    obtain ⟨htr2good, hhyidem⟩ := set_hyperopt_round ECDTrainerConfig _ tr1 hyp tr2
      ⟨_, _, rfl, rfl⟩ htr1good hml2 h12
    cases tr2 <;> try exact Bool.noConfusion htr2good
    next tf2 =>
    subst hm
    have hCin2 : RestorableCs (parse_input_feature dfs) (activeSub inputC2) :=
      RestorableCs_activeSub _ _ (InCs_restorable dfs inputC2 hCin)
    have hT1 : resolve_defaults
        (ModelConfig.to_dict ⟨"ecd", inputC2, outputC, cmb, J.obj tf2, pre, dfs, hyp⟩) =
        .ok dfs := hdrest _ rfl
    have hT2 : getFeatureList
        (ModelConfig.to_dict ⟨"ecd", inputC2, outputC, cmb, J.obj tf2, pre, dfs, hyp⟩)
        "input_features" = .ok (objListOf (activeSub inputC2)) :=
      getFeatureList_to_dict_in _
    have hT3 : getFeatureList
        (ModelConfig.to_dict ⟨"ecd", inputC2, outputC, cmb, J.obj tf2, pre, dfs, hyp⟩)
        "output_features" = .ok (objListOf (activeSub outputC)) :=
      getFeatureList_to_dict_out _
    have hT4 : (objListOf (activeSub inputC2)).mapM set_feature_column =
        .ok (objListOf (activeSub inputC2)) :=
      mapM_set_feature_column_id _
        (fun rf hrf => (restorable_objList_facts _ _ hCin2 rf hrf).1)
    have hT5 : (objListOf (activeSub outputC)).mapM set_feature_column =
        .ok (objListOf (activeSub outputC)) :=
      mapM_set_feature_column_id _
        (fun rf hrf => (restorable_objList_facts _ _ hCout2 rf hrf).1)
    have hT6map : (objListOf (activeSub inputC2)).map set_proc_column =
        objListOf (activeSub inputC2) :=
      map_set_proc_column_id _
        (fun rf hrf => (restorable_objList_facts _ _ hCin2 rf hrf).2)
    have hT7map : (objListOf (activeSub outputC)).map set_proc_column =
        objListOf (activeSub outputC) :=
      map_set_proc_column_id _
        (fun rf hrf => (restorable_objList_facts _ _ hCout2 rf hrf).2)
    have hT6 : parse_input_features dfs .nil (objListOf (activeSub inputC2)) =
        .ok (activeSub inputC2) := by
      have hx := parse_input_features_rebuild dfs (activeSub inputC2) .nil hCin2
        (fun k hk => by simp [JFields.keys])
      simpa [jappend] using hx
    have hT7 : parse_output_features dfs .nil (objListOf (activeSub outputC)) =
        .ok (activeSub outputC) := by
      have hx := parse_output_features_rebuild dfs (activeSub outputC) .nil hCout2
        (fun k hk => by simp [JFields.keys])
      simpa [jappend] using hx
    have hT8 : resolve_model_type
        (ModelConfig.to_dict ⟨"ecd", inputC2, outputC, cmb, J.obj tf2, pre, dfs, hyp⟩)
        (activeSub inputC2) = .ok ("ecd", ECDTrainerConfig, activeSub inputC2) := by
      unfold resolve_model_type
      have hg1 : getAttr
          (ModelConfig.to_dict ⟨"ecd", inputC2, outputC, cmb, J.obj tf2, pre, dfs, hyp⟩)
          "model_type" = some (J.s "ecd") := rfl
      simp only [hg1]
      rw [if_neg (by decide : ¬ ((J.s "ecd" : J) = J.s "gbm"))]
    have hT9 : resolve_combiner
        (ModelConfig.to_dict ⟨"ecd", inputC2, outputC, cmb, J.obj tf2, pre, dfs, hyp⟩) =
        .ok cmb := hcmbrest _ rfl
    have hT10 : resolve_trainer
        (ModelConfig.to_dict ⟨"ecd", inputC2, outputC, cmb, J.obj tf2, pre, dfs, hyp⟩)
        ECDTrainerConfig = .ok (J.obj tf2) := by
      unfold resolve_trainer
      have hg2 : getAttr
          (ModelConfig.to_dict ⟨"ecd", inputC2, outputC, cmb, J.obj tf2, pre, dfs, hyp⟩)
          "trainer" = some (J.obj tf2) := rfl
      simp only [hg2]
      exact restoreF none _ tf2 htr2good
    have hT11 : resolve_preprocessing
        (ModelConfig.to_dict ⟨"ecd", inputC2, outputC, cmb, J.obj tf2, pre, dfs, hyp⟩) =
        .ok pre := hprerest _ rfl
    have hT12 : (getAttr
        (ModelConfig.to_dict ⟨"ecd", inputC2, outputC, cmb, J.obj tf2, pre, dfs, hyp⟩)
        "hyperopt").getD (J.obj .nil) = hyp := by
      have hg3 : getAttr
          (ModelConfig.to_dict ⟨"ecd", inputC2, outputC, cmb, J.obj tf2, pre, dfs, hyp⟩)
          "hyperopt" = some hyp := rfl
      rw [hg3, Option.getD_some]
    have hTD : ModelConfig.to_dict
        ⟨"ecd", activeSub inputC2, activeSub outputC, cmb, J.obj tf2, pre, dfs, hyp⟩ =
        ModelConfig.to_dict ⟨"ecd", inputC2, outputC, cmb, J.obj tf2, pre, dfs, hyp⟩ := by
      unfold ModelConfig.to_dict
      simp only [activeValues_activeSub]
    refine ⟨⟨"ecd", activeSub inputC2, activeSub outputC, cmb, J.obj tf2, pre, dfs, hyp⟩,
      ?_, hTD⟩
    unfold from_dict upgrade_to_latest_version
    simp only [bind, Except.bind, pure, Except.pure]
    simp only [hT1, hT2, hT3, hT4, hT5, hT6map, hT7map, hT6, hT7, hT8, hT9, hT10, hT11, hT12,
      hhyidem]
    rw [hTD]
    simp only [h13]
  · have htr1good := resolve_trainer_round d GBMTrainerConfig _ tr1 rfl (by rfl) (by rfl)
      htrok h10
    have htr1type := resolve_trainer_gbm_type d tr1 htrok htyp h10
    obtain ⟨htr2good, hhyidem⟩ := set_hyperopt_round GBMTrainerConfig _ tr1 hyp tr2
      ⟨_, _, rfl, rfl⟩ htr1good hml2 h12
    have htypekeep := set_hyperopt_defaults_keeps ((getAttr d "hyperopt").getD (J.obj .nil)) tr1
      (hyp, tr2) h12 "type" (by decide) (by decide)
    cases tr2 <;> try exact Bool.noConfusion htr2good
    next tf2 =>
    subst hm
    have htf2type : getAttr tf2 "type" = some (J.s "lightgbm_trainer") := by
      have h2t : jGetAttr (J.obj tf2) "type" = jGetAttr tr1 "type" := htypekeep
      rw [htr1type] at h2t
      exact h2t
    obtain ⟨hGin, -⟩ := gbm_force_inv dfs inputC inputC2 hCin hforce
    have hGin2 : GBMCs dfs (activeSub inputC2) := GBMCs_activeSub dfs inputC2 hGin
    have hT1 : resolve_defaults
        (ModelConfig.to_dict ⟨"gbm", inputC2, outputC, cmb, J.obj tf2, pre, dfs, hyp⟩) =
        .ok dfs := hdrest _ rfl
    have hT2 : getFeatureList
        (ModelConfig.to_dict ⟨"gbm", inputC2, outputC, cmb, J.obj tf2, pre, dfs, hyp⟩)
        "input_features" = .ok (objListOf (activeSub inputC2)) :=
      getFeatureList_to_dict_in _
    have hT3 : getFeatureList
        (ModelConfig.to_dict ⟨"gbm", inputC2, outputC, cmb, J.obj tf2, pre, dfs, hyp⟩)
        "output_features" = .ok (objListOf (activeSub outputC)) :=
      getFeatureList_to_dict_out _
    have hT4 : (objListOf (activeSub inputC2)).mapM set_feature_column =
        .ok (objListOf (activeSub inputC2)) :=
      mapM_set_feature_column_id _
        (fun rf hrf => (gbm_objList_facts dfs _ hGin2 rf hrf).1)
    have hT5 : (objListOf (activeSub outputC)).mapM set_feature_column =
        .ok (objListOf (activeSub outputC)) :=
      mapM_set_feature_column_id _
        (fun rf hrf => (restorable_objList_facts _ _ hCout2 rf hrf).1)
    have hT6map : (objListOf (activeSub inputC2)).map set_proc_column =
        objListOf (activeSub inputC2) :=
      map_set_proc_column_id _
        (fun rf hrf => (gbm_objList_facts dfs _ hGin2 rf hrf).2)
    have hT7map : (objListOf (activeSub outputC)).map set_proc_column =
        objListOf (activeSub outputC) :=
      map_set_proc_column_id _
        (fun rf hrf => (restorable_objList_facts _ _ hCout2 rf hrf).2)
    obtain ⟨CX, hparse0, hforceCX, hkeysCX⟩ := gbm_rebuild dfs (activeSub inputC2) .nil hGin2
      (fun k hk => by simp [JFields.keys])
    have hT6 : parse_input_features dfs .nil (objListOf (activeSub inputC2)) = .ok CX := by
      simpa [jappend] using hparse0
    have hT7 : parse_output_features dfs .nil (objListOf (activeSub outputC)) =
        .ok (activeSub outputC) := by
      have hx := parse_output_features_rebuild dfs (activeSub outputC) .nil hCout2
        (fun k hk => by simp [JFields.keys])
      simpa [jappend] using hx
    have hT8 : resolve_model_type
        (ModelConfig.to_dict ⟨"gbm", inputC2, outputC, cmb, J.obj tf2, pre, dfs, hyp⟩) CX =
        .ok ("gbm", GBMTrainerConfig, activeSub inputC2) := by
      unfold resolve_model_type
      have hg1 : getAttr
          (ModelConfig.to_dict ⟨"gbm", inputC2, outputC, cmb, J.obj tf2, pre, dfs, hyp⟩)
          "model_type" = some (J.s "gbm") := rfl
      simp only [hg1]
      simp only [bind, Except.bind, pure, Except.pure]
      have hg2 : getAttr
          (ModelConfig.to_dict ⟨"gbm", inputC2, outputC, cmb, J.obj tf2, pre, dfs, hyp⟩)
          "trainer" = some (J.obj tf2) := rfl
      simp only [hg2, Option.getD_some, htf2type]
      rw [if_neg (not_not_intro rfl)]
      simp only [hforceCX]
      rw [if_pos trivial]
    have hT9 : resolve_combiner
        (ModelConfig.to_dict ⟨"gbm", inputC2, outputC, cmb, J.obj tf2, pre, dfs, hyp⟩) =
        .ok cmb := hcmbrest _ rfl
    have hT10 : resolve_trainer
        (ModelConfig.to_dict ⟨"gbm", inputC2, outputC, cmb, J.obj tf2, pre, dfs, hyp⟩)
        GBMTrainerConfig = .ok (J.obj tf2) := by
      unfold resolve_trainer
      have hg2 : getAttr
          (ModelConfig.to_dict ⟨"gbm", inputC2, outputC, cmb, J.obj tf2, pre, dfs, hyp⟩)
          "trainer" = some (J.obj tf2) := rfl
      simp only [hg2]
      exact restoreF none _ tf2 htr2good
    have hT11 : resolve_preprocessing
        (ModelConfig.to_dict ⟨"gbm", inputC2, outputC, cmb, J.obj tf2, pre, dfs, hyp⟩) =
        .ok pre := hprerest _ rfl
    have hT12 : (getAttr
        (ModelConfig.to_dict ⟨"gbm", inputC2, outputC, cmb, J.obj tf2, pre, dfs, hyp⟩)
        "hyperopt").getD (J.obj .nil) = hyp := by
      have hg3 : getAttr
          (ModelConfig.to_dict ⟨"gbm", inputC2, outputC, cmb, J.obj tf2, pre, dfs, hyp⟩)
          "hyperopt" = some hyp := rfl
      rw [hg3, Option.getD_some]
    have hTD : ModelConfig.to_dict
        ⟨"gbm", activeSub inputC2, activeSub outputC, cmb, J.obj tf2, pre, dfs, hyp⟩ =
        ModelConfig.to_dict ⟨"gbm", inputC2, outputC, cmb, J.obj tf2, pre, dfs, hyp⟩ := by
      unfold ModelConfig.to_dict
      simp only [activeValues_activeSub]
    refine ⟨⟨"gbm", activeSub inputC2, activeSub outputC, cmb, J.obj tf2, pre, dfs, hyp⟩,
      ?_, hTD⟩
    unfold from_dict upgrade_to_latest_version
    simp only [bind, Except.bind, pure, Except.pure]
    simp only [hT1, hT2, hT3, hT4, hT5, hT6map, hT7map, hT6, hT7, hT8, hT9, hT10, hT11, hT12,
      hhyidem]
    rw [hTD]
    simp only [h13]

/-- Scenario for the C1 witness: an ECD config with a text input feature whose
encoder is switched to `rnn`, a binary output feature and a user trainer
section. -/
def roundTripConfig : JFields := JFields.ofList [
  ("model_type", J.s "ecd"),
  ("input_features", J.arrL [J.objL [("name", J.s "t1"), ("type", J.s "text"),
    ("encoder", J.objL [("type", J.s "rnn")])]]),
  ("output_features", J.arrL [J.objL [("name", J.s "o1"), ("type", J.s "binary")]]),
  ("trainer", J.objL [("epochs", J.i 5)])]

/-- Witness for C1 at `roundTripConfig`: construction succeeds, constructing
again from the projection succeeds, and the projections agree. -/
theorem round_trip_construction_witness :
    ∃ m m2, from_dict roundTripConfig = .ok m ∧
      from_dict (ModelConfig.to_dict m) = .ok m2 ∧
      ModelConfig.to_dict m2 = ModelConfig.to_dict m := by
  cases hfd : from_dict roundTripConfig with
  | error e =>
      have hok : (from_dict roundTripConfig).isOk = true := rfl
      rw [hfd] at hok
      exact Bool.noConfusion hok
  | ok m =>
      have hcall := round_trip_construction roundTripConfig m
        (fun df hx => Option.noConfusion hx)
        (fun cf hx => Option.noConfusion hx)
        (fun tf hx => by
          injection hx with hx2
          injection hx2 with hx3
          rw [← hx3]
          decide)
        (fun pf hx => Option.noConfusion hx)
        (fun fs hfs => by
          rw [show getFeatureList roundTripConfig "input_features" =
            Except.ok [JFields.ofList [("name", J.s "t1"), ("type", J.s "text"),
              ("encoder", J.objL [("type", J.s "rnn")])]] from rfl] at hfs
          injection hfs with hfs2
          rw [← hfs2]
          intro f hf
          simp only [List.mem_singleton] at hf
          subst hf
          decide)
        (fun fs hfs => by
          rw [show getFeatureList roundTripConfig "output_features" =
            Except.ok [JFields.ofList [("name", J.s "o1"), ("type", J.s "binary")]]
            from rfl] at hfs
          injection hfs with hfs2
          rw [← hfs2]
          intro f hf
          simp only [List.mem_singleton] at hf
          subst hf
          decide)
        (fun hf ef sf mv hhy hex hsch hmv => Option.noConfusion hhy)
        hfd
      obtain ⟨m2, hre, hpd⟩ := hcall
      exact ⟨m, m2, rfl, hre, hpd⟩
